import Mathlib

/-! imperva-export-cli: retry executor, status poller and atomic file writer.

A shallow embedding of `internal/cmd/utils.go`, `internal/cmd/status.go` and
`internal/cmd/download.go`.

* Errors are modelled by their message (`fmt.Errorf` only builds messages); a Go
  `error` result is an `Option String`, with `none` for `nil`.
* Time is a natural number of nanoseconds since the start of the run, the unit of
  `time.Duration`.
* The HTTP server, the file system faults, the configuration and the library
  decoders are inputs, collected in `Env`; the mutable part of the run (clock,
  request counters, file system) is the `World` threaded through every operation.
-/

namespace ImpervaExport

/-! ## Strings and paths (`strings`, `path/filepath` on Unix) -/

/-- Byte sequences (response bodies, file contents). -/
abbrev Bytes := List UInt8

/-- The conversion `string(body)`, reading every byte as one character. -/
def bytesToString (b : Bytes) : String :=
  String.mk (b.map fun x => Char.ofNat x.toNat)

/-- Go `strings.HasPrefix` on character lists. -/
def hasPrefixChars : List Char → List Char → Bool
  | _, [] => true
  | [], _ :: _ => false
  | c :: cs, p :: ps => c == p && hasPrefixChars cs ps

/-- Go `strings.Contains` on character lists. -/
def containsChars : List Char → List Char → Bool
  | [], sub => sub.isEmpty
  | c :: cs, sub => hasPrefixChars (c :: cs) sub || containsChars cs sub

/-- Go `strings.HasPrefix(s, pre)`. -/
def stringsHasPrefix (s pre : String) : Bool :=
  hasPrefixChars s.data pre.data

/-- Go `strings.Contains(s, sub)`. -/
def stringsContains (s sub : String) : Bool :=
  containsChars s.data sub.data

/-- Split a path at every `/`; the result always has at least one component. -/
def splitSlash : List Char → List (List Char)
  | [] => [[]]
  | c :: cs =>
    if c = '/' then [] :: splitSlash cs
    else
      match splitSlash cs with
      | [] => [[c]]
      | x :: xs => (c :: x) :: xs

/-- One step of `filepath.Clean`: `stack` holds the kept components, last one first. -/
def cleanStep (rooted : Bool) (stack : List (List Char)) (comp : List Char) :
    List (List Char) :=
  if comp = [] ∨ comp = ['.'] then stack
  else if comp = ['.', '.'] then
    match stack with
    | [] => if rooted then [] else [comp]
    | top :: rest => if top = ['.', '.'] then comp :: top :: rest else rest
  else comp :: stack

/-- Join components with `/`. -/
def joinSlash : List (List Char) → List Char
  | [] => []
  | [x] => x
  | x :: y :: rest => x ++ '/' :: joinSlash (y :: rest)

/-- Go `filepath.Clean` on Unix: drops empty and `.` components, resolves `..`
against the preceding component, keeps a leading `/`, and returns `.` for an empty
result. -/
def cleanChars (path : List Char) : List Char :=
  match path with
  | [] => ['.']
  | c :: _ =>
    let rooted : Bool := c = '/'
    let comps := ((splitSlash path).foldl (cleanStep rooted) []).reverse
    if rooted then '/' :: joinSlash comps
    else if comps = [] then ['.'] else joinSlash comps

/-- Go `filepath.Clean`. -/
def filepathClean (path : String) : String :=
  String.mk (cleanChars path.data)

/-- Go `filepath.Join(a, b)`: the first non-empty element onwards, joined with `/`
and cleaned; the empty string when both are empty. -/
def filepathJoin (a b : String) : String :=
  if a ≠ "" then filepathClean (a ++ "/" ++ b)
  else if b ≠ "" then filepathClean b
  else ""

/-- Go `filepath.IsAbs` on Unix. -/
def filepathIsAbs (path : String) : Bool :=
  stringsHasPrefix path "/"

/-- The part of a path up to and including its last `/` (empty when there is none). -/
def dirPrefix : List Char → List Char
  | [] => []
  | c :: cs =>
    if cs.contains '/' then c :: dirPrefix cs
    else if c = '/' then [c] else []

/-- Go `filepath.Dir` on Unix: everything up to the last separator, cleaned. -/
def filepathDir (path : String) : String :=
  String.mk (cleanChars (dirPrefix path.data))

/-- Go `unicode.IsSpace`. -/
def isSpace (c : Char) : Bool :=
  c = '\t' || c = '\n' || c.toNat = 0x0B || c.toNat = 0x0C || c = '\r' || c = ' '
    || c.toNat = 0x85 || c.toNat = 0xA0 || c.toNat = 0x1680
    || (0x2000 ≤ c.toNat && c.toNat ≤ 0x200A)
    || c.toNat = 0x2028 || c.toNat = 0x2029 || c.toNat = 0x202F
    || c.toNat = 0x205F || c.toNat = 0x3000

/-- Go `strings.TrimSpace` on character lists. -/
def trimSpaceChars (s : List Char) : List Char :=
  ((s.dropWhile isSpace).reverse.dropWhile isSpace).reverse

/-- The character class `[a-f0-9]`. -/
def isLowerHex (c : Char) : Bool :=
  ('a' ≤ c && c ≤ 'f') || ('0' ≤ c && c ≤ '9')

/-- A run of exactly `n` characters of `[a-f0-9]`, returning what follows it. -/
def takeHex : Nat → List Char → Option (List Char)
  | 0, s => some s
  | _ + 1, [] => none
  | n + 1, c :: cs => if isLowerHex c then takeHex n cs else none

/-- A literal hyphen, returning what follows it. -/
def takeHyphen : List Char → Option (List Char)
  | '-' :: cs => some cs
  | _ => none

/-- The regular expression
`^[a-f0-9]{8}-[a-f0-9]{4}-[a-f0-9]{4}-[a-f0-9]{4}-[a-f0-9]{12}$`. -/
def uuidRegexMatch (s : List Char) : Bool :=
  match (((((((((some s).bind (takeHex 8)).bind takeHyphen).bind (takeHex 4)).bind
      takeHyphen).bind (takeHex 4)).bind takeHyphen).bind (takeHex 4)).bind
      takeHyphen).bind (takeHex 12) with
  | some [] => true
  | _ => false

/-! ## Input validators (`utils.go`) -/

/-- `ValidateCAID`: the account id must be strictly positive. -/
def ValidateCAID (caid : Int) : Option String :=
  if caid ≤ 0 then some ("invalid caid: " ++ toString caid) else none

/-- `ValidateHandler`: after trimming, the handler must be a lowercase UUID. -/
def ValidateHandler (handler : String) : Option String :=
  let trimmedHandler := trimSpaceChars handler.data
  if trimmedHandler = [] then some "handler is required"
  else if !uuidRegexMatch trimmedHandler then some "invalid handler format"
  else none

/-- `ValidateOutputDir`: the directory must not contain `..`. -/
def ValidateOutputDir (outputDir : String) : Option String :=
  if stringsContains outputDir ".." then some ("invalid output directory: " ++ outputDir)
  else none

/-- `ValidateFilePath`: no `..`, absolute paths only below `os.TempDir()`, and the
parent directory must pass `ValidateOutputDir`. -/
def ValidateFilePath (tempDir path : String) : Option String :=
  if stringsContains path ".." then some ("invalid file path: " ++ path)
  else if filepathIsAbs path && !stringsHasPrefix path tempDir then
    some ("absolute paths are only allowed in the system temp directory: " ++ path)
  else
    let dir := filepathDir path
    match ValidateOutputDir dir with
    | some _ => some ("invalid directory in file path: " ++ dir)
    | none => none

/-! ## Time and contexts -/

/-- Go `time.Second` as a `time.Duration`. -/
def Second : Int := 1000000000

/-- Wrap-around of `int64` arithmetic. -/
def wrapInt64 (x : Int) : Int :=
  (x + 2 ^ 63) % 2 ^ 64 - 2 ^ 63

/-- A `context.Context`: the instant at which `Done()` closes (`none` for a context
that never does, such as `context.Background()`), and whether that is a deadline
expiry or a cancellation by the caller. -/
structure Context where
  doneAt : Option Nat
  byDeadline : Bool

/-- Whether `ctx.Done()` is closed at instant `t`. -/
def Context.done (ctx : Context) (t : Nat) : Bool :=
  match ctx.doneAt with
  | some d => decide (d ≤ t)
  | none => false

/-- The message of `ctx.Err()` once the context is done. -/
def Context.errMsg (ctx : Context) : String :=
  if ctx.byDeadline then "context deadline exceeded" else "context canceled"

/-- The instant at which a wait entered at `now` and due at `t` returns: `t`, or the
instant the context is done when that comes first. -/
def Context.wake (ctx : Context) (now t : Nat) : Nat :=
  match ctx.doneAt with
  | some d => min t (max now d)
  | none => t

/-! ## HTTP responses and the server -/

/-- The error returned by a `Read` next to its data. -/
inductive ReadErr where
  | eof
  | failed (msg : String)
deriving DecidableEq

/-- One return of `Body.Read`: the bytes placed in the buffer and the error. -/
structure Chunk where
  data : Bytes
  err : Option ReadErr
deriving DecidableEq

/-- A response body: the reads it will deliver, whether it has been closed, and the
error `Close` returns. -/
structure Body where
  chunks : List Chunk
  closed : Bool
  closeErr : Option String
deriving DecidableEq

/-- The error of net/http for a read of a response body after its `Close`. -/
def errReadOnClosedBody : String := "http: read on closed response body"

/-- Go `resp.Body.Close()`. -/
def Body.Close (b : Body) : Option String × Body :=
  (b.closeErr, { b with closed := true })

/-- The reads of `io.ReadAll`: data is accumulated until `io.EOF` (success) or
another error. -/
def readAllChunks : List Chunk → Bytes → Except String Bytes × List Chunk
  | [], acc => (.ok acc, [])
  | c :: cs, acc =>
    match c.err with
    | none => readAllChunks cs (acc ++ c.data)
    | some .eof => (.ok (acc ++ c.data), cs)
    | some (.failed msg) => (.error msg, cs)

/-- Go `io.ReadAll(resp.Body)`. -/
def ioReadAll (b : Body) : Except String Bytes × Body :=
  if b.closed then (.error errReadOnClosedBody, b)
  else
    let r := readAllChunks b.chunks []
    (r.1, { b with chunks := r.2 })

/-- The bytes a body delivers up to its end of stream (or first failing read). -/
def deliveredBytes : List Chunk → Bytes
  | [] => []
  | c :: cs =>
    match c.err with
    | none => c.data ++ deliveredBytes cs
    | some _ => c.data

/-- An `*http.Response`. -/
structure Response where
  StatusCode : Int
  Body : Body
deriving DecidableEq

/-- What the network returns for one request. -/
inductive Reply where
  | transportErr (msg : String)
  | response (status : Int) (chunks : List Chunk) (closeErr : Option String)

/-- One round trip: how long it takes and what comes back. -/
structure Exchange where
  took : Nat
  reply : Reply

/-- `AsyncResponse` of `utils.go`: the envelope of the submit call. -/
structure AsyncResponse where
  Handler : String
  Status : String
deriving DecidableEq

/-- `APIError` of `utils.go`. -/
structure APIError where
  Status : Int
  ID : String
  Code : String
  Pointer : String
  Title : String
  Detail : String

/-- `APIError.Error`. -/
def APIError.Error (e : APIError) : String :=
  "API error: " ++ e.Title ++ " - " ++ e.Detail ++ " (Status Code: " ++ toString e.Status ++ ")"

/-! ## File system -/

/-- The files (path to contents) and directories of the local file system. -/
structure FS where
  files : String → Option Bytes
  dirs : String → Bool

/-- Create or replace the file at `p`. -/
def FS.writeFile (fs : FS) (p : String) (b : Bytes) : FS :=
  { fs with files := fun q => if q = p then some b else fs.files q }

/-- Go `os.Remove`. -/
def FS.removeFile (fs : FS) (p : String) : FS :=
  { fs with files := fun q => if q = p then none else fs.files q }

/-- Go `os.Rename(old, new)`. -/
def FS.rename (fs : FS) (old new : String) : FS :=
  { fs with files := fun q => if q = new then fs.files old else if q = old then none else fs.files q }

/-- Go `os.MkdirAll`. -/
def FS.mkdirAll (fs : FS) (d : String) : FS :=
  { fs with dirs := fun q => if q = d then true else fs.dirs q }

/-- The failures the operating system may answer with. `write k` is the fate of the
`k`-th call of `Write` (from 0): `some (m, msg)` writes only the first `m` bytes and
fails with `msg`. -/
structure Faults where
  mkdirAll : Option String
  openFile : Option String
  write : Nat → Option (Nat × String)
  rename : Option String
  remove : Bool

/-- An operating system that never fails. -/
def noFaults : Faults :=
  { mkdirAll := none, openFile := none, write := fun _ => none, rename := none, remove := false }

/-! ## Environment and run state -/

/-- Everything the program reads from outside: the server (the exchange for the
`n`-th call of `client.Do`), the base URL, the configured output directory, the
system temp directory, `url.Parse`, the check of `http.NewRequestWithContext`, the
decoding of an `ErrorResponse` by `json.Unmarshal`, the decoding of an
`AsyncResponse` from a response body by `json.NewDecoder(...).Decode`, and the file
system faults. -/
structure Env where
  server : Nat → Exchange
  apiBaseURL : String
  outputDir : String
  tempDir : String
  urlParse : String → Except String String
  newRequest : String → String → Option String
  jsonUnmarshal : Bytes → Except String (List APIError)
  jsonDecodeAsync : Body → Except String AsyncResponse
  faults : Faults

/-- The state of a run: the clock, the number of calls of `client.Do`, the number of
requests handed to `RetryableRequest` by `makeAPIRequest`, the completed backoff
waits of the executor and sleeps of the poller (oldest first), and the file system. -/
structure World where
  now : Nat
  sent : Nat
  calls : Nat
  backoffs : List Int
  sleeps : List Int
  fs : FS

/-! ## Resilient request executor (`utils.go`) -/

/-- What `client.Do` returns for a reply of the network: the error, or the response
with its body still to be read. -/
def Reply.toResult : Reply → Except String Response
  | .transportErr msg => .error msg
  | .response status chunks closeErr =>
    .ok { StatusCode := status,
          Body := { chunks := chunks, closed := false, closeErr := closeErr } }

/-- Go `client.Do(req.Clone(ctx))`: the next exchange of the server; a context that
is done by the time the answer would arrive makes the call fail, and the error is
modelled by the message of the error of the context. -/
def clientDo (env : Env) (ctx : Context) (w : World) : Except String Response × World :=
  let x := env.server w.sent
  let arrival := w.now + x.took
  let w1 := { w with now := ctx.wake w.now arrival, sent := w.sent + 1 }
  if ctx.done arrival then (.error ctx.errMsg, w1) else (x.reply.toResult, w1)

/-- The test `err == nil && resp.StatusCode < 500 && resp.StatusCode != 401` of
`RetryableRequest`: the response to return at once, if any. -/
def accepted : Except String Response → Option Response
  | .ok resp => if resp.StatusCode < 500 ∧ resp.StatusCode ≠ 401 then some resp else none
  | .error _ => none

/-- The error of `RetryableRequest` on its last attempt. -/
def exhaustedMsg (maxRetries : Int) : Except String Response → String
  | .ok resp =>
    "request failed after " ++ toString maxRetries ++ " retries with status code: "
      ++ toString resp.StatusCode
  | .error e => "request failed after " ++ toString maxRetries ++ " retries: " ++ e

/-- The statement `backoff := time.Duration(1<<attempt) * time.Second` followed by the
cap at 30 seconds, in `int64` arithmetic. -/
def backoffFor (attempt : Int) : Int :=
  let backoff := wrapInt64 (wrapInt64 (2 ^ attempt.toNat) * Second)
  if backoff > 30 * Second then 30 * Second else backoff

/-- The variable `err` after an attempt. -/
def errOf : Except String Response → Option String
  | .ok _ => none
  | .error e => some e

/-- The loop `for attempt := 0; attempt <= maxRetries; attempt++` of
`RetryableRequest`, with `n` the number of iterations left and `err` the error of
the previous attempt; the case `0` is the `return` after the loop. Draining and
closing the body of a response that is retried changes nothing that is observed
here. A timer and a context that fire at the same instant are resolved for the
context. -/
def retryLoop (env : Env) (ctx : Context) (maxRetries : Int) :
    Nat → Int → Option String → World → Except String Response × World
  | 0, _, err, w =>
    (.error ("request failed after " ++ toString maxRetries ++ " retries: "
      ++ err.getD "%!w(<nil>)"), w)
  | n + 1, attempt, _, w =>
    let r := clientDo env ctx w
    match accepted r.1 with
    | some resp => (.ok resp, r.2)
    | none =>
      if attempt = maxRetries then (.error (exhaustedMsg maxRetries r.1), r.2)
      else if ctx.done r.2.now then
        (.error ("request context canceled: " ++ ctx.errMsg), r.2)
      else
        let backoff := backoffFor attempt
        let due := r.2.now + backoff.toNat
        if ctx.done due then
          (.error ("request context canceled: " ++ ctx.errMsg),
            { r.2 with now := ctx.wake r.2.now due })
        else
          retryLoop env ctx maxRetries n (attempt + 1) (errOf r.1)
            { r.2 with now := due, backoffs := r.2.backoffs ++ [backoff] }

/-- `RetryableRequest`. -/
def RetryableRequest (env : Env) (ctx : Context) (maxRetries : Int) (w : World) :
    Except String Response × World :=
  retryLoop env ctx maxRetries (maxRetries + 1).toNat 0 none w

/-- `makeAPIRequest`. -/
def makeAPIRequest (env : Env) (ctx : Context) (method rawURL : String) (w : World) :
    Except String Response × World :=
  match env.urlParse rawURL with
  | .error e => (.error ("invalid URL '" ++ rawURL ++ "': " ++ e), w)
  | .ok sanitizedURL =>
    match env.newRequest method sanitizedURL with
    | some e => (.error ("failed to create request: " ++ e), w)
    | none =>
      let r := RetryableRequest env ctx 3 { w with calls := w.calls + 1 }
      match r.1 with
      | .error e => (.error ("failed to send request: " ++ e), r.2)
      | .ok resp => (.ok resp, r.2)

/-- `ParseAPIError`; it returns an error on every path. -/
def ParseAPIError (env : Env) (resp : Response) : String :=
  match (ioReadAll resp.Body).1 with
  | .error e => "failed to read error response body: " ++ e
  | .ok body =>
    match env.jsonUnmarshal body with
    | .error e => "failed to parse error response: " ++ e
    | .ok errors =>
      if errors.length = 0 then
        "API error: unknown error, status code " ++ toString resp.StatusCode
          ++ ", response body: " ++ bytesToString body
      else "API errors: " ++ "; ".intercalate (errors.map APIError.Error)

/-- `HandleHTTPError`. -/
def HandleHTTPError (env : Env) (resp : Response) : Option String :=
  if resp.StatusCode ≥ 400 then some (ParseAPIError env resp) else none

/-! ## Atomic file writer (`download.go`) -/

/-- The copy loop of `SaveExportFile` over the reads the body delivers: `k` counts
the calls of `Write`, `acc` is the content of the temp file. Returns the error, if
any, and the content of the temp file when the loop ends. -/
def copyLoop (faults : Faults) : List Chunk → Nat → Bytes → Option String × Bytes
  | [], _, acc => (none, acc)
  | c :: cs, k, acc =>
    if c.data.length > 0 then
      match faults.write k with
      | some (m, msg) => (some ("failed to write to temp file: " ++ msg), acc ++ c.data.take m)
      | none =>
        match c.err with
        | none => copyLoop faults cs (k + 1) (acc ++ c.data)
        | some .eof => (none, acc ++ c.data)
        | some (.failed msg) => (some ("error reading response body: " ++ msg), acc ++ c.data)
    else
      match c.err with
      | none => copyLoop faults cs k acc
      | some .eof => (none, acc)
      | some (.failed msg) => (some ("error reading response body: " ++ msg), acc)

/-- The deferred function of `SaveExportFile`: the temp file is closed and removed
(a failure of either is only logged). -/
def deferredCleanup (faults : Faults) (fs : FS) (tempFilePath : String) : FS :=
  if faults.remove then fs else fs.removeFile tempFilePath

/-- `SaveExportFile`. -/
def SaveExportFile (env : Env) (caid : Int) (handler : String) (resp : Response) (w : World) :
    Option String × World :=
  let filename := "export_" ++ toString caid ++ "_" ++ handler ++ ".zip"
  let outputDir := if env.outputDir = "" then "." else env.outputDir
  let filePath := filepathJoin outputDir filename
  match ValidateOutputDir outputDir with
  | some e => (some ("invalid output dir: " ++ e), w)
  | none =>
    let tempFilePath := filePath ++ ".tmp"
    match ValidateFilePath env.tempDir tempFilePath with
    | some e => (some ("invalid file path: " ++ e), w)
    | none =>
      match env.faults.mkdirAll with
      | some e => (some ("failed to create output directory: " ++ e), w)
      | none =>
        let fs1 := w.fs.mkdirAll outputDir
        match env.faults.openFile with
        | some e => (some ("failed to create temp file: " ++ e), { w with fs := fs1 })
        | none =>
          let copied :=
            if resp.Body.closed then
              (some ("error reading response body: " ++ errReadOnClosedBody), [])
            else copyLoop env.faults resp.Body.chunks 0 []
          let fs2 := fs1.writeFile tempFilePath copied.2
          match copied.1 with
          | some e => (some e, { w with fs := deferredCleanup env.faults fs2 tempFilePath })
          | none =>
            match env.faults.rename with
            | some e =>
              (some ("failed to rename temp file to final file: " ++ e),
                { w with fs := deferredCleanup env.faults fs2 tempFilePath })
            | none =>
              (none, { w with fs :=
                deferredCleanup env.faults (fs2.rename tempFilePath filePath) tempFilePath })

/-- `downloadExportFile`. -/
def downloadExportFile (env : Env) (ctx : Context) (caid : Int) (handler : String) (w : World) :
    Option String × World :=
  match ValidateHandler handler with
  | some e => (some e, w)
  | none =>
    let outputDir := if env.outputDir = "" then "." else env.outputDir
    match ValidateOutputDir outputDir with
    | some e => (some e, w)
    | none =>
      let url := env.apiBaseURL ++ "/v3/export/download/" ++ handler ++ "?caid=" ++ toString caid
      let r := makeAPIRequest env ctx "GET" url w
      match r.1 with
      | .error e => (some e, r.2)
      | .ok resp =>
        if resp.StatusCode ≠ 200 then (HandleHTTPError env resp, r.2)
        else
          let s := SaveExportFile env caid handler resp r.2
          match s.1 with
          | some e => (some ("failed to save export file: " ++ e), s.2)
          | none => (none, s.2)

/-! ## Status poller (`status.go`) -/

/-- The error of both context checks of the poller. -/
def timedOutMsg : String := "timed out while waiting for export to complete"

/-- The constant `maxAttempts` of the poller. -/
def maxAttempts : Int := 60

/-- The constant `maxDelay` of the poller. -/
def maxDelay : Int := 30 * Second

/-- The error of the poller when its attempt counter reaches `maxAttempts`. -/
def maxAttemptsMsg : String :=
  "maximum number of attempts (" ++ toString maxAttempts
    ++ ") reached while waiting for export to complete"

/-- The update of `currentDelay` after a sleep. -/
def nextDelay (currentDelay : Int) : Int :=
  if currentDelay < maxDelay then
    let doubled := wrapInt64 (currentDelay * 2)
    if doubled > maxDelay then maxDelay else doubled
  else currentDelay

/-- The terminal-failure branch (`default:`) of the status switch. -/
def unexpectedStatus (env : Env) (resp : Response) : String :=
  let read := ioReadAll resp.Body
  let closed := read.2.Close
  match read.1 with
  | .error e => "failed to read response body: " ++ e
  | .ok body =>
    match closed.1 with
    | some e => "failed to close response body: " ++ e
    | none =>
      match HandleHTTPError env { resp with Body := closed.2 } with
      | some apiErr => "API error: " ++ apiErr
      | none =>
        "unexpected status code " ++ toString resp.StatusCode ++ ": " ++ bytesToString body

/-- The loop `for { ... }` of `checkExportStatusWithContext`; `none` when the fuel
runs out. A timer and a context that fire at the same instant are resolved for the
context. -/
def pollLoop (env : Env) (ctx : Context) (caid : Int) (handler url : String) :
    Nat → Int → Int → World → Option (Option String × World)
  | 0, _, _, _ => none
  | fuel + 1, currentDelay, attempts, w =>
    if ctx.done w.now then some (some timedOutMsg, w)
    else
      let r := makeAPIRequest env ctx "GET" url w
      match r.1 with
      | .error e => some (some e, r.2)
      | .ok resp =>
        if resp.StatusCode = 200 then
          let s := SaveExportFile env caid handler resp r.2
          match s.1 with
          | some e => some (some ("failed to save export file: " ++ e), s.2)
          | none =>
            match resp.Body.Close.1 with
            | some e => some (some ("failed to close response body: " ++ e), s.2)
            | none => some (none, s.2)
        else if resp.StatusCode = 202 then
          match resp.Body.Close.1 with
          | some e => some (some ("failed to close response body: " ++ e), r.2)
          | none =>
            let due := r.2.now + currentDelay.toNat
            if ctx.done due then
              some (some timedOutMsg, { r.2 with now := ctx.wake r.2.now due })
            else
              let w2 := { r.2 with now := due, sleeps := r.2.sleeps ++ [currentDelay] }
              if attempts + 1 ≥ maxAttempts then some (some maxAttemptsMsg, w2)
              else pollLoop env ctx caid handler url fuel (nextDelay currentDelay) (attempts + 1) w2
        else some (some (unexpectedStatus env resp), r.2)

/-- `checkExportStatusWithContext`, with the fuel of its loop. -/
def checkExportStatusWithContext (fuel : Nat) (env : Env) (ctx : Context) (caid : Int)
    (handler : String) (w : World) : Option (Option String × World) :=
  let url := env.apiBaseURL ++ "/v3/export/download/" ++ handler ++ "?caid=" ++ toString caid
  pollLoop env ctx caid handler url fuel (1 * Second) 0 w

/-! ## Job submitter (`export.go`) and the combined flow (`auto.go`) -/

/-- `initiateExport`: the handler and the error it returns. -/
def initiateExport (env : Env) (ctx : Context) (caid : Int) (w : World) :
    (String × Option String) × World :=
  let url := env.apiBaseURL ++ "/v3/export?caid=" ++ toString caid
  let r := makeAPIRequest env ctx "POST" url w
  match r.1 with
  | .error e => (("", some ("failed to initiate export: " ++ e)), r.2)
  | .ok resp =>
    match HandleHTTPError env resp with
    | some e => (("", some ("error response from export initiation: " ++ e)), r.2)
    | none =>
      match env.jsonDecodeAsync resp.Body with
      | .error e => (("", some ("failed to decode export initiation response: " ++ e)), r.2)
      | .ok asyncResp =>
        if asyncResp.Handler = "" then (("", some "received empty handler in response"), r.2)
        else ((asyncResp.Handler, none), r.2)

/-- Go `context.WithTimeout(context.Background(), d)` created at instant `now`. -/
def withTimeout (now : Nat) (d : Int) : Context :=
  { doneAt := some (now + d.toNat), byDeadline := true }

/-- `initiateAuto`, with the fuel of the poll loop. -/
def initiateAuto (fuel : Nat) (env : Env) (caid : Int) (w : World) :
    Option ((String × Option String) × World) :=
  let ctx := withTimeout w.now (10 * 60 * Second)
  let r := initiateExport env ctx caid w
  match r.1.2 with
  | some e => some (("", some e), r.2)
  | none =>
    match checkExportStatusWithContext fuel env ctx caid r.1.1 r.2 with
    | none => none
    | some (some e, w2) => some (("", some e), w2)
    | some (none, w2) => some ((r.1.1, none), w2)

/-! ## Commands (`export.go`, `status.go`, `download.go`, `auto.go`) -/

/-- `RunE` of the `export` command, for the value of its `caid` flag. -/
def exportCmdRunE (env : Env) (caid : Int) (w : World) : Option String × World :=
  match ValidateCAID caid with
  | some e => (some e, w)
  | none =>
    let r := initiateExport env (withTimeout w.now (60 * Second)) caid w
    match r.1.2 with
    | some e => (some ("error initiating export: " ++ e), r.2)
    | none => (none, r.2)

/-- `RunE` of the `status` command, for the values of its `handler` and `caid`
flags, with the fuel of the poll loop. -/
def statusCmdRunE (fuel : Nat) (env : Env) (handler : String) (caid : Int) (w : World) :
    Option (Option String × World) :=
  match ValidateHandler handler with
  | some e => some (some e, w)
  | none =>
    match ValidateCAID caid with
    | some e => some (some e, w)
    | none =>
      match checkExportStatusWithContext fuel env (withTimeout w.now (10 * 60 * Second))
          caid handler w with
      | none => none
      | some (some e, w1) => some (some ("error checking export status: " ++ e), w1)
      | some (none, w1) => some (none, w1)

/-- `RunE` of the `download` command, for the values of its `handler` and `caid`
flags. -/
def downloadCmdRunE (env : Env) (handler : String) (caid : Int) (w : World) :
    Option String × World :=
  match ValidateHandler handler with
  | some e => (some e, w)
  | none =>
    match ValidateCAID caid with
    | some e => (some e, w)
    | none =>
      let r := downloadExportFile env (withTimeout w.now (60 * Second)) caid handler w
      match r.1 with
      | some e => (some ("error downloading export file: " ++ e), r.2)
      | none => (none, r.2)

/-- `RunE` of the `auto` command, for the value of its `caid` flag, with the fuel of
the poll loop. -/
def autoCmdRunE (fuel : Nat) (env : Env) (caid : Int) (w : World) :
    Option (Option String × World) :=
  match ValidateCAID caid with
  | some e => some (some e, w)
  | none =>
    match initiateAuto fuel env caid w with
    | none => none
    | some ((_, some e), w1) => some (some ("error during auto export: " ++ e), w1)
    | some ((_, none), w1) => some (none, w1)

/-! ## The wording of the specification -/

/-- The URL of the submit endpoint for an account. -/
def exportURL (env : Env) (caid : Int) : String :=
  env.apiBaseURL ++ "/v3/export?caid=" ++ toString caid

/-- The temp path of `SaveExportFile`: the final path followed by `.tmp`. -/
def tempFilePath (env : Env) (caid : Int) (handler : String) : String :=
  filepathJoin (if env.outputDir = "" then "." else env.outputDir)
    ("export_" ++ toString caid ++ "_" ++ handler ++ ".zip") ++ ".tmp"

/-- A `..` path-traversal segment: some `/`-delimited component of the string is
exactly `..`. -/
def hasDotDotSegment (s : String) : Bool :=
  (splitSlash s.data).contains ['.', '.']

/-- A path that lies under a directory: the directory is the path itself or one of
its ancestors, that is, the path continues the directory with a separator. -/
def liesUnder (dir path : String) : Bool :=
  path == dir
    || hasPrefixChars path.data (if dir.data.getLast? = some '/' then dir.data else dir.data ++ ['/'])

/-- The canonical shape of a handle: five groups of 8, 4, 4, 4 and 12 characters of
`[0-9a-f]`, joined by hyphens. -/
def isUUIDShape (s : List Char) : Prop :=
  ∃ g1 g2 g3 g4 g5 : List Char,
    g1.length = 8 ∧ g2.length = 4 ∧ g3.length = 4 ∧ g4.length = 4 ∧ g5.length = 12
    ∧ (∀ c ∈ g1 ++ g2 ++ g3 ++ g4 ++ g5, isLowerHex c = true)
    ∧ s = g1 ++ '-' :: (g2 ++ '-' :: (g3 ++ '-' :: (g4 ++ '-' :: g5)))

/-- A string stripped of its leading and trailing whitespace: `t` is what is left of
`s` between a run of whitespace on either side, and neither starts nor ends with
whitespace. -/
def isTrimOf (t s : List Char) : Prop :=
  ∃ pre suf : List Char, s = pre ++ t ++ suf
    ∧ (∀ c ∈ pre, isSpace c = true) ∧ (∀ c ∈ suf, isSpace c = true)
    ∧ (∀ c, t.head? = some c → isSpace c = false)
    ∧ (∀ c, t.getLast? = some c → isSpace c = false)


/-- The retry predicate in the words of the specification: the transport itself
errors, or the status is `>= 500`, or the status is exactly `401`. -/
def retryableReply : Reply → Bool
  | .transportErr _ => true
  | .response status _ _ => decide (status ≥ 500) || decide (status = 401)

/-- The instant at which the answer to the `(k+1)`-th try arrives when the `k` tries
before it are each followed by their backoff wait: `attempt` is the index of the
first of these tries, `sent` the index of its exchange, `now` the instant it starts. -/
def arrivalAt (env : Env) : Nat → Int → Nat → Nat → Nat
  | 0, _, sent, now => now + (env.server sent).took
  | k + 1, attempt, sent, now =>
    arrivalAt env k (attempt + 1) (sent + 1)
      (now + (env.server sent).took + (backoffFor attempt).toNat)

/-- The URL of the status and download endpoint for a handler and an account. -/
def downloadURL (env : Env) (caid : Int) (handler : String) : String :=
  env.apiBaseURL ++ "/v3/export/download/" ++ handler ++ "?caid=" ++ toString caid

/-- The name of the artifact: `export_<caid>_<handler>.zip`. -/
def exportFileName (caid : Int) (handler : String) : String :=
  "export_" ++ toString caid ++ "_" ++ handler ++ ".zip"

/-- The output directory in force: the configured one, or `.` when it is empty. -/
def effectiveOutputDir (env : Env) : String :=
  if env.outputDir = "" then "." else env.outputDir

/-- The final path of the artifact: `<output-dir>/export_<caid>_<handler>.zip`. -/
def finalPath (env : Env) (caid : Int) (handler : String) : String :=
  filepathJoin (effectiveOutputDir env) (exportFileName caid handler)

/-- The poll delay in the words of the specification: `min(2^k, 30)` seconds. -/
def specPollDelay (k : Nat) : Int :=
  min (2 ^ k) 30 * Second

/-- A `202 Accepted` answer whose body closes without error. -/
def stillInProgress : Reply → Bool
  | .response status _ closeErr => decide (status = 202) && closeErr.isNone
  | .transportErr _ => false

/-- The state after `n` polls that were each answered at the first try with a
`202`, none of them cut short by the context: `delay` is the sleep after the first
of them. -/
def afterAccepted (env : Env) : Nat → Int → World → World
  | 0, _, w => w
  | n + 1, delay, w =>
    afterAccepted env n (nextDelay delay)
      { w with now := w.now + (env.server w.sent).took + delay.toNat,
               sent := w.sent + 1, calls := w.calls + 1, sleeps := w.sleeps ++ [delay] }

/-- A body whose reads never fail before the end of the stream. -/
def readsCleanly : List Chunk → Bool
  | [] => true
  | c :: cs =>
    match c.err with
    | none => readsCleanly cs
    | some .eof => true
    | some (.failed _) => false

/-- The time spent asleep by `k` consecutive polls whose first delay is `delay`, in
nanoseconds. -/
def cumulativeDelay : Nat → Int → Nat
  | 0, _ => 0
  | k + 1, delay => delay.toNat + cumulativeDelay k (nextDelay delay)

/-! ## Scenarios -/

/-- A file system with no file and no directory. -/
def emptyFS : FS :=
  { files := fun _ => none, dirs := fun _ => false }

/-- The state at the start of a run. -/
def startWorld : World :=
  { now := 0, sent := 0, calls := 0, backoffs := [], sleeps := [], fs := emptyFS }

/-- Go `context.Background()`. -/
def background : Context :=
  { doneAt := none, byDeadline := false }

/-- A context whose deadline expires `ns` nanoseconds into the run. -/
def withDeadline (ns : Nat) : Context :=
  { doneAt := some ns, byDeadline := true }

/-- An environment with the given server, output directory and decoder of error
envelopes, the temp directory `/tmp`, URLs that always parse, no decodable submit
envelope and an operating system that never fails. -/
def scriptedEnv (server : Nat → Exchange) (outputDir : String)
    (jsonUnmarshal : Bytes → Except String (List APIError)) : Env :=
  { server := server, apiBaseURL := "https://api.imperva.com/account-export-import",
    outputDir := outputDir, tempDir := "/tmp",
    urlParse := fun u => .ok u, newRequest := fun _ _ => none,
    jsonUnmarshal := jsonUnmarshal,
    jsonDecodeAsync := fun _ => .error "invalid character", faults := noFaults }

/-- A decoder that rejects every input. -/
def rejectAll : Bytes → Except String (List APIError) :=
  fun _ => .error "invalid character"

/-- The handler of the repository tests. -/
def sampleHandler : String := "28c5f5af-bd9e-423f-99a7-d2a8c440db7e"

/-- The bytes of an ASCII string. -/
def asciiBytes (s : String) : Bytes :=
  s.data.map fun c => UInt8.ofNat c.toNat

/-- An exchange answering with the given status and a body delivered in one read. -/
def answer (status : Int) (body : String) : Exchange :=
  { took := 0, reply := .response status [{ data := asciiBytes body, err := some .eof }] none }

/-- A server that gives the same answer to every request. -/
def always (x : Exchange) : Nat → Exchange :=
  fun _ => x

/-- A server that answers the first `n` requests with `x` and every later one with `y`. -/
def firstThen (n : Nat) (x y : Exchange) : Nat → Exchange :=
  fun i => if i < n then x else y

/-- A server that is still running the export: `202` to every request. -/
def acceptedForeverEnv : Env :=
  scriptedEnv (always (answer 202 "")) "" rejectAll

/-- A server that fails every request with a `500`. -/
def failingEnv : Env :=
  scriptedEnv (always (answer 500 "")) "" rejectAll

/-- A server that answers `500` once and then `200` with an archive. -/
def recoveringEnv : Env :=
  scriptedEnv (firstThen 1 (answer 500 "") (answer 200 "archive")) "" rejectAll

/-- The response `recoveringEnv` gives from its second answer on. -/
def recoveredResponse : Response :=
  { StatusCode := 200,
    Body := { chunks := [{ data := asciiBytes "archive", err := some .eof }],
              closed := false, closeErr := none } }

/-- The scenario of the repository tests: `202`, `202`, then `200` with the export,
saved below the temp directory. -/
def pollingEnv : Env :=
  scriptedEnv (firstThen 2 (answer 202 "") (answer 200 "export file content"))
    "/tmp/exports" rejectAll

/-- A structured error envelope with one entry. -/
def notFoundBody : String :=
  "\x7b\"errors\":[\x7b\"status\":404,\"id\":\"e1\",\"code\":\"NotFound\","
    ++ "\"source\":\x7b\"pointer\":\"/export/download\"\x7d,"
    ++ "\"title\":\"Not Found\",\"detail\":\"No such export\"\x7d]\x7d"

/-- The entry of `notFoundBody`. -/
def notFoundError : APIError :=
  { Status := 404, ID := "e1", Code := "NotFound", Pointer := "/export/download",
    Title := "Not Found", Detail := "No such export" }

/-- A decoder that reads `notFoundBody` as its envelope and rejects everything else. -/
def notFoundUnmarshal : Bytes → Except String (List APIError) :=
  fun b => if b = asciiBytes notFoundBody then .ok [notFoundError] else .error "invalid character"

/-- A server that answers every status request with `404` and `notFoundBody`. -/
def notFoundEnv : Env :=
  scriptedEnv (always (answer 404 notFoundBody)) "" notFoundUnmarshal

/-- A server that answers every status request with `404` and a body that is no JSON. -/
def garbledEnv : Env :=
  scriptedEnv (always (answer 404 "gone")) "" rejectAll

/-- A `200` response whose body arrives in several reads: data, an empty read, and a
last read that returns data together with the end of the stream. -/
def chunkedResponse : Response :=
  { StatusCode := 200,
    Body := { chunks := [{ data := [80, 75], err := none }, { data := [], err := none },
                         { data := [3, 4], err := some .eof }],
              closed := false, closeErr := none } }

/-- A `200` response whose body fails after two bytes. -/
def brokenResponse : Response :=
  { StatusCode := 200,
    Body := { chunks := [{ data := [80, 75], err := none },
                         { data := [], err := some (.failed "unexpected EOF") }],
              closed := false, closeErr := none } }

/-- A `200` response with another body, delivered in one read. -/
def otherResponse : Response :=
  { StatusCode := 200,
    Body := { chunks := [{ data := [9, 9], err := some .eof }],
              closed := false, closeErr := none } }

/-- A state in which an earlier artifact already sits at the final path. -/
def worldWithArtifact : World :=
  { startWorld with fs :=
      emptyFS.writeFile "export_123456_28c5f5af-bd9e-423f-99a7-d2a8c440db7e.zip" [1, 2, 3] }

/-- An operating system on which renaming and removing a file fail (a directory
that has lost its write permission), everything else as in `acceptedForeverEnv`. -/
def stuckEnv : Env :=
  { acceptedForeverEnv with
    faults := { noFaults with rename := some "permission denied", remove := true } }

/-- The second case of the polling test of the repository: a server that answers
`200` at once and the output directory `../invalid_dir`. -/
def traversalEnv : Env :=
  scriptedEnv (always (answer 200 "export file content")) "../invalid_dir" rejectAll

/-- A submit envelope whose handler is not a UUID. -/
def submitBody : String :=
  "\x7b\"handler\": \"job 42\", \"status\": \"Export is in progress\"\x7d"

/-- A submit envelope whose handler is empty. -/
def emptyHandlerBody : String :=
  "\x7b\"handler\": \"\", \"status\": \"Export is in progress\"\x7d"

/-- A decoder that reads `submitBody` and `emptyHandlerBody` as their envelopes and
rejects everything else. -/
def submitDecode (b : Body) : Except String AsyncResponse :=
  match (ioReadAll b).1 with
  | .error e => .error e
  | .ok bytes =>
    if bytes = asciiBytes submitBody then
      .ok { Handler := "job 42", Status := "Export is in progress" }
    else if bytes = asciiBytes emptyHandlerBody then
      .ok { Handler := "", Status := "Export is in progress" }
    else .error "invalid character"

/-- A server that answers the submit request with `202` and `submitBody`. -/
def submitEnv : Env :=
  { scriptedEnv (always (answer 202 submitBody)) "" rejectAll with
    jsonDecodeAsync := submitDecode }

/-- A server that answers the submit request with `202` and `emptyHandlerBody`. -/
def emptyHandlerEnv : Env :=
  { scriptedEnv (always (answer 202 emptyHandlerBody)) "" rejectAll with
    jsonDecodeAsync := submitDecode }

/-- A server that answers the submit request with `300 Multiple Choices` and
`submitBody`. -/
def redirectedSubmitEnv : Env :=
  { scriptedEnv (always (answer 300 submitBody)) "" rejectAll with
    jsonDecodeAsync := submitDecode }

/-- A decoder of error envelopes that finds no `errors` entry in `submitBody` and
rejects everything else. -/
def noErrorsUnmarshal : Bytes → Except String (List APIError) :=
  fun b => if b = asciiBytes submitBody then .ok [] else .error "invalid character"

/-- A server that answers the submit request with `400` and `submitBody`. -/
def rejectedSubmitEnv : Env :=
  { scriptedEnv (always (answer 400 submitBody)) "" noErrorsUnmarshal with
    jsonDecodeAsync := submitDecode }

/-- A server that is still running the export and takes 20 seconds to answer each
request with its `202`. -/
def slowAcceptedEnv : Env :=
  scriptedEnv (always { answer 202 "" with took := 20000000000 }) "" rejectAll

/-- A server that answers `200` at once, with an absolute output directory outside
the temp directory. -/
def homeDirEnv : Env :=
  scriptedEnv (always (answer 200 "export file content")) "/home/user/exports" rejectAll

/-- A server that answers `200` at once, with the output directory `//tmp/exports`:
absolute, and without the temp directory `/tmp` as a prefix of its characters. -/
def doubleSlashEnv : Env :=
  scriptedEnv (always (answer 200 "export file content")) "//tmp/exports" rejectAll

/-- The response `rejectedSubmitEnv` gives to every request. -/
def rejectedSubmitResponse : Response :=
  { StatusCode := 400,
    Body := { chunks := [{ data := asciiBytes submitBody, err := some .eof }],
              closed := false, closeErr := none } }

/-! ## Contexts -/

theorem Context.done_of_never (ctx : Context) (h : ctx.doneAt = none) (t : Nat) :
    ctx.done t = false := by
  simp [Context.done, h]

theorem Context.done_mono (ctx : Context) {s t : Nat} (hst : s ≤ t)
    (h : ctx.done t = false) : ctx.done s = false := by
  unfold Context.done at *
  cases hd : ctx.doneAt with
  | none => simp
  | some d =>
    simp only [hd, decide_eq_false_iff_not, not_le] at h ⊢
    omega

theorem Context.wake_of_not_done (ctx : Context) {now t : Nat}
    (h : ctx.done t = false) : ctx.wake now t = t := by
  unfold Context.done at h
  unfold Context.wake
  cases hd : ctx.doneAt with
  | none => rfl
  | some d =>
    simp only [hd, decide_eq_false_iff_not, not_le] at h
    simp only
    omega

/-! ## The executor -/

theorem accepted_toResult (rep : Reply) :
    accepted rep.toResult = none ↔ retryableReply rep = true := by
  cases rep with
  | transportErr msg => simp [accepted, Reply.toResult, retryableReply]
  | response status chunks closeErr =>
    simp only [accepted, Reply.toResult, retryableReply, Bool.or_eq_true, decide_eq_true_eq]
    constructor
    · intro h
      by_contra hc
      push_neg at hc
      have : status < 500 ∧ status ≠ 401 := ⟨by omega, hc.2⟩
      simp [this] at h
    · intro h
      have : ¬ (status < 500 ∧ status ≠ 401) := by
        rintro ⟨h1, h2⟩
        rcases h with h | h
        · omega
        · exact h2 h
      simp [this]

theorem clientDo_live (env : Env) (ctx : Context) (w : World)
    (h : ctx.done (w.now + (env.server w.sent).took) = false) :
    clientDo env ctx w =
      ((env.server w.sent).reply.toResult,
        { w with now := w.now + (env.server w.sent).took, sent := w.sent + 1 }) := by
  simp [clientDo, h, Context.wake_of_not_done ctx h]

theorem clientDo_sent (env : Env) (ctx : Context) (w : World) :
    (clientDo env ctx w).2.sent = w.sent + 1 := by
  unfold clientDo
  simp only
  split <;> rfl

theorem clientDo_frame (env : Env) (ctx : Context) (w : World) :
    (clientDo env ctx w).2.calls = w.calls ∧ (clientDo env ctx w).2.sleeps = w.sleeps
      ∧ (clientDo env ctx w).2.fs = w.fs ∧ (clientDo env ctx w).2.backoffs = w.backoffs := by
  unfold clientDo
  simp only
  split <;> exact ⟨rfl, rfl, rfl, rfl⟩

theorem retryLoop_frame (env : Env) (ctx : Context) (maxRetries : Int) (n : Nat) :
    ∀ (attempt : Int) (err : Option String) (w : World),
      (retryLoop env ctx maxRetries n attempt err w).2.calls = w.calls
      ∧ (retryLoop env ctx maxRetries n attempt err w).2.sleeps = w.sleeps
      ∧ (retryLoop env ctx maxRetries n attempt err w).2.fs = w.fs := by
  induction n with
  | zero => intro attempt err w; exact ⟨rfl, rfl, rfl⟩
  | succ n ih =>
    intro attempt err w
    have hf := clientDo_frame env ctx w
    unfold retryLoop
    simp only
    split
    · exact ⟨hf.1, hf.2.1, hf.2.2.1⟩
    · split
      · exact ⟨hf.1, hf.2.1, hf.2.2.1⟩
      · split
        · exact ⟨hf.1, hf.2.1, hf.2.2.1⟩
        · split
          · exact ⟨hf.1, hf.2.1, hf.2.2.1⟩
          · have := ih (attempt + 1) (errOf (clientDo env ctx w).1)
              { (clientDo env ctx w).2 with
                now := (clientDo env ctx w).2.now + (backoffFor attempt).toNat,
                backoffs := (clientDo env ctx w).2.backoffs ++ [backoffFor attempt] }
            exact ⟨this.1.trans hf.1, this.2.1.trans hf.2.1, this.2.2.trans hf.2.2.1⟩

theorem retryLoop_exhausts (env : Env) (ctx : Context) (maxRetries : Int)
    (hctx : ctx.doneAt = none) (n : Nat) :
    ∀ (attempt : Int) (err : Option String) (w : World),
      attempt + n = maxRetries →
      (∀ i ≤ n, retryableReply (env.server (w.sent + i)).reply = true) →
      (retryLoop env ctx maxRetries (n + 1) attempt err w).1
          = .error (exhaustedMsg maxRetries (env.server (w.sent + n)).reply.toResult)
      ∧ (retryLoop env ctx maxRetries (n + 1) attempt err w).2.sent = w.sent + n + 1
      ∧ (retryLoop env ctx maxRetries (n + 1) attempt err w).2.backoffs
          = w.backoffs ++ (List.range n).map (fun (i : Nat) => backoffFor (attempt + (i : Int))) := by
  induction n with
  | zero =>
    intro attempt err w hatt hall
    have h0 := (accepted_toResult _).2 (hall 0 (Nat.le_refl 0))
    have hlive := clientDo_live env ctx w (Context.done_of_never ctx hctx _)
    have hatt' : attempt = maxRetries := by simpa using hatt
    simp only [Nat.add_zero] at h0
    unfold retryLoop
    simp [hlive, h0, hatt']
  | succ n ih =>
    intro attempt err w hatt hall
    have h0 := (accepted_toResult _).2 (hall 0 (Nat.zero_le _))
    have hlive := clientDo_live env ctx w (Context.done_of_never ctx hctx _)
    have hne : attempt ≠ maxRetries := by
      intro h
      rw [h] at hatt
      push_cast at hatt
      omega
    simp only [Nat.add_zero] at h0
    have hrec := ih (attempt + 1) (errOf (env.server w.sent).reply.toResult)
      { w with now := w.now + (env.server w.sent).took + (backoffFor attempt).toNat,
               sent := w.sent + 1,
               backoffs := w.backoffs ++ [backoffFor attempt] }
      (by push_cast at hatt ⊢; omega)
      (by
        intro i hi
        have := hall (i + 1) (by omega)
        simpa [Nat.add_assoc, Nat.add_comm 1 i] using this)
    rw [retryLoop]
    simp only [hlive, h0, hne, if_false, Context.done_of_never ctx hctx, Bool.false_eq_true]
    refine ⟨?_, ?_, ?_⟩
    · rw [hrec.1]
      simp [Nat.add_assoc, Nat.add_comm 1 n]
    · rw [hrec.2.1]
      simp only
      omega
    · rw [hrec.2.2]
      simp only [List.range_succ_eq_map, List.map_cons, List.map_map, List.append_assoc,
        List.singleton_append, Nat.cast_zero, add_zero]
      congr 2
      apply List.map_congr_left
      intro i _
      simp only [Function.comp, Nat.cast_succ]
      congr 1
      omega

theorem le_arrivalAt (env : Env) (k : Nat) :
    ∀ (attempt : Int) (sent now : Nat),
      now + (env.server sent).took ≤ arrivalAt env k attempt sent now := by
  induction k with
  | zero => intro attempt sent now; exact Nat.le_refl _
  | succ k ih =>
    intro attempt sent now
    have := ih (attempt + 1) (sent + 1)
      (now + (env.server sent).took + (backoffFor attempt).toNat)
    simp only [arrivalAt]
    omega

theorem accepted_eq_some (r : Except String Response) (resp : Response) :
    accepted r = some resp ↔
      r = .ok resp ∧ resp.StatusCode < 500 ∧ resp.StatusCode ≠ 401 := by
  cases r with
  | error e => simp [accepted]
  | ok x =>
    simp only [accepted]
    constructor
    · intro h
      split at h
      · rename_i hx
        simp only [Option.some.injEq] at h
        subst h
        exact ⟨rfl, hx⟩
      · simp at h
    · rintro ⟨h1, h2⟩
      simp only [Except.ok.injEq] at h1
      subst h1
      simp [h2]

theorem retryLoop_first_accepted (env : Env) (ctx : Context) (maxRetries : Int) (k : Nat) :
    ∀ (n : Nat) (attempt : Int) (err : Option String) (w : World) (resp : Response),
      k < n →
      attempt + k ≤ maxRetries →
      (∀ i < k, retryableReply (env.server (w.sent + i)).reply = true) →
      accepted (env.server (w.sent + k)).reply.toResult = some resp →
      ctx.done (arrivalAt env k attempt w.sent w.now) = false →
      (retryLoop env ctx maxRetries n attempt err w).1 = .ok resp
      ∧ (retryLoop env ctx maxRetries n attempt err w).2.sent = w.sent + k + 1
      ∧ (retryLoop env ctx maxRetries n attempt err w).2.now
          = arrivalAt env k attempt w.sent w.now := by
  induction k with
  | zero =>
    intro n attempt err w resp hn _ _ hacc hctx
    obtain ⟨m, rfl⟩ : ∃ m, n = m + 1 := ⟨n - 1, by omega⟩
    simp only [arrivalAt] at hctx
    have hlive := clientDo_live env ctx w hctx
    simp only [Nat.add_zero] at hacc
    rw [retryLoop]
    simp [hlive, hacc, arrivalAt]
  | succ k ih =>
    intro n attempt err w resp hn hatt hretry hacc hctx
    obtain ⟨m, rfl⟩ : ∃ m, n = m + 1 := ⟨n - 1, by omega⟩
    have h0 := (accepted_toResult _).2 (hretry 0 (Nat.zero_lt_succ _))
    simp only [Nat.add_zero] at h0
    simp only [arrivalAt] at hctx
    have hle := le_arrivalAt env k (attempt + 1) (w.sent + 1)
      (w.now + (env.server w.sent).took + (backoffFor attempt).toNat)
    have hd1 : ctx.done (w.now + (env.server w.sent).took) = false :=
      Context.done_mono ctx (by omega) hctx
    have hd2 : ctx.done (w.now + (env.server w.sent).took + (backoffFor attempt).toNat)
        = false := Context.done_mono ctx (by omega) hctx
    have hlive := clientDo_live env ctx w hd1
    have hne : attempt ≠ maxRetries := by
      intro h
      rw [h] at hatt
      push_cast at hatt
      omega
    have hrec := ih m (attempt + 1) (errOf (env.server w.sent).reply.toResult)
      { w with now := w.now + (env.server w.sent).took + (backoffFor attempt).toNat,
               sent := w.sent + 1,
               backoffs := w.backoffs ++ [backoffFor attempt] } resp
      (by omega) (by push_cast at hatt ⊢; omega)
      (by
        intro i hi
        have := hretry (i + 1) (by omega)
        simpa [Nat.add_assoc, Nat.add_comm 1 i] using this)
      (by simpa [Nat.add_assoc, Nat.add_comm 1 k] using hacc)
      hctx
    rw [retryLoop]
    simp only [hlive, h0, hne, if_false, hd1, hd2, Bool.false_eq_true]
    refine ⟨hrec.1, ?_, ?_⟩
    · rw [hrec.2.1]
      simp only
      omega
    · rw [hrec.2.2]
      simp only [arrivalAt]

theorem retryLoop_ok_sent (env : Env) (ctx : Context) (maxRetries : Int) (n : Nat) :
    ∀ (attempt : Int) (err : Option String) (w : World) (resp : Response),
      (retryLoop env ctx maxRetries n attempt err w).1 = .ok resp →
      w.sent + 1 ≤ (retryLoop env ctx maxRetries n attempt err w).2.sent := by
  induction n with
  | zero =>
    intro attempt err w resp h
    simp [retryLoop] at h
  | succ n ih =>
    intro attempt err w resp h
    have hs := clientDo_sent env ctx w
    rw [retryLoop] at h ⊢
    cases hacc : accepted (clientDo env ctx w).1 with
    | some r => simp only [hacc, hs]; omega
    | none =>
      simp only [hacc] at h ⊢
      by_cases h1 : attempt = maxRetries
      · simp [h1] at h
      · by_cases h2 : ctx.done (clientDo env ctx w).2.now = true
        · simp [h1, h2] at h
        · by_cases h3 : ctx.done ((clientDo env ctx w).2.now + (backoffFor attempt).toNat) = true
          · simp [h1, h2, h3] at h
          · simp only [h1, h2, h3, if_false, Bool.false_eq_true] at h ⊢
            have := ih _ _ _ _ h
            simp only at this
            omega

theorem retryLoop_returns_at_once_iff (env : Env) (ctx : Context) (maxRetries : Int)
    (n : Nat) (attempt : Int) (err : Option String) (w : World) (resp : Response) :
    ((retryLoop env ctx maxRetries (n + 1) attempt err w).1 = .ok resp
      ∧ (retryLoop env ctx maxRetries (n + 1) attempt err w).2.sent = w.sent + 1)
    ↔ ((clientDo env ctx w).1 = .ok resp ∧ resp.StatusCode < 500 ∧ resp.StatusCode ≠ 401) := by
  rw [← accepted_eq_some]
  have hs := clientDo_sent env ctx w
  constructor
  · rintro ⟨h1, h2⟩
    rw [retryLoop] at h1 h2
    cases hacc : accepted (clientDo env ctx w).1 with
    | some r =>
      simp only [hacc, Except.ok.injEq] at h1
      rw [h1]
    | none =>
      simp only [hacc] at h1 h2
      by_cases c1 : attempt = maxRetries
      · simp [c1] at h1
      · by_cases c2 : ctx.done (clientDo env ctx w).2.now = true
        · simp [c1, c2] at h1
        · by_cases c3 : ctx.done ((clientDo env ctx w).2.now + (backoffFor attempt).toNat) = true
          · simp [c1, c2, c3] at h1
          · simp only [c1, c2, c3, if_false, Bool.false_eq_true] at h1 h2
            have := retryLoop_ok_sent _ _ _ _ _ _ _ _ h1
            simp only at this
            omega
  · intro h
    rw [retryLoop]
    simp [h, hs]

/-! ## Substrings -/

theorem hasPrefixChars_append (p s : List Char) : hasPrefixChars (p ++ s) p = true := by
  induction p with
  | nil => cases s <;> rfl
  | cons c cs ih => simp [hasPrefixChars, ih]

theorem containsChars_of_hasPrefix (s sub : List Char) (h : hasPrefixChars s sub = true) :
    containsChars s sub = true := by
  cases s with
  | nil =>
    cases sub with
    | nil => rfl
    | cons c cs => simp [hasPrefixChars] at h
  | cons c cs => simp [containsChars, h]

theorem containsChars_append_left (a s sub : List Char) (h : containsChars s sub = true) :
    containsChars (a ++ s) sub = true := by
  induction a with
  | nil => simpa using h
  | cons c cs ih => simp [containsChars, ih]

theorem stringsContains_middle (a b c : String) : stringsContains (a ++ b ++ c) b = true := by
  unfold stringsContains
  rw [String.data_append, String.data_append, List.append_assoc]
  exact containsChars_append_left _ _ _
    (containsChars_of_hasPrefix _ _ (hasPrefixChars_append _ _))

/-! ## `makeAPIRequest` -/

theorem makeAPIRequest_eq (env : Env) (ctx : Context) (method rawURL u : String) (w : World)
    (hu : env.urlParse rawURL = .ok u) (hn : env.newRequest method u = none) :
    makeAPIRequest env ctx method rawURL w =
      (match (RetryableRequest env ctx 3 { w with calls := w.calls + 1 }).1 with
        | .error e => .error ("failed to send request: " ++ e)
        | .ok resp => .ok resp,
       (RetryableRequest env ctx 3 { w with calls := w.calls + 1 }).2) := by
  unfold makeAPIRequest
  simp only [hu, hn]
  split <;> simp_all

theorem makeAPIRequest_first_try (env : Env) (ctx : Context) (method rawURL u : String)
    (w : World) (resp : Response)
    (hu : env.urlParse rawURL = .ok u) (hn : env.newRequest method u = none)
    (hctx : ctx.done (w.now + (env.server w.sent).took) = false)
    (hacc : accepted (env.server w.sent).reply.toResult = some resp) :
    makeAPIRequest env ctx method rawURL w =
      (.ok resp, { w with now := w.now + (env.server w.sent).took, sent := w.sent + 1,
                          calls := w.calls + 1 }) := by
  have hlive := clientDo_live env ctx { w with calls := w.calls + 1 } hctx
  have hR : RetryableRequest env ctx 3 { w with calls := w.calls + 1 } =
      (.ok resp, { w with now := w.now + (env.server w.sent).took, sent := w.sent + 1,
                          calls := w.calls + 1 }) := by
    show retryLoop env ctx 3 (3 + 1 : Int).toNat 0 none _ = _
    have : (3 + 1 : Int).toNat = 3 + 1 := by decide
    rw [this, retryLoop]
    simp [hlive, hacc]
  rw [makeAPIRequest_eq env ctx method rawURL u w hu hn, hR]

theorem makeAPIRequest_calls_le (env : Env) (ctx : Context) (method rawURL : String)
    (w : World) :
    (makeAPIRequest env ctx method rawURL w).2.calls ≤ w.calls + 1
    ∧ (makeAPIRequest env ctx method rawURL w).2.sleeps = w.sleeps
    ∧ (makeAPIRequest env ctx method rawURL w).2.fs = w.fs := by
  have hf := retryLoop_frame env ctx 3 (3 + 1 : Int).toNat 0 none { w with calls := w.calls + 1 }
  cases hu : env.urlParse rawURL with
  | error e => simp [makeAPIRequest, hu]
  | ok u =>
    cases hn : env.newRequest method u with
    | some e => simp [makeAPIRequest, hu, hn]
    | none =>
      rw [makeAPIRequest_eq env ctx method rawURL u w hu hn]
      simp only [RetryableRequest]
      exact ⟨by rw [hf.1], hf.2.1, hf.2.2⟩

/-! ## The file writer -/

theorem copyLoop_success (faults : Faults) (chunks : List Chunk) :
    ∀ (k : Nat) (acc : Bytes),
      (copyLoop faults chunks k acc).1 = none →
      (copyLoop faults chunks k acc).2 = acc ++ deliveredBytes chunks := by
  induction chunks with
  | nil => intro k acc _; simp [copyLoop, deliveredBytes]
  | cons c cs ih =>
    intro k acc h
    rw [copyLoop] at h ⊢
    by_cases hlen : c.data.length > 0
    · simp only [hlen, if_true] at h ⊢
      cases hw : faults.write k with
      | some p => simp [hw] at h
      | none =>
        simp only [hw] at h ⊢
        cases he : c.err with
        | none =>
          simp only [he] at h ⊢
          rw [ih _ _ h]
          simp [deliveredBytes, he]
        | some e =>
          cases e with
          | eof => simp [deliveredBytes, he]
          | failed msg => simp [he] at h
    · have hnil : c.data = [] := by
        cases hd : c.data with
        | nil => rfl
        | cons x xs => simp [hd] at hlen
      simp only [hlen, if_false] at h ⊢
      cases he : c.err with
      | none =>
        simp only [he] at h ⊢
        rw [ih _ _ h]
        simp [deliveredBytes, he, hnil]
      | some e =>
        cases e with
        | eof => simp [deliveredBytes, he, hnil]
        | failed msg => simp [he] at h

theorem copyLoop_noFaults (chunks : List Chunk) :
    ∀ (k : Nat) (acc : Bytes), readsCleanly chunks = true →
      (copyLoop noFaults chunks k acc).1 = none := by
  induction chunks with
  | nil => intro k acc _; rfl
  | cons c cs ih =>
    intro k acc h
    rw [copyLoop]
    have hw : noFaults.write k = none := rfl
    cases he : c.err with
    | none =>
      simp only [readsCleanly, he] at h
      by_cases hlen : c.data.length > 0
      · simp only [hlen, if_true, hw]
        exact ih _ _ h
      · simp only [hlen, if_false]
        exact ih _ _ h
    | some e =>
      cases e with
      | eof => by_cases hlen : c.data.length > 0 <;> simp [hlen, hw]
      | failed msg => simp [readsCleanly, he] at h

theorem ne_append_tmp (p : String) : p ≠ p ++ ".tmp" := by
  intro h
  have := congrArg String.length h
  simp [String.length_append] at this
  revert this
  decide

theorem SaveExportFile_frame (env : Env) (caid : Int) (handler : String) (resp : Response)
    (w : World) :
    (SaveExportFile env caid handler resp w).2.now = w.now
    ∧ (SaveExportFile env caid handler resp w).2.sent = w.sent
    ∧ (SaveExportFile env caid handler resp w).2.calls = w.calls
    ∧ (SaveExportFile env caid handler resp w).2.sleeps = w.sleeps
    ∧ (SaveExportFile env caid handler resp w).2.backoffs = w.backoffs := by
  unfold SaveExportFile
  simp only
  repeat' split
  all_goals exact ⟨rfl, rfl, rfl, rfl, rfl⟩

theorem SaveExportFile_saved (env : Env) (caid : Int) (handler : String) (resp : Response)
    (w : World) (h : (SaveExportFile env caid handler resp w).1 = none) :
    (SaveExportFile env caid handler resp w).2.fs.files (finalPath env caid handler)
      = some (deliveredBytes resp.Body.chunks) := by
  have hne := ne_append_tmp (finalPath env caid handler)
  simp only [finalPath, effectiveOutputDir, exportFileName] at hne ⊢
  simp only [SaveExportFile] at h ⊢
  cases hv : ValidateOutputDir (if env.outputDir = "" then "." else env.outputDir) with
  | some e => simp [hv] at h
  | none =>
    simp only [hv] at h ⊢
    cases hp : ValidateFilePath env.tempDir
        (filepathJoin (if env.outputDir = "" then "." else env.outputDir)
          ("export_" ++ toString caid ++ "_" ++ handler ++ ".zip") ++ ".tmp") with
    | some e => simp [hp] at h
    | none =>
      simp only [hp] at h ⊢
      cases hm : env.faults.mkdirAll with
      | some e => simp [hm] at h
      | none =>
        simp only [hm] at h ⊢
        cases ho : env.faults.openFile with
        | some e => simp [ho] at h
        | none =>
          simp only [ho] at h ⊢
          by_cases hc : resp.Body.closed = true
          · simp [hc] at h
          · simp only [hc, if_false, Bool.false_eq_true] at h ⊢
            cases hcp : (copyLoop env.faults resp.Body.chunks 0 []).1 with
            | some e => simp [hcp] at h
            | none =>
              have hcontent := copyLoop_success env.faults resp.Body.chunks 0 [] hcp
              simp only [hcp] at h ⊢
              cases hr : env.faults.rename with
              | some e => simp [hr] at h
              | none =>
                simp only [hr, deferredCleanup, FS.rename, FS.removeFile, FS.writeFile,
                  FS.mkdirAll]
                by_cases hrem : env.faults.remove = true
                · simp [hrem, hcontent]
                · simp [hrem, hcontent, hne]

theorem SaveExportFile_ok (env : Env) (caid : Int) (handler : String) (resp : Response)
    (w : World) (hfaults : env.faults = noFaults)
    (hdir : ValidateOutputDir (effectiveOutputDir env) = none)
    (hpath : ValidateFilePath env.tempDir (finalPath env caid handler ++ ".tmp") = none)
    (hopen : resp.Body.closed = false) (hreads : readsCleanly resp.Body.chunks = true) :
    (SaveExportFile env caid handler resp w).1 = none := by
  simp only [finalPath, effectiveOutputDir, exportFileName] at hdir hpath
  have hcp := copyLoop_noFaults resp.Body.chunks 0 [] hreads
  have hm : noFaults.mkdirAll = none := rfl
  have ho : noFaults.openFile = none := rfl
  have hr : noFaults.rename = none := rfl
  simp only [SaveExportFile, hdir, hpath, hfaults, hopen, hm, ho, hr, hcp, if_false,
    Bool.false_eq_true]

/-! ## The poller -/

theorem accepted_of_stillInProgress (rep : Reply) (h : stillInProgress rep = true) :
    ∃ resp, accepted rep.toResult = some resp ∧ resp.StatusCode = 202
      ∧ resp.Body.closeErr = none := by
  cases rep with
  | transportErr msg => simp [stillInProgress] at h
  | response status chunks closeErr =>
    simp only [stillInProgress, Bool.and_eq_true, decide_eq_true_eq,
      Option.isNone_iff_eq_none] at h
    obtain ⟨hs, hc⟩ := h
    subst hs hc
    exact ⟨{ StatusCode := 202, Body := { chunks := chunks, closed := false, closeErr := none } },
      by simp [accepted, Reply.toResult], rfl, rfl⟩

theorem pollLoop_step_accepted (env : Env) (ctx : Context) (caid : Int)
    (handler url u : String) (fuel : Nat) (delay attempts : Int) (w : World)
    (hctx : ctx.doneAt = none)
    (hu : env.urlParse url = .ok u) (hn : env.newRequest "GET" u = none)
    (h202 : stillInProgress (env.server w.sent).reply = true) :
    pollLoop env ctx caid handler url (fuel + 1) delay attempts w =
      if attempts + 1 ≥ maxAttempts then
        some (some maxAttemptsMsg, afterAccepted env 1 delay w)
      else
        pollLoop env ctx caid handler url fuel (nextDelay delay) (attempts + 1)
          (afterAccepted env 1 delay w) := by
  obtain ⟨resp, hacc, hs, hc⟩ := accepted_of_stillInProgress _ h202
  have hreq := makeAPIRequest_first_try env ctx "GET" url u w resp hu hn
    (Context.done_of_never ctx hctx _) hacc
  rw [pollLoop]
  simp [hreq, hs, hc, Body.Close, Context.done_of_never ctx hctx, afterAccepted]

theorem afterAccepted_fields (env : Env) (n : Nat) :
    ∀ (delay : Int) (w : World),
      (afterAccepted env n delay w).sent = w.sent + n
      ∧ (afterAccepted env n delay w).calls = w.calls + n
      ∧ (afterAccepted env n delay w).fs = w.fs
      ∧ (afterAccepted env n delay w).backoffs = w.backoffs
      ∧ (afterAccepted env n delay w).sleeps
          = w.sleeps ++ (List.range n).map (fun i => nextDelay^[i] delay) := by
  induction n with
  | zero => intro delay w; simp [afterAccepted]
  | succ n ih =>
    intro delay w
    obtain ⟨h1, h2, h3, h4, h5⟩ := ih (nextDelay delay)
      { w with now := w.now + (env.server w.sent).took + delay.toNat,
               sent := w.sent + 1, calls := w.calls + 1, sleeps := w.sleeps ++ [delay] }
    simp only [afterAccepted]
    refine ⟨by rw [h1]; simp only; omega, by rw [h2]; simp only; omega, h3, h4, ?_⟩
    rw [h5]
    simp [List.range_succ_eq_map, List.map_map, Function.comp_def]

theorem pollLoop_accepted_run (env : Env) (ctx : Context) (caid : Int)
    (handler url u : String) (hctx : ctx.doneAt = none)
    (hu : env.urlParse url = .ok u) (hn : env.newRequest "GET" u = none) (n : Nat) :
    ∀ (fuel : Nat) (delay attempts : Int) (w : World),
      attempts + n < maxAttempts →
      (∀ i < n, stillInProgress (env.server (w.sent + i)).reply = true) →
      pollLoop env ctx caid handler url (fuel + n) delay attempts w =
        pollLoop env ctx caid handler url fuel (nextDelay^[n] delay) (attempts + n)
          (afterAccepted env n delay w) := by
  induction n with
  | zero => intro fuel delay attempts w _ _; simp [afterAccepted]
  | succ n ih =>
    intro fuel delay attempts w hlt hall
    have h0 := hall 0 (Nat.zero_lt_succ _)
    simp only [Nat.add_zero] at h0
    have hstep := pollLoop_step_accepted env ctx caid handler url u (fuel + n) delay attempts w
      hctx hu hn h0
    have hnot : ¬ (attempts + 1 ≥ maxAttempts) := by
      push_cast at hlt
      omega
    rw [show fuel + (n + 1) = fuel + n + 1 by omega, hstep, if_neg hnot]
    have hrec := ih fuel (nextDelay delay) (attempts + 1) (afterAccepted env 1 delay w)
      (by push_cast at hlt ⊢; omega)
      (by
        intro i hi
        have := hall (i + 1) (by omega)
        simpa [afterAccepted, Nat.add_assoc, Nat.add_comm 1 i] using this)
    rw [hrec]
    simp only [afterAccepted, Function.iterate_succ, Function.comp]
    congr 1
    push_cast
    omega

set_option maxRecDepth 100000 in
theorem nextDelay_iterate (k : Nat) : nextDelay^[k] (1 * Second) = specPollDelay k := by
  have h5 : ∀ j, nextDelay^[j + 5] (1 * Second) = 30 * Second := by
    intro j
    induction j with
    | zero => decide
    | succ j ih =>
      rw [show j + 1 + 5 = (j + 5) + 1 by omega, Function.iterate_succ_apply', ih]
      decide
  rcases Nat.lt_or_ge k 5 with h | h
  · interval_cases k <;> decide
  · obtain ⟨j, rfl⟩ : ∃ j, k = j + 5 := ⟨k - 5, by omega⟩
    rw [h5]
    unfold specPollDelay
    have h32 : (30 : Int) ≤ 2 ^ (j + 5) := by
      have : (2 : Int) ^ (j + 5) = 2 ^ j * 32 := by rw [pow_add]; norm_num
      have hpos : (1 : Int) ≤ 2 ^ j := one_le_pow₀ (by norm_num)
      omega
    rw [min_eq_right h32]

theorem pollLoop_total (env : Env) (ctx : Context) (caid : Int) (handler url : String)
    (fuel : Nat) :
    ∀ (delay attempts : Int) (w : World),
      attempts < maxAttempts →
      (maxAttempts - attempts).toNat ≤ fuel →
      ∃ r m, pollLoop env ctx caid handler url fuel delay attempts w = some r
        ∧ r.2.calls ≤ w.calls + (maxAttempts - attempts).toNat
        ∧ r.2.sleeps = w.sleeps ++ (List.range m).map (fun i => nextDelay^[i] delay) := by
  induction fuel with
  | zero =>
    intro delay attempts w hlt hfuel
    exfalso
    simp only [maxAttempts] at hlt hfuel
    omega
  | succ fuel ih =>
    intro delay attempts w hlt hfuel
    have hpos : 1 ≤ (maxAttempts - attempts).toNat := by
      simp only [maxAttempts] at hlt ⊢
      omega
    obtain ⟨hcalls, hsleeps, -⟩ := makeAPIRequest_calls_le env ctx "GET" url w
    rw [pollLoop]
    by_cases hdone : ctx.done w.now = true
    · exact ⟨(some timedOutMsg, w), 0, by simp only [hdone, if_true], by simp, by simp⟩
    · simp only [hdone, if_false, Bool.false_eq_true]
      cases hreq : (makeAPIRequest env ctx "GET" url w).1 with
      | error e =>
        exact ⟨_, 0, rfl, by simp only; omega, by simpa using hsleeps⟩
      | ok resp =>
        simp only
        by_cases h200 : resp.StatusCode = 200
        · simp only [h200, if_true]
          obtain ⟨-, -, hsc, hss, -⟩ :=
            SaveExportFile_frame env caid handler resp (makeAPIRequest env ctx "GET" url w).2
          cases hsave : (SaveExportFile env caid handler resp
              (makeAPIRequest env ctx "GET" url w).2).1 with
          | some e =>
            exact ⟨_, 0, rfl, by simp only [hsc]; omega, by simp only [hss]; simpa using hsleeps⟩
          | none =>
            simp only
            cases hclose : resp.Body.Close.1 with
            | some e =>
              exact ⟨_, 0, rfl, by simp only [hsc]; omega,
                by simp only [hss]; simpa using hsleeps⟩
            | none =>
              exact ⟨_, 0, rfl, by simp only [hsc]; omega,
                by simp only [hss]; simpa using hsleeps⟩
        · simp only [h200, if_false]
          by_cases h202 : resp.StatusCode = 202
          · simp only [h202, if_true]
            cases hclose : resp.Body.Close.1 with
            | some e => exact ⟨_, 0, rfl, by simp only; omega, by simpa using hsleeps⟩
            | none =>
              simp only
              by_cases hdue : ctx.done ((makeAPIRequest env ctx "GET" url w).2.now
                  + delay.toNat) = true
              · simp only [hdue, if_true]
                exact ⟨_, 0, rfl, by simp only; omega, by simpa using hsleeps⟩
              · simp only [hdue, if_false, Bool.false_eq_true]
                by_cases hmax : attempts + 1 ≥ maxAttempts
                · simp only [hmax, if_true]
                  exact ⟨_, 1, rfl, by simp only; omega, by simp [hsleeps]⟩
                · simp only [hmax, if_false]
                  obtain ⟨r, m, hr, hrc, hrs⟩ := ih (nextDelay delay) (attempts + 1)
                    { (makeAPIRequest env ctx "GET" url w).2 with
                      now := (makeAPIRequest env ctx "GET" url w).2.now + delay.toNat,
                      sleeps := (makeAPIRequest env ctx "GET" url w).2.sleeps ++ [delay] }
                    (by omega)
                    (by simp only [maxAttempts] at hlt hfuel hmax ⊢; omega)
                  refine ⟨r, m + 1, hr, ?_, ?_⟩
                  · simp only at hrc
                    simp only [maxAttempts] at hlt hfuel hmax hrc ⊢
                    omega
                  · rw [hrs]
                    simp [hsleeps, List.range_succ_eq_map, List.map_map, Function.comp_def]
          · simp only [h202, if_false]
            exact ⟨_, 0, rfl, by simp only; omega, by simpa using hsleeps⟩

theorem pollLoop_sleeps_of_accepted (env : Env) (ctx : Context) (caid : Int)
    (handler url u : String) (hctx : ctx.doneAt = none)
    (hu : env.urlParse url = .ok u) (hn : env.newRequest "GET" u = none) (n : Nat) :
    ∀ (fuel : Nat) (delay attempts : Int) (w : World),
      attempts + n ≤ maxAttempts →
      attempts < maxAttempts →
      (maxAttempts - attempts).toNat ≤ fuel →
      (∀ i < n, stillInProgress (env.server (w.sent + i)).reply = true) →
      ∃ r m, pollLoop env ctx caid handler url fuel delay attempts w = some r
        ∧ r.2.sleeps = w.sleeps ++ (List.range m).map (fun i => nextDelay^[i] delay)
        ∧ n ≤ m := by
  induction n with
  | zero =>
    intro fuel delay attempts w _ hlt hfuel _
    obtain ⟨r, m, h1, -, h3⟩ := pollLoop_total env ctx caid handler url fuel delay attempts w
      hlt hfuel
    exact ⟨r, m, h1, h3, Nat.zero_le _⟩
  | succ n ih =>
    intro fuel delay attempts w hle hlt hfuel hall
    obtain ⟨fuel, rfl⟩ : ∃ f, fuel = f + 1 := ⟨fuel - 1, by
      simp only [maxAttempts] at hlt hfuel; omega⟩
    have h0 := hall 0 (Nat.zero_lt_succ _)
    simp only [Nat.add_zero] at h0
    rw [pollLoop_step_accepted env ctx caid handler url u fuel delay attempts w hctx hu hn h0]
    obtain ⟨-, -, -, -, hsl⟩ := afterAccepted_fields env 1 delay w
    by_cases hmax : attempts + 1 ≥ maxAttempts
    · have hn0 : n = 0 := by
        simp only [maxAttempts] at hle hmax
        push_cast at hle
        omega
      subst hn0
      exact ⟨_, 1, by rw [if_pos hmax], by simpa using hsl, Nat.le_refl _⟩
    · rw [if_neg hmax]
      obtain ⟨r, m, h1, h2, h3⟩ := ih fuel (nextDelay delay) (attempts + 1)
        (afterAccepted env 1 delay w)
        (by push_cast at hle ⊢; omega) (by omega)
        (by simp only [maxAttempts] at hlt hfuel hmax ⊢; omega)
        (by
          intro i hi
          have := hall (i + 1) (by omega)
          simpa [afterAccepted, Nat.add_assoc, Nat.add_comm 1 i] using this)
      refine ⟨r, m + 1, h1, ?_, by omega⟩
      rw [h2, hsl]
      simp [List.range_succ_eq_map, List.map_map, Function.comp_def]

theorem pollLoop_sixty_accepted (env : Env) (ctx : Context) (caid : Int)
    (handler url u : String) (hctx : ctx.doneAt = none)
    (hu : env.urlParse url = .ok u) (hn : env.newRequest "GET" u = none)
    (fuel : Nat) (delay : Int) (w : World) (hfuel : 60 ≤ fuel)
    (hall : ∀ i < 60, stillInProgress (env.server (w.sent + i)).reply = true) :
    pollLoop env ctx caid handler url fuel delay 0 w
      = some (some maxAttemptsMsg, afterAccepted env 60 delay w) := by
  obtain ⟨rest, rfl⟩ : ∃ rest, fuel = rest + 1 + 59 := ⟨fuel - 60, by omega⟩
  have hrun := pollLoop_accepted_run env ctx caid handler url u hctx hu hn 59 (rest + 1)
    delay 0 w (by decide) (fun i hi => hall i (by omega))
  obtain ⟨hs, -⟩ := afterAccepted_fields env 59 delay w
  have hlast : stillInProgress (env.server (afterAccepted env 59 delay w).sent).reply = true := by
    rw [hs]
    exact hall 59 (by omega)
  rw [hrun, pollLoop_step_accepted env ctx caid handler url u rest _ _ _ hctx hu hn hlast,
    if_pos (by decide)]
  have hsplit : ∀ (a b : Nat) (d : Int) (x : World),
      afterAccepted env (a + b) d x = afterAccepted env b (nextDelay^[a] d) (afterAccepted env a d x) := by
    intro a
    induction a with
    | zero => intro b d x; simp [afterAccepted]
    | succ a iha =>
      intro b d x
      rw [show a + 1 + b = (a + b) + 1 by omega]
      simp only [afterAccepted, Function.iterate_succ, Function.comp]
      exact iha b _ _
  rw [show (60 : Nat) = 59 + 1 by rfl, hsplit 59 1 delay w]

/-! ## Substrings and segments -/

theorem hasPrefixChars_iff (s p : List Char) : hasPrefixChars s p = true ↔ p <+: s := by
  induction s generalizing p with
  | nil =>
    cases p with
    | nil => simp [hasPrefixChars]
    | cons c cs => simp [hasPrefixChars]
  | cons a s ih =>
    cases p with
    | nil => simp [hasPrefixChars]
    | cons c cs =>
      simp only [hasPrefixChars, Bool.and_eq_true, beq_iff_eq, ih, List.cons_prefix_cons]
      constructor
      · rintro ⟨h1, h2⟩; exact ⟨h1.symm, h2⟩
      · rintro ⟨h1, h2⟩; exact ⟨h1.symm, h2⟩

theorem containsChars_iff (s sub : List Char) : containsChars s sub = true ↔ sub <:+: s := by
  induction s with
  | nil =>
    cases sub with
    | nil => simp [containsChars]
    | cons c cs => simp [containsChars]
  | cons a s ih =>
    simp only [containsChars, Bool.or_eq_true, ih, hasPrefixChars_iff, List.infix_cons_iff]

theorem containsChars_append_right (s t sub : List Char) (h : containsChars s sub = true) :
    containsChars (s ++ t) sub = true := by
  rw [containsChars_iff] at h ⊢
  exact h.trans (List.infix_append' [] s t)

theorem head_splitSlash_prefix (l : List Char) :
    ∀ x xs, splitSlash l = x :: xs → x <+: l := by
  induction l with
  | nil =>
    intro x xs h
    simp only [splitSlash, List.cons.injEq] at h
    rw [← h.1]
  | cons c cs ih =>
    intro x xs h
    rw [splitSlash] at h
    by_cases hc : c = '/'
    · simp only [hc, if_true, List.cons.injEq] at h
      rw [← h.1]
      exact List.nil_prefix
    · simp only [hc, if_false] at h
      cases hs : splitSlash cs with
      | nil =>
        simp only [hs, List.cons.injEq] at h
        rw [← h.1]
        exact List.cons_prefix_cons.2 ⟨rfl, List.nil_prefix⟩
      | cons y ys =>
        simp only [hs, List.cons.injEq] at h
        rw [← h.1]
        exact List.cons_prefix_cons.2 ⟨rfl, ih y ys hs⟩

theorem mem_splitSlash_infix (l : List Char) :
    ∀ comp, comp ∈ splitSlash l → comp <:+: l := by
  induction l with
  | nil =>
    intro comp h
    simp only [splitSlash, List.mem_singleton] at h
    rw [h]
  | cons c cs ih =>
    intro comp h
    rw [splitSlash] at h
    by_cases hc : c = '/'
    · simp only [hc, if_true, List.mem_cons] at h
      rcases h with h | h
      · rw [h]; exact List.nil_infix
      · exact (ih comp h).trans (List.infix_cons (List.infix_refl cs))
    · simp only [hc, if_false] at h
      cases hs : splitSlash cs with
      | nil =>
        simp only [hs, List.mem_singleton] at h
        rw [h]
        exact (List.cons_prefix_cons.2 ⟨rfl, List.nil_prefix⟩).isInfix
      | cons y ys =>
        simp only [hs, List.mem_cons] at h
        rcases h with h | h
        · rw [h]
          exact (List.cons_prefix_cons.2 ⟨rfl, head_splitSlash_prefix cs y ys hs⟩).isInfix
        · have : comp ∈ splitSlash cs := by rw [hs]; exact List.mem_cons_of_mem _ h
          exact (ih comp this).trans (List.infix_cons (List.infix_refl cs))

theorem stringsContains_of_segment (s : String) (h : hasDotDotSegment s = true) :
    stringsContains s ".." = true := by
  unfold hasDotDotSegment at h
  unfold stringsContains
  rw [containsChars_iff]
  have hmem : ['.', '.'] ∈ splitSlash s.data := by simpa using h
  exact mem_splitSlash_infix s.data _ hmem

/-! ## The file writer: what it leaves on the file system -/

theorem copyLoop_error_shape (faults : Faults) (chunks : List Chunk) :
    ∀ (k : Nat) (acc : Bytes) (e : String),
      (copyLoop faults chunks k acc).1 = some e →
      ∃ msg, e = "error reading response body: " ++ msg
        ∨ e = "failed to write to temp file: " ++ msg := by
  induction chunks with
  | nil => intro k acc e h; simp [copyLoop] at h
  | cons c cs ih =>
    intro k acc e h
    rw [copyLoop] at h
    by_cases hlen : c.data.length > 0
    · simp only [hlen, if_true] at h
      cases hw : faults.write k with
      | some p =>
        simp only [hw, Option.some.injEq] at h
        exact ⟨p.2, Or.inr h.symm⟩
      | none =>
        simp only [hw] at h
        cases he : c.err with
        | none =>
          simp only [he] at h
          exact ih _ _ _ h
        | some r =>
          cases r with
          | eof => simp [he] at h
          | failed msg =>
            simp only [he, Option.some.injEq] at h
            exact ⟨msg, Or.inl h.symm⟩
    · simp only [hlen, if_false] at h
      cases he : c.err with
      | none =>
        simp only [he] at h
        exact ih _ _ _ h
      | some r =>
        cases r with
        | eof => simp [he] at h
        | failed msg =>
          simp only [he, Option.some.injEq] at h
          exact ⟨msg, Or.inl h.symm⟩

theorem copyLoop_success_reads (faults : Faults) (chunks : List Chunk) :
    ∀ (k : Nat) (acc : Bytes),
      (copyLoop faults chunks k acc).1 = none → readsCleanly chunks = true := by
  induction chunks with
  | nil => intro k acc _; rfl
  | cons c cs ih =>
    intro k acc h
    rw [copyLoop] at h
    cases he : c.err with
    | none =>
      simp only [readsCleanly, he]
      by_cases hlen : c.data.length > 0
      · simp only [hlen, if_true, he] at h
        cases hw : faults.write k with
        | some p => simp [hw] at h
        | none =>
          simp only [hw] at h
          exact ih _ _ h
      · simp only [hlen, if_false, he] at h
        exact ih _ _ h
    | some r =>
      cases r with
      | eof => simp [readsCleanly, he]
      | failed msg =>
        by_cases hlen : c.data.length > 0
        · simp only [hlen, if_true, he] at h
          cases hw : faults.write k with
          | some p => simp [hw] at h
          | none => simp [hw] at h
        · simp [hlen, he] at h

theorem SaveExportFile_effects (env : Env) (caid : Int) (handler : String) (resp : Response)
    (w : World) :
    (∀ e, (SaveExportFile env caid handler resp w).1 = some e →
      (SaveExportFile env caid handler resp w).2.fs.files (finalPath env caid handler)
        = w.fs.files (finalPath env caid handler))
    ∧ (∀ q, q ≠ finalPath env caid handler → q ≠ tempFilePath env caid handler →
        (SaveExportFile env caid handler resp w).2.fs.files q = w.fs.files q)
    ∧ ((SaveExportFile env caid handler resp w).1 = none →
        (SaveExportFile env caid handler resp w).2.fs.files (tempFilePath env caid handler) = none
        ∧ resp.Body.closed = false ∧ readsCleanly resp.Body.chunks = true) := by
  have hne := ne_append_tmp (finalPath env caid handler)
  simp only [finalPath, effectiveOutputDir, exportFileName, tempFilePath] at hne ⊢
  simp only [SaveExportFile]
  cases hv : ValidateOutputDir (if env.outputDir = "" then "." else env.outputDir) with
  | some e => simp
  | none =>
    simp only
    cases hp : ValidateFilePath env.tempDir
        (filepathJoin (if env.outputDir = "" then "." else env.outputDir)
          ("export_" ++ toString caid ++ "_" ++ handler ++ ".zip") ++ ".tmp") with
    | some e => simp
    | none =>
      simp only
      cases hm : env.faults.mkdirAll with
      | some e => simp
      | none =>
        simp only
        cases ho : env.faults.openFile with
        | some e => simp [FS.mkdirAll]
        | none =>
          simp only
          by_cases hc : resp.Body.closed = true
          · simp only [hc, if_true, deferredCleanup, FS.removeFile, FS.writeFile, FS.mkdirAll]
            by_cases hrem : env.faults.remove = true
            · simp only [hrem, if_true]
              refine ⟨?_, ?_, ?_⟩
              · intro e _; simp [hne]
              · intro q _ h2; simp [h2]
              · intro h; simp at h
            · simp only [hrem, if_false, Bool.false_eq_true]
              refine ⟨?_, ?_, ?_⟩
              · intro e _; simp [hne]
              · intro q _ h2; simp [h2]
              · intro h; simp at h
          · simp only [hc, if_false, Bool.false_eq_true]
            cases hcp : (copyLoop env.faults resp.Body.chunks 0 []).1 with
            | some e =>
              simp only [deferredCleanup, FS.removeFile, FS.writeFile, FS.mkdirAll]
              by_cases hrem : env.faults.remove = true
              · simp only [hrem, if_true]
                refine ⟨?_, ?_, ?_⟩
                · intro e _; simp [hne]
                · intro q _ h2; simp [h2]
                · intro h; simp at h
              · simp only [hrem, if_false, Bool.false_eq_true]
                refine ⟨?_, ?_, ?_⟩
                · intro e _; simp [hne]
                · intro q _ h2; simp [h2]
                · intro h; simp at h
            | none =>
              have hreads := copyLoop_success_reads env.faults resp.Body.chunks 0 [] hcp
              simp only
              cases hr : env.faults.rename with
              | some e =>
                simp only [deferredCleanup, FS.removeFile, FS.writeFile, FS.mkdirAll]
                by_cases hrem : env.faults.remove = true
                · simp only [hrem, if_true]
                  refine ⟨?_, ?_, ?_⟩
                  · intro e _; simp [hne]
                  · intro q _ h2; simp [h2]
                  · intro h; simp at h
                · simp only [hrem, if_false, Bool.false_eq_true]
                  refine ⟨?_, ?_, ?_⟩
                  · intro e _; simp [hne]
                  · intro q _ h2; simp [h2]
                  · intro h; simp at h
              | none =>
                simp only [deferredCleanup, FS.rename, FS.removeFile, FS.writeFile, FS.mkdirAll]
                by_cases hrem : env.faults.remove = true
                · simp only [hrem, if_true]
                  refine ⟨?_, ?_, ?_⟩
                  · intro e h; simp at h
                  · intro q h1 h2; simp [h1, h2]
                  · intro _
                    refine ⟨?_, by simp [hc], hreads⟩
                    simp [hne.symm]
                · simp only [hrem, if_false, Bool.false_eq_true]
                  refine ⟨?_, ?_, ?_⟩
                  · intro e h; simp at h
                  · intro q h1 h2; simp [h1, h2]
                  · intro _
                    refine ⟨?_, by simp [hc], hreads⟩
                    simp

theorem SaveExportFile_staging (env : Env) (caid : Int) (handler : String) (resp : Response)
    (w : World)
    (hdir : ValidateOutputDir (effectiveOutputDir env) = none)
    (hpath : ValidateFilePath env.tempDir (tempFilePath env caid handler) = none)
    (hmk : env.faults.mkdirAll = none) (hopen : env.faults.openFile = none)
    (hlive : resp.Body.closed = false) :
    (∀ e, (copyLoop env.faults resp.Body.chunks 0 []).1 = some e →
        (SaveExportFile env caid handler resp w).1 = some e)
    ∧ (∀ e, env.faults.rename = some e → env.faults.remove = true →
        (SaveExportFile env caid handler resp w).2.fs.files (tempFilePath env caid handler)
          = some (copyLoop env.faults resp.Body.chunks 0 []).2) := by
  have hne := ne_append_tmp (finalPath env caid handler)
  simp only [finalPath, effectiveOutputDir, exportFileName, tempFilePath] at hne hdir hpath ⊢
  simp only [SaveExportFile, hdir, hpath, hmk, hopen, hlive, if_false, Bool.false_eq_true]
  cases hcp : (copyLoop env.faults resp.Body.chunks 0 []).1 with
  | some e =>
    simp only [deferredCleanup, FS.removeFile, FS.writeFile, FS.mkdirAll]
    refine ⟨?_, ?_⟩
    · intro e' h; simpa using h
    · intro e' _ hrem; simp [hrem]
  | none =>
    simp only
    cases hr : env.faults.rename with
    | some e =>
      simp only [deferredCleanup, FS.removeFile, FS.writeFile, FS.mkdirAll]
      refine ⟨?_, ?_⟩
      · intro e' h; simp at h
      · intro e' _ hrem; simp [hrem]
    | none =>
      simp only [deferredCleanup, FS.rename, FS.removeFile, FS.writeFile, FS.mkdirAll]
      refine ⟨?_, ?_⟩
      · intro e' h; simp at h
      · intro e' h; simp at h

theorem SaveExportFile_rejects_dotdot (env : Env) (caid : Int) (handler : String)
    (resp : Response) (w : World)
    (h : stringsContains (effectiveOutputDir env) ".." = true
      ∨ stringsContains (finalPath env caid handler) ".." = true) :
    ∃ e, SaveExportFile env caid handler resp w = (some e, w) := by
  simp only [finalPath, effectiveOutputDir, exportFileName] at h
  simp only [SaveExportFile]
  by_cases hd : stringsContains (if env.outputDir = "" then "." else env.outputDir) ".." = true
  · exact ⟨"invalid output dir: " ++ ("invalid output directory: "
      ++ if env.outputDir = "" then "." else env.outputDir), by simp [ValidateOutputDir, hd]⟩
  · have hf := h.resolve_left hd
    have ht : stringsContains
        (filepathJoin (if env.outputDir = "" then "." else env.outputDir)
          ("export_" ++ toString caid ++ "_" ++ handler ++ ".zip") ++ ".tmp") ".." = true := by
      unfold stringsContains at hf ⊢
      rw [String.data_append]
      exact containsChars_append_right _ _ _ hf
    exact ⟨"invalid file path: " ++ ("invalid file path: "
      ++ (filepathJoin (if env.outputDir = "" then "." else env.outputDir)
          ("export_" ++ toString caid ++ "_" ++ handler ++ ".zip") ++ ".tmp")),
      by simp [ValidateOutputDir, hd, ValidateFilePath, ht]⟩

theorem SaveExportFile_temp_removed (env : Env) (caid : Int) (handler : String)
    (resp : Response) (w : World)
    (hdir : ValidateOutputDir (effectiveOutputDir env) = none)
    (hpath : ValidateFilePath env.tempDir (tempFilePath env caid handler) = none)
    (hmk : env.faults.mkdirAll = none) (hopen : env.faults.openFile = none)
    (hrem : env.faults.remove = false) :
    (SaveExportFile env caid handler resp w).2.fs.files (tempFilePath env caid handler) = none := by
  simp only [effectiveOutputDir, tempFilePath] at hdir hpath ⊢
  simp only [SaveExportFile, hdir, hpath, hmk, hopen]
  split
  · simp [deferredCleanup, hrem, FS.removeFile]
  · split
    · simp [deferredCleanup, hrem, FS.removeFile]
    · simp [deferredCleanup, hrem, FS.removeFile]

/-! ## Handles -/

theorem takeHex_eq_some (n : Nat) :
    ∀ (s r : List Char), takeHex n s = some r ↔
      ∃ g : List Char, g.length = n ∧ (∀ c ∈ g, isLowerHex c = true) ∧ s = g ++ r := by
  induction n with
  | zero =>
    intro s r
    simp only [takeHex, Option.some.injEq]
    constructor
    · intro h; exact ⟨[], rfl, by simp, by simp [h]⟩
    · rintro ⟨g, hg, -, hs⟩
      have : g = [] := List.length_eq_zero.1 hg
      simp [hs, this]
  | succ n ih =>
    intro s r
    cases s with
    | nil =>
      simp only [takeHex]
      constructor
      · intro h; simp at h
      · rintro ⟨g, hg, -, hs⟩
        have : g = [] := by
          cases g with
          | nil => rfl
          | cons a b => simp at hs
        simp [this] at hg
    | cons c cs =>
      simp only [takeHex]
      by_cases hc : isLowerHex c = true
      · simp only [hc, if_true, ih]
        constructor
        · rintro ⟨g, hg, hall, hs⟩
          refine ⟨c :: g, by simp [hg], ?_, by simp [hs]⟩
          intro x hx
          rcases List.mem_cons.1 hx with h | h
          · rw [h]; exact hc
          · exact hall x h
        · rintro ⟨g, hg, hall, hs⟩
          cases g with
          | nil => simp at hg
          | cons a b =>
            simp only [List.cons_append, List.cons.injEq] at hs
            exact ⟨b, by simpa using hg, fun x hx => hall x (List.mem_cons_of_mem _ hx), hs.2⟩
      · simp only [hc, if_false, Bool.false_eq_true]
        constructor
        · intro h; simp at h
        · rintro ⟨g, hg, hall, hs⟩
          cases g with
          | nil => simp at hg
          | cons a b =>
            simp only [List.cons_append, List.cons.injEq] at hs
            exact absurd (hall a (List.mem_cons_self _ _)) (by rw [← hs.1]; exact hc)

theorem takeHyphen_eq_some (s r : List Char) : takeHyphen s = some r ↔ s = '-' :: r := by
  cases s with
  | nil => simp [takeHyphen]
  | cons c cs =>
    by_cases hc : c = '-'
    · subst hc
      simp [takeHyphen]
    · have : takeHyphen (c :: cs) = none := by
        unfold takeHyphen
        split
        · rename_i h
          simp only [List.cons.injEq] at h
          exact absurd h.1 hc
        · rfl
      simp [this, hc]

theorem uuidRegexMatch_iff (s : List Char) : uuidRegexMatch s = true ↔ isUUIDShape s := by
  have hchain : uuidRegexMatch s = true ↔
      (((((((((some s).bind (takeHex 8)).bind takeHyphen).bind (takeHex 4)).bind
        takeHyphen).bind (takeHex 4)).bind takeHyphen).bind (takeHex 4)).bind
        takeHyphen).bind (takeHex 12) = some [] := by
    unfold uuidRegexMatch
    split
    · rename_i h; exact ⟨fun _ => h, fun _ => rfl⟩
    · rename_i h
      constructor
      · intro hf; simp at hf
      · intro hs; exact absurd hs (h)
  rw [hchain]
  simp only [Option.bind_eq_some, takeHex_eq_some, takeHyphen_eq_some, Option.some.injEq]
  unfold isUUIDShape
  constructor
  · rintro ⟨r8, ⟨r7, ⟨r6, ⟨r5, ⟨r4, ⟨r3, ⟨r2, ⟨r1, ⟨s', rfl, g1, h1, a1, e1⟩, e2⟩,
      g2, h2, a2, e3⟩, e4⟩, g3, h3, a3, e5⟩, e6⟩, g4, h4, a4, e7⟩, e8⟩, g5, h5, a5, e9⟩
    refine ⟨g1, g2, g3, g4, g5, h1, h2, h3, h4, h5, ?_, ?_⟩
    · intro c hc
      simp only [List.mem_append] at hc
      rcases hc with (((hc | hc) | hc) | hc) | hc
      · exact a1 c hc
      · exact a2 c hc
      · exact a3 c hc
      · exact a4 c hc
      · exact a5 c hc
    · subst e9 e8 e7 e6 e5 e4 e3 e2 e1
      simp
  · rintro ⟨g1, g2, g3, g4, g5, h1, h2, h3, h4, h5, hall, hs⟩
    have a : ∀ g : List Char, (∀ c ∈ g, c ∈ g1 ++ g2 ++ g3 ++ g4 ++ g5) →
        ∀ c ∈ g, isLowerHex c = true :=
      fun g hg c hc => hall c (hg c hc)
    refine ⟨g5, ⟨'-' :: g5, ⟨g4 ++ '-' :: g5, ⟨'-' :: (g4 ++ '-' :: g5),
      ⟨g3 ++ '-' :: (g4 ++ '-' :: g5), ⟨'-' :: (g3 ++ '-' :: (g4 ++ '-' :: g5)),
      ⟨g2 ++ '-' :: (g3 ++ '-' :: (g4 ++ '-' :: g5)),
      ⟨'-' :: (g2 ++ '-' :: (g3 ++ '-' :: (g4 ++ '-' :: g5))),
      ⟨s, rfl, g1, h1, a g1 (by intro c hc; simp [hc]), hs⟩, rfl⟩,
      g2, h2, a g2 (by intro c hc; simp [hc]), rfl⟩, rfl⟩,
      g3, h3, a g3 (by intro c hc; simp [hc]), rfl⟩, rfl⟩,
      g4, h4, a g4 (by intro c hc; simp [hc]), rfl⟩, rfl⟩,
      g5, h5, a g5 (by intro c hc; simp [hc]), by simp⟩

theorem dropWhile_of_head_not (p : Char → Bool) (l : List Char)
    (h : ∀ c, l.head? = some c → p c = false) : l.dropWhile p = l := by
  cases l with
  | nil => rfl
  | cons a l =>
    have := h a rfl
    simp [List.dropWhile, this]

theorem head_not_of_dropWhile (p : Char → Bool) (l : List Char) :
    ∀ c, (l.dropWhile p).head? = some c → p c = false := by
  intro c hc
  have := List.head?_dropWhile_not p l
  rw [hc] at this
  simpa using this

theorem trimSpaceChars_isTrimOf (s : List Char) : isTrimOf (trimSpaceChars s) s := by
  unfold isTrimOf trimSpaceChars
  refine ⟨s.takeWhile isSpace, ((s.dropWhile isSpace).reverse.takeWhile isSpace).reverse,
    ?_, ?_, ?_, ?_, ?_⟩
  · rw [List.append_assoc, ← List.reverse_append, List.takeWhile_append_dropWhile,
      List.reverse_reverse, List.takeWhile_append_dropWhile]
  · intro c hc
    exact List.mem_takeWhile_imp hc
  · intro c hc
    exact List.mem_takeWhile_imp (List.mem_reverse.1 hc)
  · intro c hc
    have hsplit : s.dropWhile isSpace
        = ((s.dropWhile isSpace).reverse.dropWhile isSpace).reverse
          ++ ((s.dropWhile isSpace).reverse.takeWhile isSpace).reverse := by
      rw [← List.reverse_append, List.takeWhile_append_dropWhile, List.reverse_reverse]
    have hhead : (s.dropWhile isSpace).head? = some c := by
      rw [hsplit, List.head?_append, hc]
      rfl
    exact head_not_of_dropWhile isSpace s c hhead
  · intro c hc
    rw [List.getLast?_reverse] at hc
    exact head_not_of_dropWhile isSpace _ c hc

theorem trimSpaceChars_eq_of_isTrimOf (t s : List Char) (h : isTrimOf t s) :
    trimSpaceChars s = t := by
  obtain ⟨pre, suf, hs, hpre, hsuf, hhead, hlast⟩ := h
  unfold trimSpaceChars
  have h1 : s.dropWhile isSpace = (t ++ suf).dropWhile isSpace := by
    rw [hs, List.append_assoc, List.dropWhile_append_of_pos hpre]
  have hsufrev : ∀ c ∈ suf.reverse, isSpace c = true := fun c hc => hsuf c (List.mem_reverse.1 hc)
  cases ht : t with
  | nil =>
    have h2 : (t ++ suf).dropWhile isSpace = [] := by
      rw [ht, List.nil_append]
      exact List.dropWhile_eq_nil_iff.2 (fun x hx => hsuf x hx)
    rw [h1, h2]
    rfl
  | cons a rest =>
    have h2 : (t ++ suf).dropWhile isSpace = t ++ suf := by
      apply dropWhile_of_head_not
      intro c hc
      apply hhead c
      rw [ht] at hc ⊢
      simpa using hc
    rw [h1, h2, List.reverse_append, List.dropWhile_append_of_pos hsufrev]
    have h3 : t.reverse.dropWhile isSpace = t.reverse := by
      apply dropWhile_of_head_not
      intro c hc
      rw [List.head?_reverse] at hc
      exact hlast c hc
    rw [h3, List.reverse_reverse, ht]

/-! ## The executor: what it hands back -/

theorem retryLoop_ok_status (env : Env) (ctx : Context) (maxRetries : Int) (n : Nat) :
    ∀ (attempt : Int) (err : Option String) (w : World) (resp : Response),
      (retryLoop env ctx maxRetries n attempt err w).1 = .ok resp →
      resp.StatusCode < 500 ∧ resp.StatusCode ≠ 401 := by
  induction n with
  | zero =>
    intro attempt err w resp h
    simp [retryLoop] at h
  | succ n ih =>
    intro attempt err w resp h
    rw [retryLoop] at h
    cases hacc : accepted (clientDo env ctx w).1 with
    | some r =>
      simp only [hacc, Except.ok.injEq] at h
      subst h
      exact ((accepted_eq_some _ _).1 hacc).2
    | none =>
      simp only [hacc] at h
      by_cases h1 : attempt = maxRetries
      · simp [h1] at h
      · by_cases h2 : ctx.done (clientDo env ctx w).2.now = true
        · simp [h1, h2] at h
        · by_cases h3 : ctx.done ((clientDo env ctx w).2.now + (backoffFor attempt).toNat) = true
          · simp [h1, h2, h3] at h
          · simp only [h1, h2, h3, if_false, Bool.false_eq_true] at h
            exact ih _ _ _ _ h

theorem exhaustedMsg_shape (maxRetries : Int) (r : Except String Response) :
    ∃ rest, exhaustedMsg maxRetries r
      = "request failed after " ++ toString maxRetries ++ " retries" ++ rest := by
  cases r with
  | error e =>
    refine ⟨": " ++ e, ?_⟩
    show "request failed after " ++ toString maxRetries ++ " retries: " ++ e = _
    rw [show " retries: " = " retries" ++ ": " by decide]
    simp only [String.append_assoc]
  | ok resp =>
    refine ⟨" with status code: " ++ toString resp.StatusCode, ?_⟩
    show "request failed after " ++ toString maxRetries ++ " retries with status code: "
      ++ toString resp.StatusCode = _
    rw [show " retries with status code: " = " retries" ++ " with status code: " by decide]
    simp only [String.append_assoc]

theorem retryLoop_error_shape (env : Env) (ctx : Context) (maxRetries : Int) (n : Nat) :
    ∀ (attempt : Int) (err : Option String) (w : World) (e : String),
      (retryLoop env ctx maxRetries n attempt err w).1 = .error e →
      (∃ rest, e = "request failed after " ++ toString maxRetries ++ " retries" ++ rest)
      ∨ e = "request context canceled: " ++ ctx.errMsg := by
  induction n with
  | zero =>
    intro attempt err w e h
    simp only [retryLoop, Except.error.injEq] at h
    left
    refine ⟨": " ++ err.getD "%!w(<nil>)", ?_⟩
    rw [← h, show " retries: " = " retries" ++ ": " by decide]
    simp only [String.append_assoc]
  | succ n ih =>
    intro attempt err w e h
    rw [retryLoop] at h
    cases hacc : accepted (clientDo env ctx w).1 with
    | some r => simp [hacc] at h
    | none =>
      simp only [hacc] at h
      by_cases h1 : attempt = maxRetries
      · simp only [h1, if_true, Except.error.injEq] at h
        left
        rw [← h]
        exact exhaustedMsg_shape _ _
      · by_cases h2 : ctx.done (clientDo env ctx w).2.now = true
        · simp only [h1, h2, if_true, if_false, Except.error.injEq] at h
          exact Or.inr h.symm
        · by_cases h3 : ctx.done ((clientDo env ctx w).2.now + (backoffFor attempt).toNat) = true
          · have h2f : ctx.done (clientDo env ctx w).2.now = false := by simpa using h2
            simp only [h1, h2f, h3, if_true, if_false, Bool.false_eq_true,
              Except.error.injEq] at h
            exact Or.inr h.symm
          · have h2f : ctx.done (clientDo env ctx w).2.now = false := by simpa using h2
            have h3f : ctx.done ((clientDo env ctx w).2.now + (backoffFor attempt).toNat)
                = false := by simpa using h3
            simp only [h1, h2f, h3f, if_false, Bool.false_eq_true] at h
            exact ih _ _ _ _ h

theorem makeAPIRequest_ok_status (env : Env) (ctx : Context) (method rawURL : String)
    (w : World) (resp : Response) (h : (makeAPIRequest env ctx method rawURL w).1 = .ok resp) :
    resp.StatusCode < 500 ∧ resp.StatusCode ≠ 401 := by
  cases hu : env.urlParse rawURL with
  | error e => simp [makeAPIRequest, hu] at h
  | ok u =>
    cases hn : env.newRequest method u with
    | some e => simp [makeAPIRequest, hu, hn] at h
    | none =>
      rw [makeAPIRequest_eq env ctx method rawURL u w hu hn] at h
      simp only at h
      cases hr : (RetryableRequest env ctx 3 { w with calls := w.calls + 1 }).1 with
      | error e => simp [hr] at h
      | ok r =>
        simp only [hr, Except.ok.injEq] at h
        subst h
        exact retryLoop_ok_status env ctx 3 _ _ _ _ _ hr

/-! ## `filepath.Clean` and `filepath.Dir` introduce no `..` -/

theorem containsChars_mono (s t sub : List Char) (hst : s <:+: t)
    (h : containsChars t sub = false) : containsChars s sub = false := by
  cases hs : containsChars s sub with
  | false => rfl
  | true =>
    have h1 : sub <:+: s := (containsChars_iff s sub).1 hs
    have h2 : containsChars t sub = true := (containsChars_iff t sub).2 (h1.trans hst)
    rw [h] at h2
    cases h2

theorem dotdot_across_separator (a : List Char) (d : Char) (b : List Char) (hd : d ≠ '.')
    (ha : containsChars a ['.', '.'] = false) (hb : containsChars b ['.', '.'] = false) :
    containsChars (a ++ d :: b) ['.', '.'] = false := by
  induction a with
  | nil =>
    simp only [List.nil_append, containsChars, hasPrefixChars, hb, Bool.or_false,
      Bool.and_eq_false_imp, beq_iff_eq]
    intro h
    exact absurd h hd
  | cons c cs ih =>
    simp only [containsChars, Bool.or_eq_false_iff] at ha
    have ih1 := ih ha.2
    have h1 := ha.1
    show containsChars (c :: (cs ++ d :: b)) ['.', '.'] = false
    rw [containsChars, ih1, Bool.or_false]
    cases cs with
    | nil =>
      simp only [List.nil_append, hasPrefixChars, Bool.and_true, Bool.and_eq_false_imp,
        beq_iff_eq]
      intro _
      simpa using hd
    | cons c2 cs2 =>
      simp only [hasPrefixChars, Bool.and_true] at h1
      simpa only [List.cons_append, hasPrefixChars, Bool.and_true] using h1

theorem joinSlash_no_dotdot :
    ∀ comps : List (List Char), (∀ x ∈ comps, containsChars x ['.', '.'] = false) →
      containsChars (joinSlash comps) ['.', '.'] = false
  | [], _ => rfl
  | [x], h => h x (List.mem_singleton.2 rfl)
  | x :: y :: rest, h => by
    rw [joinSlash]
    refine dotdot_across_separator x '/' _ (by decide) (h x (List.mem_cons_self _ _)) ?_
    exact joinSlash_no_dotdot (y :: rest) (fun z hz => h z (List.mem_cons_of_mem _ hz))

theorem cleanStep_mem (rooted : Bool) (stack : List (List Char)) (comp : List Char)
    (hc : comp ≠ ['.', '.']) :
    ∀ x ∈ cleanStep rooted stack comp, x ∈ stack ∨ x = comp := by
  intro x hx
  unfold cleanStep at hx
  by_cases h1 : comp = [] ∨ comp = ['.']
  · simp only [h1, if_true] at hx
    exact Or.inl hx
  · simp only [h1, hc, if_false] at hx
    rcases List.mem_cons.1 hx with h | h
    · exact Or.inr h
    · exact Or.inl h

theorem foldl_cleanStep_mem (rooted : Bool) :
    ∀ (comps : List (List Char)) (stack : List (List Char)),
      (∀ c ∈ comps, c ≠ ['.', '.']) →
      ∀ x ∈ comps.foldl (cleanStep rooted) stack, x ∈ stack ∨ x ∈ comps
  | [], stack, _, x, hx => Or.inl hx
  | c :: cs, stack, h, x, hx => by
    rw [List.foldl_cons] at hx
    rcases foldl_cleanStep_mem rooted cs _ (fun z hz => h z (List.mem_cons_of_mem _ hz)) x hx
      with h1 | h1
    · rcases cleanStep_mem rooted stack c (h c (List.mem_cons_self _ _)) x h1 with h2 | h2
      · exact Or.inl h2
      · exact Or.inr (h2 ▸ List.mem_cons_self _ _)
    · exact Or.inr (List.mem_cons_of_mem _ h1)

theorem cleanChars_no_dotdot (p : List Char) (h : containsChars p ['.', '.'] = false) :
    containsChars (cleanChars p) ['.', '.'] = false := by
  have hcomp : ∀ c ∈ splitSlash p, containsChars c ['.', '.'] = false :=
    fun c hc =>
      have hi : c <:+: p := mem_splitSlash_infix p c hc
      containsChars_mono c p _ hi h
  have hne : ∀ c ∈ splitSlash p, c ≠ ['.', '.'] := by
    intro c hc heq
    have := hcomp c hc
    rw [heq] at this
    revert this
    decide
  have hkept : ∀ (rooted : Bool),
      ∀ x ∈ ((splitSlash p).foldl (cleanStep rooted) []).reverse,
        containsChars x ['.', '.'] = false := by
    intro rooted x hx
    rcases foldl_cleanStep_mem rooted (splitSlash p) [] hne x (List.mem_reverse.1 hx)
      with h1 | h1
    · cases h1
    · exact hcomp x h1
  cases p with
  | nil => decide
  | cons c cs =>
    simp only [cleanChars]
    by_cases hr : c = '/'
    · subst hr
      simp only [decide_True, if_true]
      exact dotdot_across_separator [] '/' _ (by decide) (by decide)
        (joinSlash_no_dotdot _ (hkept true))
    · simp only [hr, decide_False, Bool.false_eq_true, if_false]
      split
      · decide
      · exact joinSlash_no_dotdot _ (hkept false)

theorem dirPrefix_initial : ∀ p : List Char, dirPrefix p <+: p
  | [] => List.prefix_refl _
  | c :: cs => by
    rw [dirPrefix]
    split
    · exact (List.prefix_cons_inj c).2 (dirPrefix_initial cs)
    · split
      · exact ⟨cs, rfl⟩
      · exact List.nil_prefix

theorem filepathDir_no_dotdot (path : String) (h : stringsContains path ".." = false) :
    stringsContains (filepathDir path) ".." = false := by
  unfold stringsContains at h ⊢
  unfold filepathDir
  have hd : "..".data = ['.', '.'] := rfl
  rw [hd] at h ⊢
  exact cleanChars_no_dotdot _
    (containsChars_mono _ _ _ (dirPrefix_initial path.data).isInfix h)

/-! ## Time never runs backwards -/

theorem Context.le_wake (ctx : Context) (now t : Nat) (h : now ≤ t) : now ≤ ctx.wake now t := by
  unfold Context.wake
  cases ctx.doneAt with
  | none => exact h
  | some d => simp only; omega

theorem clientDo_now_le (env : Env) (ctx : Context) (w : World) :
    w.now ≤ (clientDo env ctx w).2.now := by
  unfold clientDo
  simp only
  split <;> exact Context.le_wake ctx _ _ (Nat.le_add_right _ _)

theorem retryLoop_now_le (env : Env) (ctx : Context) (maxRetries : Int) (n : Nat) :
    ∀ (attempt : Int) (err : Option String) (w : World),
      w.now ≤ (retryLoop env ctx maxRetries n attempt err w).2.now := by
  induction n with
  | zero => intro attempt err w; exact Nat.le_refl _
  | succ n ih =>
    intro attempt err w
    have hc := clientDo_now_le env ctx w
    rw [retryLoop]
    cases hacc : accepted (clientDo env ctx w).1 with
    | some r => exact hc
    | none =>
      simp only
      by_cases h1 : attempt = maxRetries
      · simp only [h1, if_true]
        exact hc
      · by_cases h2 : ctx.done (clientDo env ctx w).2.now = true
        · simp only [h1, h2, if_true, if_false]
          exact hc
        · have h2f : ctx.done (clientDo env ctx w).2.now = false := by simpa using h2
          by_cases h3 : ctx.done ((clientDo env ctx w).2.now + (backoffFor attempt).toNat) = true
          · simp only [h1, h2f, h3, if_true, if_false, Bool.false_eq_true]
            exact Nat.le_trans hc (Context.le_wake ctx _ _ (Nat.le_add_right _ _))
          · have h3f : ctx.done ((clientDo env ctx w).2.now + (backoffFor attempt).toNat)
                = false := by simpa using h3
            simp only [h1, h2f, h3f, if_false, Bool.false_eq_true]
            refine Nat.le_trans ?_ (ih _ _ _)
            show w.now ≤ (clientDo env ctx w).2.now + (backoffFor attempt).toNat
            omega

theorem makeAPIRequest_now_le (env : Env) (ctx : Context) (method rawURL : String)
    (w : World) : w.now ≤ (makeAPIRequest env ctx method rawURL w).2.now := by
  cases hu : env.urlParse rawURL with
  | error e => simp [makeAPIRequest, hu]
  | ok u =>
    cases hn : env.newRequest method u with
    | some e => simp [makeAPIRequest, hu, hn]
    | none =>
      rw [makeAPIRequest_eq env ctx method rawURL u w hu hn]
      exact retryLoop_now_le env ctx 3 _ _ _ { w with calls := w.calls + 1 }

/-! ## The messages of the poller, told apart by their first character -/

theorem head_append (p e : String) (c : Char) (h : p.data.head? = some c) :
    (p ++ e).data.head? = some c := by
  rw [String.data_append]
  cases hp : p.data with
  | nil => rw [hp] at h; cases h
  | cons a as => rw [hp] at h; simpa using h

theorem ne_maxAttemptsMsg (s : String) (c : Char) (h : s.data.head? = some c) (hc : c ≠ 'm') :
    s ≠ maxAttemptsMsg := by
  intro heq
  rw [heq] at h
  have hm : maxAttemptsMsg.data.head? = some 'm' := by decide
  rw [hm] at h
  exact hc (Option.some.inj h).symm

theorem makeAPIRequest_error_ne_max (env : Env) (ctx : Context) (method rawURL : String)
    (w : World) (e : String) (h : (makeAPIRequest env ctx method rawURL w).1 = .error e) :
    e ≠ maxAttemptsMsg := by
  cases hu : env.urlParse rawURL with
  | error x =>
    simp only [makeAPIRequest, hu, Except.error.injEq] at h
    rw [← h]
    refine ne_maxAttemptsMsg _ 'i' ?_ (by decide)
    simp only [String.append_assoc]
    exact head_append _ _ _ (by decide)
  | ok u =>
    cases hn : env.newRequest method u with
    | some x =>
      simp only [makeAPIRequest, hu, hn, Except.error.injEq] at h
      rw [← h]
      exact ne_maxAttemptsMsg _ 'f' (head_append _ _ _ (by decide)) (by decide)
    | none =>
      rw [makeAPIRequest_eq env ctx method rawURL u w hu hn] at h
      simp only at h
      cases hr : (RetryableRequest env ctx 3 { w with calls := w.calls + 1 }).1 with
      | ok r => simp [hr] at h
      | error x =>
        simp only [hr, Except.error.injEq] at h
        rw [← h]
        exact ne_maxAttemptsMsg _ 'f' (head_append _ _ _ (by decide)) (by decide)

theorem unexpectedStatus_ne_max (env : Env) (resp : Response) :
    unexpectedStatus env resp ≠ maxAttemptsMsg := by
  unfold unexpectedStatus
  simp only
  split
  · exact ne_maxAttemptsMsg _ 'f' (head_append _ _ _ (by decide)) (by decide)
  · split
    · exact ne_maxAttemptsMsg _ 'f' (head_append _ _ _ (by decide)) (by decide)
    · split
      · exact ne_maxAttemptsMsg _ 'A' (head_append _ _ _ (by decide)) (by decide)
      · refine ne_maxAttemptsMsg _ 'u' ?_ (by decide)
        simp only [String.append_assoc]
        exact head_append _ _ _ (by decide)

/-! ## The poller under a deadline shorter than its sixty sleeps -/

theorem pollLoop_never_max (env : Env) (ctx : Context) (caid : Int) (handler url : String)
    (d : Nat) (hd : ctx.doneAt = some d) :
    ∀ (fuel k : Nat) (delay attempts : Int) (w : World),
      attempts + ((k : Int) + 1) = maxAttempts →
      d ≤ w.now + cumulativeDelay (k + 1) delay →
      ∀ r, pollLoop env ctx caid handler url fuel delay attempts w = some r →
        r.1 ≠ some maxAttemptsMsg := by
  have hdone : ∀ t, ctx.done t = decide (d ≤ t) := by
    intro t
    simp [Context.done, hd]
  have htimed : some timedOutMsg ≠ some maxAttemptsMsg := by decide
  intro fuel
  induction fuel with
  | zero =>
    intro k delay attempts w _ _ r h
    simp [pollLoop] at h
  | succ fuel ih =>
    intro k delay attempts w hk hbound r h
    rw [pollLoop] at h
    by_cases h0 : ctx.done w.now = true
    · simp only [h0, if_true, Option.some.injEq] at h
      rw [← h]
      exact htimed
    · have h0f : ctx.done w.now = false := by simpa using h0
      simp only [h0f, Bool.false_eq_true, if_false] at h
      have hnow := makeAPIRequest_now_le env ctx "GET" url w
      cases hreq : (makeAPIRequest env ctx "GET" url w).1 with
      | error e =>
        simp only [hreq, Option.some.injEq] at h
        rw [← h]
        intro hc
        exact makeAPIRequest_error_ne_max env ctx "GET" url w e hreq (Option.some.inj hc)
      | ok resp =>
        simp only [hreq] at h
        by_cases h200 : resp.StatusCode = 200
        · simp only [h200, if_true] at h
          cases hs : (SaveExportFile env caid handler resp
              (makeAPIRequest env ctx "GET" url w).2).1 with
          | some e =>
            simp only [hs, Option.some.injEq] at h
            rw [← h]
            intro hc
            exact ne_maxAttemptsMsg _ 'f' (head_append _ _ _ (by decide)) (by decide)
              (Option.some.inj hc)
          | none =>
            simp only [hs] at h
            cases hcl : resp.Body.Close.1 with
            | some e =>
              simp only [hcl, Option.some.injEq] at h
              rw [← h]
              intro hc
              exact ne_maxAttemptsMsg _ 'f' (head_append _ _ _ (by decide)) (by decide)
                (Option.some.inj hc)
            | none =>
              simp only [hcl, Option.some.injEq] at h
              rw [← h]
              intro hc
              cases hc
        · by_cases h202 : resp.StatusCode = 202
          · have hne : ¬ ((202 : Int) = 200) := by decide
            simp only [h202, hne, if_true, if_false] at h
            cases hcl : resp.Body.Close.1 with
            | some e =>
              simp only [hcl, Option.some.injEq] at h
              rw [← h]
              intro hc
              exact ne_maxAttemptsMsg _ 'f' (head_append _ _ _ (by decide)) (by decide)
                (Option.some.inj hc)
            | none =>
              simp only [hcl] at h
              by_cases hdue : ctx.done ((makeAPIRequest env ctx "GET" url w).2.now
                  + delay.toNat) = true
              · simp only [hdue, if_true, Option.some.injEq] at h
                rw [← h]
                exact htimed
              · have hduef : ctx.done ((makeAPIRequest env ctx "GET" url w).2.now
                    + delay.toNat) = false := by simpa using hdue
                simp only [hduef, Bool.false_eq_true, if_false] at h
                have hlt : ¬ d ≤ (makeAPIRequest env ctx "GET" url w).2.now + delay.toNat := by
                  rw [hdone] at hduef
                  simpa using hduef
                cases k with
                | zero =>
                  exfalso
                  apply hlt
                  simp only [cumulativeDelay, Nat.add_zero, Nat.zero_add] at hbound
                  omega
                | succ k =>
                  have hge : ¬ (attempts + 1 ≥ maxAttempts) := by
                    push_cast at hk
                    omega
                  simp only [hge, if_false] at h
                  refine ih k (nextDelay delay) (attempts + 1) _ ?_ ?_ r h
                  · push_cast at hk ⊢
                    omega
                  · rw [cumulativeDelay] at hbound
                    show d ≤ (makeAPIRequest env ctx "GET" url w).2.now + delay.toNat
                      + cumulativeDelay (k + 1) (nextDelay delay)
                    omega
          · simp only [h200, h202, if_false, Option.some.injEq] at h
            rw [← h]
            intro hc
            exact unexpectedStatus_ne_max env resp (Option.some.inj hc)

/-! ## A request that is in flight when the context ends -/

theorem makeAPIRequest_context_ends (env : Env) (ctx : Context) (method rawURL u : String)
    (w : World) (hu : env.urlParse rawURL = .ok u) (hn : env.newRequest method u = none)
    (hctx : ctx.done (w.now + (env.server w.sent).took) = true) :
    (makeAPIRequest env ctx method rawURL w).1
      = .error ("failed to send request: " ++ ("request context canceled: " ++ ctx.errMsg)) := by
  rw [makeAPIRequest_eq env ctx method rawURL u w hu hn]
  have hR : (RetryableRequest env ctx 3 { w with calls := w.calls + 1 }).1
      = .error ("request context canceled: " ++ ctx.errMsg) := by
    show (retryLoop env ctx 3 (3 + 1 : Int).toNat 0 none _).1 = _
    have h4 : (3 + 1 : Int).toNat = 3 + 1 := by decide
    rw [h4]
    have hc : clientDo env ctx { w with calls := w.calls + 1 }
        = (.error ctx.errMsg,
            { w with now := ctx.wake w.now (w.now + (env.server w.sent).took),
                     sent := w.sent + 1, calls := w.calls + 1 }) := by
      simp [clientDo, hctx]
    have hfail : accepted (clientDo env ctx { w with calls := w.calls + 1 }).1 = none := by
      rw [hc]
      rfl
    have hdone : ctx.done (clientDo env ctx { w with calls := w.calls + 1 }).2.now = true := by
      rw [hc]
      show ctx.done (ctx.wake w.now (w.now + (env.server w.sent).took)) = true
      revert hctx
      unfold Context.done Context.wake
      cases ctx.doneAt with
      | none => simp
      | some d =>
        simp only [decide_eq_true_eq]
        omega
    rw [retryLoop]
    simp only [hfail, hdone, if_true]
    have h03 : ¬ ((0 : Int) = 3) := by decide
    simp only [h03, if_false]
  simp only [hR]

/-! ## A server that answers `202` to every request, under a deadline -/

theorem pollLoop_accepted_forever (env : Env) (ctx : Context) (caid : Int)
    (handler url u : String) (d : Nat) (hd : ctx.doneAt = some d)
    (hu : env.urlParse url = .ok u) (hn : env.newRequest "GET" u = none)
    (h202 : ∀ i, stillInProgress (env.server i).reply = true) :
    ∀ (k fuel : Nat) (delay attempts : Int) (w : World),
      attempts + ((k : Int) + 1) = maxAttempts →
      d ≤ w.now + cumulativeDelay (k + 1) delay →
      k + 1 ≤ fuel →
      ∃ r, pollLoop env ctx caid handler url fuel delay attempts w = some r
        ∧ (r.1 = some timedOutMsg
          ∨ r.1 = some ("failed to send request: "
              ++ ("request context canceled: " ++ ctx.errMsg))) := by
  have hdone : ∀ t, ctx.done t = decide (d ≤ t) := by
    intro t
    simp [Context.done, hd]
  intro k
  induction k with
  | zero =>
    intro fuel delay attempts w hk hbound hfuel
    obtain ⟨fuel, rfl⟩ : ∃ f, fuel = f + 1 := ⟨fuel - 1, by omega⟩
    rw [pollLoop]
    by_cases h0 : ctx.done w.now = true
    · exact ⟨(some timedOutMsg, w), by simp only [h0, if_true], Or.inl rfl⟩
    · have h0f : ctx.done w.now = false := by simpa using h0
      simp only [h0f, Bool.false_eq_true, if_false]
      by_cases harr : ctx.done (w.now + (env.server w.sent).took) = true
      · have hreq := makeAPIRequest_context_ends env ctx "GET" url u w hu hn harr
        simp only [hreq]
        exact ⟨_, rfl, Or.inr rfl⟩
      · have harrf : ctx.done (w.now + (env.server w.sent).took) = false := by simpa using harr
        obtain ⟨resp, hacc, hs, hc⟩ := accepted_of_stillInProgress _ (h202 w.sent)
        have hreq := makeAPIRequest_first_try env ctx "GET" url u w resp hu hn harrf hacc
        have hdue : ctx.done (w.now + (env.server w.sent).took + delay.toNat) = true := by
          rw [hdone]
          simp only [cumulativeDelay, Nat.add_zero] at hbound
          simp only [decide_eq_true_eq]
          omega
        simp only [hreq, hs, Body.Close, hc, hdue, if_true]
        have hne : ¬ ((202 : Int) = 200) := by decide
        simp only [hne, if_false]
        exact ⟨_, rfl, Or.inl rfl⟩
  | succ k ih =>
    intro fuel delay attempts w hk hbound hfuel
    obtain ⟨fuel, rfl⟩ : ∃ f, fuel = f + 1 := ⟨fuel - 1, by omega⟩
    rw [pollLoop]
    by_cases h0 : ctx.done w.now = true
    · exact ⟨(some timedOutMsg, w), by simp only [h0, if_true], Or.inl rfl⟩
    · have h0f : ctx.done w.now = false := by simpa using h0
      simp only [h0f, Bool.false_eq_true, if_false]
      by_cases harr : ctx.done (w.now + (env.server w.sent).took) = true
      · have hreq := makeAPIRequest_context_ends env ctx "GET" url u w hu hn harr
        simp only [hreq]
        exact ⟨_, rfl, Or.inr rfl⟩
      · have harrf : ctx.done (w.now + (env.server w.sent).took) = false := by simpa using harr
        obtain ⟨resp, hacc, hs, hc⟩ := accepted_of_stillInProgress _ (h202 w.sent)
        have hreq := makeAPIRequest_first_try env ctx "GET" url u w resp hu hn harrf hacc
        have hne : ¬ ((202 : Int) = 200) := by decide
        simp only [hreq, hs, Body.Close, hc, hne, if_true, if_false]
        by_cases hdue : ctx.done (w.now + (env.server w.sent).took + delay.toNat) = true
        · simp only [hdue, if_true]
          exact ⟨_, rfl, Or.inl rfl⟩
        · have hduef : ctx.done (w.now + (env.server w.sent).took + delay.toNat) = false := by
            simpa using hdue
          have hge : ¬ (attempts + 1 ≥ maxAttempts) := by
            push_cast at hk
            omega
          simp only [hduef, Bool.false_eq_true, hge, if_false]
          refine ih fuel (nextDelay delay) (attempts + 1) _ ?_ ?_ (by omega)
          · push_cast at hk ⊢
            omega
          · rw [cumulativeDelay] at hbound
            show d ≤ w.now + (env.server w.sent).took + delay.toNat
              + cumulativeDelay (k + 1) (nextDelay delay)
            omega

/-! ## The deadline of the `status` and `auto` commands -/

theorem ne_of_head (s t : String) (c c2 : Char) (hs : s.data.head? = some c)
    (ht : t.data.head? = some c2) (hne : c ≠ c2) : s ≠ t := by
  intro heq
  rw [heq, ht] at hs
  exact hne (Option.some.inj hs).symm

theorem append_left_cancel (p a b : String) (h : p ++ a = p ++ b) : a = b := by
  have hd := congrArg String.data h
  rw [String.data_append, String.data_append] at hd
  exact String.ext (List.append_cancel_left hd)

set_option maxRecDepth 100000 in
theorem cumulativeDelay_sixty : cumulativeDelay 60 (1 * Second) = 1681000000000 := by
  decide

theorem withTimeout_bound (t now : Nat) (ht : t ≤ now) :
    t + (10 * 60 * Second).toNat ≤ now + cumulativeDelay (59 + 1) (1 * Second) := by
  have h1 : (10 * 60 * Second).toNat = 600000000000 := by decide
  have h2 : cumulativeDelay (59 + 1) (1 * Second) = 1681000000000 := cumulativeDelay_sixty
  rw [h1, h2]
  omega

theorem checkExportStatus_never_max (fuel : Nat) (env : Env) (caid : Int) (handler : String)
    (w : World) (t : Nat) (ht : t ≤ w.now) (r : Option String × World)
    (h : checkExportStatusWithContext fuel env (withTimeout t (10 * 60 * Second)) caid
      handler w = some r) :
    r.1 ≠ some maxAttemptsMsg :=
  pollLoop_never_max env (withTimeout t (10 * 60 * Second)) caid handler _ _ rfl fuel 59
    (1 * Second) 0 w (by decide) (withTimeout_bound t w.now ht) r h

theorem initiateExport_now_le (env : Env) (ctx : Context) (caid : Int) (w : World) :
    w.now ≤ (initiateExport env ctx caid w).2.now := by
  have h := makeAPIRequest_now_le env ctx "POST"
    (env.apiBaseURL ++ "/v3/export?caid=" ++ toString caid) w
  unfold initiateExport
  simp only
  split
  · exact h
  · split
    · exact h
    · split
      · exact h
      · split <;> exact h

theorem initiateExport_error_ne_max (env : Env) (ctx : Context) (caid : Int) (w : World)
    (e : String) (h : (initiateExport env ctx caid w).1.2 = some e) : e ≠ maxAttemptsMsg := by
  unfold initiateExport at h
  simp only at h
  split at h
  · simp only [Option.some.injEq] at h
    rw [← h]
    exact ne_maxAttemptsMsg _ 'f' (head_append _ _ _ (by decide)) (by decide)
  · split at h
    · simp only [Option.some.injEq] at h
      rw [← h]
      exact ne_maxAttemptsMsg _ 'e' (head_append _ _ _ (by decide)) (by decide)
    · split at h
      · simp only [Option.some.injEq] at h
        rw [← h]
        exact ne_maxAttemptsMsg _ 'f' (head_append _ _ _ (by decide)) (by decide)
      · split at h
        · simp only [Option.some.injEq] at h
          rw [← h]
          exact ne_maxAttemptsMsg _ 'r' (by decide) (by decide)
        · cases h

theorem statusCmdRunE_never_max (fuel : Nat) (env : Env) (handler : String) (caid : Int)
    (w : World) (r : Option String × World)
    (h : statusCmdRunE fuel env handler caid w = some r) :
    r.1 ≠ some ("error checking export status: " ++ maxAttemptsMsg) := by
  have hhead : ("error checking export status: " ++ maxAttemptsMsg).data.head? = some 'e' :=
    head_append _ _ _ (by decide)
  have e600 : (10 * 60 * Second : Int) = 600 * Second := by decide
  unfold statusCmdRunE at h
  cases hv : ValidateHandler handler with
  | some e =>
    simp only [hv, Option.some.injEq] at h
    rw [← h]
    intro hc
    have he : e = "error checking export status: " ++ maxAttemptsMsg := Option.some.inj hc
    unfold ValidateHandler at hv
    simp only at hv
    split at hv
    · rw [← Option.some.inj hv] at he
      exact ne_of_head _ _ 'h' 'e' (by decide) hhead (by decide) he
    · split at hv
      · rw [← Option.some.inj hv] at he
        exact ne_of_head _ _ 'i' 'e' (by decide) hhead (by decide) he
      · cases hv
  | none =>
    simp only [hv] at h
    cases hc : ValidateCAID caid with
    | some e =>
      simp only [hc, Option.some.injEq] at h
      rw [← h]
      intro hc2
      have he : e = "error checking export status: " ++ maxAttemptsMsg := Option.some.inj hc2
      unfold ValidateCAID at hc
      split at hc
      · rw [← Option.some.inj hc] at he
        exact ne_of_head _ _ 'i' 'e' (head_append _ _ _ (by decide)) hhead (by decide) he
      · cases hc
    | none =>
      simp only [hc] at h
      cases hp : checkExportStatusWithContext fuel env (withTimeout w.now (10 * 60 * Second))
          caid handler w with
      | none =>
        rw [e600] at hp
        simp [hp] at h
      | some p =>
        have hnm := checkExportStatus_never_max fuel env caid handler w w.now (Nat.le_refl _) p hp
        obtain ⟨res, w1⟩ := p
        cases res with
        | none =>
          simp only [hp, Option.some.injEq] at h
          rw [← h]
          intro hc2
          cases hc2
        | some e =>
          simp only [hp, Option.some.injEq] at h
          rw [← h]
          intro hc2
          exact hnm (congrArg some (append_left_cancel _ _ _ (Option.some.inj hc2)))

theorem initiateAuto_never_max (fuel : Nat) (env : Env) (caid : Int) (w : World)
    (r : (String × Option String) × World) (h : initiateAuto fuel env caid w = some r) :
    r.1.2 ≠ some maxAttemptsMsg := by
  have e600 : (10 * 60 * Second : Int) = 600 * Second := by decide
  unfold initiateAuto at h
  simp only at h
  cases hi : (initiateExport env (withTimeout w.now (10 * 60 * Second)) caid w).1.2 with
  | some e =>
    simp only [hi, Option.some.injEq] at h
    rw [← h]
    intro hc
    exact initiateExport_error_ne_max env _ caid w e hi (Option.some.inj hc)
  | none =>
    simp only [hi] at h
    cases hp : checkExportStatusWithContext fuel env (withTimeout w.now (10 * 60 * Second))
        caid (initiateExport env (withTimeout w.now (10 * 60 * Second)) caid w).1.1
        (initiateExport env (withTimeout w.now (10 * 60 * Second)) caid w).2 with
    | none =>
      rw [e600] at hp
      simp [hp] at h
    | some p =>
      have hnm := checkExportStatus_never_max fuel env caid _ _ w.now
        (initiateExport_now_le env _ caid w) p hp
      obtain ⟨res, w1⟩ := p
      cases res with
      | none =>
        simp only [hp, Option.some.injEq] at h
        rw [← h]
        intro hc2
        cases hc2
      | some e =>
        simp only [hp, Option.some.injEq] at h
        rw [← h]
        exact hnm

/-! ## The temp path of an absolute output directory -/

theorem cleanChars_rooted (rest : List Char) :
    ∃ tail, cleanChars ('/' :: rest) = '/' :: tail := by
  refine ⟨joinSlash ((splitSlash ('/' :: rest)).foldl (cleanStep true) []).reverse, ?_⟩
  simp [cleanChars]

theorem filepathJoin_abs (dir name : String) (h : filepathIsAbs dir = true) :
    filepathIsAbs (filepathJoin dir name ++ ".tmp") = true := by
  unfold filepathIsAbs stringsHasPrefix at h ⊢
  have hs : "/".data = ['/'] := rfl
  rw [hs] at h ⊢
  cases hd : dir.data with
  | nil =>
    rw [hd] at h
    simp [hasPrefixChars] at h
  | cons c rest =>
    rw [hd] at h
    simp only [hasPrefixChars, Bool.and_true, beq_iff_eq] at h
    subst h
    have hne : dir ≠ "" := by
      intro he
      rw [he] at hd
      cases hd
    obtain ⟨tail, ht⟩ := cleanChars_rooted (rest ++ "/".data ++ name.data)
    have hj : (filepathJoin dir name).data = '/' :: tail := by
      unfold filepathJoin filepathClean
      simp only [hne, ne_eq, not_false_eq_true, if_true]
      rw [String.data_append, String.data_append, hd]
      simpa using ht
    rw [String.data_append, hj]
    simp [hasPrefixChars]

theorem ValidateFilePath_rejects_absolute (tempDir path : String)
    (habs : filepathIsAbs path = true) (hpre : stringsHasPrefix path tempDir = false) :
    ValidateFilePath tempDir path = some ("invalid file path: " ++ path)
    ∨ ValidateFilePath tempDir path
      = some ("absolute paths are only allowed in the system temp directory: " ++ path) := by
  unfold ValidateFilePath
  by_cases hc : stringsContains path ".." = true
  · left
    simp only [hc, if_true]
  · right
    have hcf : stringsContains path ".." = false := by simpa using hc
    simp [hcf, habs, hpre]

/-! ## Claims about `downloadExportFile` and the error branch of the poller -/

set_option maxRecDepth 100000 in
/-- C1 (defect in the code): a download request answered with `202 Accepted` makes
`downloadExportFile` return `nil` after one request although no artifact exists at
`export_<caid>_<handler>.zip`; only statuses of 400 and above become errors. -/
theorem downloadExportFile_accepted_returns_nil :
    (downloadExportFile acceptedForeverEnv background 123456 sampleHandler startWorld).1 = none
    ∧ (downloadExportFile acceptedForeverEnv background 123456 sampleHandler startWorld).2.sent = 1
    ∧ (downloadExportFile acceptedForeverEnv background 123456 sampleHandler startWorld).2.fs.files
        (finalPath acceptedForeverEnv 123456 sampleHandler) = none
    ∧ finalPath acceptedForeverEnv 123456 sampleHandler
        = "export_123456_28c5f5af-bd9e-423f-99a7-d2a8c440db7e.zip" := by
  refine ⟨?_, ?_, ?_, ?_⟩ <;> decide

set_option maxRecDepth 100000 in
/-- C2 (defect in the code): a status poll answered with `404` and a structured
errors envelope, which `ParseAPIError` decodes from the unread response, makes
`checkExportStatusWithContext` return the error of a read on the closed body: the
branch reads and closes the body before `HandleHTTPError` reads it again. A `404`
whose body is no JSON gives the same error, not the generic `unexpected status
code` one. -/
theorem checkExportStatus_structured_error_lost :
    ParseAPIError notFoundEnv
        { StatusCode := 404,
          Body := { chunks := [{ data := asciiBytes notFoundBody, err := some .eof }],
                    closed := false, closeErr := none } }
      = "API errors: API error: Not Found - No such export (Status Code: 404)"
    ∧ (checkExportStatusWithContext 60 notFoundEnv background 123456 sampleHandler
          startWorld).map Prod.fst
      = some (some
          "API error: failed to read error response body: http: read on closed response body")
    ∧ (checkExportStatusWithContext 60 garbledEnv background 123456 sampleHandler
          startWorld).map Prod.fst
      = some (some
          "API error: failed to read error response body: http: read on closed response body") := by
  refine ⟨?_, ?_, ?_⟩ <;> decide

/-! ## Claims about `RetryableRequest` -/

set_option maxRecDepth 100000 in
/-- C3, the claim as stated fails: with a budget of 3, one retryable outcome (`500`)
followed by a non-retryable response (`200`), and a context whose deadline expires
half a second into the first backoff wait, `RetryableRequest` returns the
`request context canceled` error after one attempt, not the `200` response after
two. -/
theorem RetryableRequest_cancelled_before_recovery :
    (1 : Int) ≤ 3
    ∧ retryableReply (recoveringEnv.server 0).reply = true
    ∧ accepted (recoveringEnv.server 1).reply.toResult = some recoveredResponse
    ∧ errOf (RetryableRequest recoveringEnv (withDeadline 500000000) 3 startWorld).1
        = some "request context canceled: context deadline exceeded"
    ∧ (RetryableRequest recoveringEnv (withDeadline 500000000) 3 startWorld).2.sent = 1 := by
  refine ⟨?_, ?_, ?_, ?_, ?_⟩ <;> decide

/-- C3, amended: an iteration of `RetryableRequest` returns the response of its
attempt at once, without a further attempt, exactly when the attempt had no
transport error and its status is below 500 and not 401; and for every sequence of
`k <= maxRetries` retryable outcomes (transport error, status `>= 500`, or `401`,
all alike) followed by a non-retryable response `r`, provided the context is not
done by the instant `r` arrives, the result is `r` after exactly `k+1` attempts. -/
theorem RetryableRequest_returns_first_nonretryable (env : Env) (ctx : Context)
    (maxRetries : Int) (w : World) :
    (∀ (n : Nat) (attempt : Int) (err : Option String) (resp : Response),
      ((retryLoop env ctx maxRetries (n + 1) attempt err w).1 = .ok resp
        ∧ (retryLoop env ctx maxRetries (n + 1) attempt err w).2.sent = w.sent + 1)
      ↔ ((clientDo env ctx w).1 = .ok resp
          ∧ resp.StatusCode < 500 ∧ resp.StatusCode ≠ 401))
    ∧ (∀ (k : Nat) (r : Response),
        (k : Int) ≤ maxRetries →
        (∀ i < k, retryableReply (env.server (w.sent + i)).reply = true) →
        (env.server (w.sent + k)).reply.toResult = .ok r →
        r.StatusCode < 500 → r.StatusCode ≠ 401 →
        ctx.done (arrivalAt env k 0 w.sent w.now) = false →
        (RetryableRequest env ctx maxRetries w).1 = .ok r
        ∧ (RetryableRequest env ctx maxRetries w).2.sent = w.sent + k + 1) := by
  refine ⟨fun n attempt err resp =>
    retryLoop_returns_at_once_iff env ctx maxRetries n attempt err w resp, ?_⟩
  intro k r hk hretry hr h500 h401 hctx
  have hacc : accepted (env.server (w.sent + k)).reply.toResult = some r :=
    (accepted_eq_some _ _).2 ⟨hr, h500, h401⟩
  have h := retryLoop_first_accepted env ctx maxRetries k (maxRetries + 1).toNat 0 none w r
    (by omega) (by omega) hretry hacc hctx
  exact ⟨h.1, h.2.1⟩

set_option maxRecDepth 100000 in
/-- C3, amended, at a concrete input: budget 3, a `500` followed by a `200`, and a
context that never ends; the `200` is returned after two attempts. -/
theorem RetryableRequest_returns_first_nonretryable_witness :
    (RetryableRequest recoveringEnv background 3 startWorld).1 = .ok recoveredResponse
    ∧ (RetryableRequest recoveringEnv background 3 startWorld).2.sent = 0 + 1 + 1 :=
  (RetryableRequest_returns_first_nonretryable recoveringEnv background 3 startWorld).2
    1 recoveredResponse (by decide) (by decide) rfl (by decide) (by decide) (by decide)

/-- C4: for every `maxRetries >= 0` and a context that is never cancelled, when
the first `maxRetries+1` attempts are all retryable, `RetryableRequest` makes
exactly `maxRetries+1` attempts, whatever the server would answer afterwards, and
returns an error and no response; when the last attempt produced a status `S` the
error is `request failed after <maxRetries> retries with status code: <S>`; and
`makeAPIRequest`, whose budget is 3, then makes 4 attempts and returns an error
that contains `request failed after 3 retries`. -/
theorem RetryableRequest_exhausts_budget (env : Env) (ctx : Context) (maxRetries : Int)
    (w : World) (hmax : 0 ≤ maxRetries) (hctx : ctx.doneAt = none)
    (hall : ∀ i ≤ maxRetries.toNat, retryableReply (env.server (w.sent + i)).reply = true) :
    (RetryableRequest env ctx maxRetries w).2.sent = w.sent + (maxRetries.toNat + 1)
    ∧ (∃ e, (RetryableRequest env ctx maxRetries w).1 = .error e)
    ∧ (∀ (S : Int) (chunks : List Chunk) (closeErr : Option String),
        (env.server (w.sent + maxRetries.toNat)).reply = .response S chunks closeErr →
        (RetryableRequest env ctx maxRetries w).1
          = .error ("request failed after " ++ toString maxRetries
              ++ " retries with status code: " ++ toString S))
    ∧ (maxRetries = 3 → ∀ (method rawURL u : String),
        env.urlParse rawURL = .ok u → env.newRequest method u = none →
        (makeAPIRequest env ctx method rawURL w).2.sent = w.sent + 4
        ∧ ∃ e, (makeAPIRequest env ctx method rawURL w).1 = .error e
            ∧ stringsContains e "request failed after 3 retries" = true) := by
  have hto : (maxRetries + 1).toNat = maxRetries.toNat + 1 := by omega
  have hcast : (0 : Int) + (maxRetries.toNat : Int) = maxRetries := by omega
  have key : ∀ w' : World, w'.sent = w.sent →
      (RetryableRequest env ctx maxRetries w').1
          = .error (exhaustedMsg maxRetries
              (env.server (w.sent + maxRetries.toNat)).reply.toResult)
      ∧ (RetryableRequest env ctx maxRetries w').2.sent = w.sent + (maxRetries.toNat + 1) := by
    intro w' hw'
    have h := retryLoop_exhausts env ctx maxRetries hctx maxRetries.toNat 0 none w' hcast
      (by rw [hw']; exact hall)
    unfold RetryableRequest
    rw [hto]
    rw [hw'] at h
    exact ⟨h.1, by rw [h.2.1]; omega⟩
  obtain ⟨h1, h2⟩ := key w rfl
  refine ⟨h2, ⟨_, h1⟩, ?_, ?_⟩
  · intro S chunks closeErr hlast
    rw [h1, hlast]
    rfl
  · intro h3 method rawURL u hu hn
    obtain ⟨k1, k2⟩ := key { w with calls := w.calls + 1 } rfl
    subst h3
    rw [makeAPIRequest_eq env ctx method rawURL u w hu hn, k1]
    refine ⟨by rw [k2]; rfl, _, rfl, ?_⟩
    have hlit1 : ∀ s : String,
        "failed to send request: " ++ exhaustedMsg 3 (.error s)
          = "failed to send request: " ++ "request failed after 3 retries" ++ (": " ++ s) := by
      intro s
      show "failed to send request: " ++ ("request failed after " ++ toString (3 : Int)
        ++ " retries: " ++ s) = _
      rw [show "request failed after " ++ toString (3 : Int) ++ " retries: "
        = "request failed after 3 retries" ++ ": " by decide]
      simp only [String.append_assoc]
    have hlit2 : ∀ resp : Response,
        "failed to send request: " ++ exhaustedMsg 3 (.ok resp)
          = "failed to send request: " ++ "request failed after 3 retries"
              ++ (" with status code: " ++ toString resp.StatusCode) := by
      intro resp
      show "failed to send request: " ++ ("request failed after " ++ toString (3 : Int)
        ++ " retries with status code: " ++ toString resp.StatusCode) = _
      rw [show "request failed after " ++ toString (3 : Int) ++ " retries with status code: "
        = "request failed after 3 retries" ++ " with status code: " by decide]
      simp only [String.append_assoc]
    cases hres : (env.server (w.sent + (3 : Int).toNat)).reply.toResult with
    | error s => simp only [hlit1]; exact stringsContains_middle _ _ _
    | ok resp => simp only [hlit2]; exact stringsContains_middle _ _ _

set_option maxRecDepth 100000 in
/-- C4 at a concrete input: budget 3 against a server that always answers `500`. -/
theorem RetryableRequest_exhausts_budget_witness :
    (RetryableRequest failingEnv background 3 startWorld).2.sent = 0 + ((3 : Int).toNat + 1)
    ∧ (RetryableRequest failingEnv background 3 startWorld).1
        = .error "request failed after 3 retries with status code: 500" :=
  ⟨(RetryableRequest_exhausts_budget failingEnv background 3 startWorld (by decide) rfl
      (fun _ _ => rfl)).1,
   (RetryableRequest_exhausts_budget failingEnv background 3 startWorld (by decide) rfl
      (fun _ _ => rfl)).2.2.1 500 [{ data := asciiBytes "", err := some .eof }] none rfl⟩

set_option maxRecDepth 100000 in
/-- C5 (defect in the code): with a budget of 35 against a server that always
answers `500` and a context that never ends, the wait after attempt 34 is not
`min(2^34, 30)` seconds, which is 30 seconds: `time.Duration(1<<34) * time.Second`
overflows `int64` to a negative duration, below the 30 second cap, so the next try
follows at once. The waits after attempts 0 to 33 are `min(2^i, 30)` seconds. -/
theorem RetryableRequest_backoff_overflows :
    (RetryableRequest failingEnv background 35 startWorld).2.backoffs.get? 34
      = some (-1266874889709551616)
    ∧ min (2 ^ 34) 30 * Second = 30000000000
    ∧ ∀ i : Fin 34, (RetryableRequest failingEnv background 35 startWorld).2.backoffs.get? i.val
        = some (min (2 ^ i.val) 30 * Second) := by
  have h := (retryLoop_exhausts failingEnv background 35 rfl 35 0 none startWorld (by decide)
    (fun _ _ => rfl)).2.2
  have hb : (RetryableRequest failingEnv background 35 startWorld).2.backoffs
      = (List.range 35).map (fun (i : Nat) => backoffFor (0 + (i : Int))) := by
    show (retryLoop failingEnv background 35 (35 + 1 : Int).toNat 0 none startWorld).2.backoffs = _
    rw [show (35 + 1 : Int).toNat = 35 + 1 by decide, h]
    rfl
  rw [hb]
  refine ⟨by decide, by decide, by decide⟩

/-! ## Claims about `checkExportStatusWithContext` -/

/-- C6: for every number `n <= 59` of initial `202` responses followed by a `200`
response whose body delivers `B`, a context that never ends, and a valid output
directory (one that passes the path checks of `SaveExportFile`, on a file system
whose operations succeed), `checkExportStatusWithContext` returns no error after
exactly `n+1` status requests, and `export_<caid>_<handler>.zip` in the output
directory contains exactly `B`. -/
theorem checkExportStatus_succeeds_after_accepted (fuel : Nat) (env : Env) (ctx : Context)
    (caid : Int) (handler u : String) (w : World) (n : Nat) (chunks : List Chunk)
    (hfuel : 60 ≤ fuel) (hn : n ≤ 59) (hctx : ctx.doneAt = none)
    (hu : env.urlParse (downloadURL env caid handler) = .ok u)
    (hreq : env.newRequest "GET" u = none)
    (h202 : ∀ i < n, stillInProgress (env.server (w.sent + i)).reply = true)
    (h200 : (env.server (w.sent + n)).reply = .response 200 chunks none)
    (hreads : readsCleanly chunks = true)
    (hfaults : env.faults = noFaults)
    (hdir : ValidateOutputDir (effectiveOutputDir env) = none)
    (hpath : ValidateFilePath env.tempDir (finalPath env caid handler ++ ".tmp") = none) :
    ∃ w', checkExportStatusWithContext fuel env ctx caid handler w = some (none, w')
      ∧ w'.calls = w.calls + (n + 1)
      ∧ w'.sent = w.sent + (n + 1)
      ∧ w'.fs.files (finalPath env caid handler) = some (deliveredBytes chunks) := by
  obtain ⟨rest, rfl⟩ : ∃ rest, fuel = rest + 1 + n := ⟨fuel - 1 - n, by omega⟩
  have hrun := pollLoop_accepted_run env ctx caid handler (downloadURL env caid handler) u
    hctx hu hreq n (rest + 1) (1 * Second) 0 w
    (by simp only [maxAttempts]; omega) h202
  obtain ⟨hs, hc, -, -, -⟩ := afterAccepted_fields env n (1 * Second) w
  have hacc : accepted (env.server (afterAccepted env n (1 * Second) w).sent).reply.toResult
      = some { StatusCode := 200,
               Body := { chunks := chunks, closed := false, closeErr := none } } := by
    rw [hs, h200]
    simp [Reply.toResult, accepted]
  have hfirst := makeAPIRequest_first_try env ctx "GET" (downloadURL env caid handler) u
    (afterAccepted env n (1 * Second) w) _ hu hreq (Context.done_of_never ctx hctx _) hacc
  have hsave := SaveExportFile_ok env caid handler
    { StatusCode := 200, Body := { chunks := chunks, closed := false, closeErr := none } }
    { afterAccepted env n (1 * Second) w with
      now := (afterAccepted env n (1 * Second) w).now
        + (env.server (afterAccepted env n (1 * Second) w).sent).took,
      sent := (afterAccepted env n (1 * Second) w).sent + 1,
      calls := (afterAccepted env n (1 * Second) w).calls + 1 }
    hfaults hdir hpath rfl hreads
  have hcontent := SaveExportFile_saved _ _ _ _ _ hsave
  obtain ⟨-, f2, f3, -, -⟩ := SaveExportFile_frame env caid handler
    { StatusCode := 200, Body := { chunks := chunks, closed := false, closeErr := none } }
    { afterAccepted env n (1 * Second) w with
      now := (afterAccepted env n (1 * Second) w).now
        + (env.server (afterAccepted env n (1 * Second) w).sent).took,
      sent := (afterAccepted env n (1 * Second) w).sent + 1,
      calls := (afterAccepted env n (1 * Second) w).calls + 1 }
  refine ⟨_, ?_, ?_, ?_, hcontent⟩
  · show pollLoop env ctx caid handler (downloadURL env caid handler) (rest + 1 + n)
      (1 * Second) 0 w = _
    rw [hrun, pollLoop]
    simp only [Context.done_of_never ctx hctx, hfirst, Bool.false_eq_true, if_false, if_true,
      hsave, Body.Close]
  · rw [f3]; simp only [hc]; omega
  · rw [f2]; simp only [hs]; omega

set_option maxRecDepth 100000 in
/-- C6 at a concrete input: the sequence `202, 202, 200` of the repository tests. -/
theorem checkExportStatus_succeeds_after_accepted_witness :
    ∃ w', checkExportStatusWithContext 60 pollingEnv background 123456 sampleHandler startWorld
        = some (none, w')
      ∧ w'.calls = 0 + (2 + 1)
      ∧ w'.sent = 0 + (2 + 1)
      ∧ w'.fs.files (finalPath pollingEnv 123456 sampleHandler)
          = some (deliveredBytes
              [{ data := asciiBytes "export file content", err := some .eof }]) :=
  checkExportStatus_succeeds_after_accepted 60 pollingEnv background 123456 sampleHandler
    (downloadURL pollingEnv 123456 sampleHandler) startWorld 2
    [{ data := asciiBytes "export file content", err := some .eof }]
    (by decide) (by decide) rfl rfl rfl (by decide) rfl rfl rfl (by decide) (by decide)

/-- C7: for every server, context and starting state, `checkExportStatusWithContext`
returns, and hands at most 60 status requests to the executor; when the first 60
responses are all `202` and the context never ends, it returns the
`maximum number of attempts (60) reached` error after the 60th request. -/
theorem checkExportStatus_at_most_sixty_requests (fuel : Nat) (env : Env) (ctx : Context)
    (caid : Int) (handler : String) (w : World) (hfuel : 60 ≤ fuel) :
    (∃ r, checkExportStatusWithContext fuel env ctx caid handler w = some r
      ∧ r.2.calls ≤ w.calls + 60)
    ∧ (ctx.doneAt = none →
        ∀ u, env.urlParse (downloadURL env caid handler) = .ok u →
          env.newRequest "GET" u = none →
          (∀ i < 60, stillInProgress (env.server (w.sent + i)).reply = true) →
          ∃ w', checkExportStatusWithContext fuel env ctx caid handler w
              = some (some
                  "maximum number of attempts (60) reached while waiting for export to complete",
                  w')
            ∧ w'.calls = w.calls + 60 ∧ w'.sent = w.sent + 60) := by
  constructor
  · obtain ⟨r, _, h1, h2, -⟩ := pollLoop_total env ctx caid handler
      (downloadURL env caid handler) fuel (1 * Second) 0 w (by decide)
      (by simpa [maxAttempts] using hfuel)
    exact ⟨r, h1, by simpa [maxAttempts] using h2⟩
  · intro hctx u hu hn hall
    have h := pollLoop_sixty_accepted env ctx caid handler (downloadURL env caid handler) u
      hctx hu hn fuel (1 * Second) w hfuel hall
    obtain ⟨hs, hc, -⟩ := afterAccepted_fields env 60 (1 * Second) w
    exact ⟨_, h, hc, hs⟩

/-- C7 at a concrete input: a server that answers `202` forever. -/
theorem checkExportStatus_at_most_sixty_requests_witness :
    ∃ w', checkExportStatusWithContext 60 acceptedForeverEnv background 123456 sampleHandler
        startWorld
        = some (some
            "maximum number of attempts (60) reached while waiting for export to complete", w')
      ∧ w'.calls = 0 + 60 ∧ w'.sent = 0 + 60 :=
  (checkExportStatus_at_most_sixty_requests 60 acceptedForeverEnv background 123456
    sampleHandler startWorld (Nat.le_refl 60)).2 rfl
    (downloadURL acceptedForeverEnv 123456 sampleHandler) rfl rfl (fun _ _ => rfl)

/-- C8: when the context is done, by deadline expiry or by cancellation alike, at
the check before a status request, the poller returns the
`timed out while waiting for export to complete` error without issuing a request;
when it becomes done during the sleep after a `202`, the poller returns the same
error and issues no further request; both hold whatever the attempt counter is, and
the error differs from the max-attempts error. -/
theorem checkExportStatus_context_done (env : Env) (ctx : Context) (caid : Int)
    (handler url : String) (fuel : Nat) (delay attempts : Int) (w : World) :
    (ctx.done w.now = true →
      pollLoop env ctx caid handler url (fuel + 1) delay attempts w
          = some (some "timed out while waiting for export to complete", w)
      ∧ checkExportStatusWithContext (fuel + 1) env ctx caid handler w
          = some (some "timed out while waiting for export to complete", w))
    ∧ (∀ (resp : Response) (w1 : World),
        ctx.done w.now = false →
        makeAPIRequest env ctx "GET" url w = (.ok resp, w1) →
        resp.StatusCode = 202 → resp.Body.closeErr = none →
        ctx.done (w1.now + delay.toNat) = true →
        ∃ w', pollLoop env ctx caid handler url (fuel + 1) delay attempts w
            = some (some "timed out while waiting for export to complete", w')
          ∧ w'.sent = w1.sent ∧ w'.calls = w1.calls)
    ∧ "timed out while waiting for export to complete" ≠ maxAttemptsMsg := by
  refine ⟨?_, ?_, by decide⟩
  · intro hdone
    constructor
    · rw [pollLoop]
      simp [hdone, timedOutMsg]
    · unfold checkExportStatusWithContext
      simp only
      rw [pollLoop]
      simp [hdone, timedOutMsg]
  · intro resp w1 hlive hreq h202 hclose hdue
    refine ⟨{ w1 with now := ctx.wake w1.now (w1.now + delay.toNat) }, ?_, rfl, rfl⟩
    rw [pollLoop]
    simp [hlive, hreq, h202, hclose, hdue, Body.Close, timedOutMsg]

set_option maxRecDepth 100000 in
/-- C8 at concrete inputs: a context already expired at the first check, and a
context that expires half a second into the first sleep, with attempts remaining. -/
theorem checkExportStatus_context_done_witness :
    checkExportStatusWithContext 60 acceptedForeverEnv (withDeadline 0) 123456 sampleHandler
        startWorld
      = some (some "timed out while waiting for export to complete", startWorld)
    ∧ ∃ w', pollLoop acceptedForeverEnv (withDeadline 500000000) 123456 sampleHandler
          (downloadURL acceptedForeverEnv 123456 sampleHandler) (59 + 1) (1 * Second) 0
          startWorld
        = some (some "timed out while waiting for export to complete", w')
      ∧ w'.sent = 1 ∧ w'.calls = 1 :=
  ⟨((checkExportStatus_context_done acceptedForeverEnv (withDeadline 0) 123456 sampleHandler
      (downloadURL acceptedForeverEnv 123456 sampleHandler) 59 (1 * Second) 0
      startWorld).1 (by decide)).2,
   (checkExportStatus_context_done acceptedForeverEnv (withDeadline 500000000) 123456
      sampleHandler (downloadURL acceptedForeverEnv 123456 sampleHandler) 59 (1 * Second) 0
      startWorld).2.1
      { StatusCode := 202,
        Body := { chunks := [{ data := asciiBytes "", err := some .eof }],
                  closed := false, closeErr := none } }
      { startWorld with sent := 1, calls := 1 }
      (by decide) rfl rfl rfl (by decide)⟩

/-- C9: the sleeps of `checkExportStatusWithContext` are, in order, `min(2^k, 30)`
seconds for `k = 0, 1, 2, ...`: one second at first, doubled after each non-terminal
iteration, never more than 30 seconds; and when the first `n <= 60` responses are
`202` and the context never ends, there is such a sleep after each of them. -/
theorem checkExportStatus_poll_delays (fuel : Nat) (env : Env) (ctx : Context)
    (caid : Int) (handler : String) (w : World) (hfuel : 60 ≤ fuel) :
    (∀ k, nextDelay^[k] (1 * Second) = min (2 ^ k) 30 * Second)
    ∧ (∀ k, specPollDelay k ≤ 30 * Second)
    ∧ specPollDelay 0 = 1 * Second
    ∧ ∃ r m, checkExportStatusWithContext fuel env ctx caid handler w = some r
        ∧ r.2.sleeps = w.sleeps ++ (List.range m).map (fun k => min (2 ^ k) 30 * Second)
        ∧ (ctx.doneAt = none →
            ∀ u, env.urlParse (downloadURL env caid handler) = .ok u →
              env.newRequest "GET" u = none →
              ∀ n ≤ 60, (∀ i < n, stillInProgress (env.server (w.sent + i)).reply = true) →
                n ≤ m) := by
  have hiter : ∀ k, nextDelay^[k] (1 * Second) = min (2 ^ k) 30 * Second := nextDelay_iterate
  have hmap : ∀ m, (List.range m).map (fun i => nextDelay^[i] (1 * Second))
      = (List.range m).map (fun k => min (2 ^ k) 30 * Second) := by
    intro m
    exact List.map_congr_left (fun i _ => hiter i)
  refine ⟨hiter, ?_, by decide, ?_⟩
  · intro k
    unfold specPollDelay
    have : min ((2 : Int) ^ k) 30 ≤ 30 := min_le_right _ _
    simp only [Second]
    omega
  · obtain ⟨r, m, h1, -, h3⟩ := pollLoop_total env ctx caid handler
      (downloadURL env caid handler) fuel (1 * Second) 0 w (by decide)
      (by simpa [maxAttempts] using hfuel)
    refine ⟨r, m, h1, by rw [h3, hmap], ?_⟩
    intro hctx u hu hn n hn60 hall
    obtain ⟨r', m', g1, g2, g3⟩ := pollLoop_sleeps_of_accepted env ctx caid handler
      (downloadURL env caid handler) u hctx hu hn n fuel (1 * Second) 0 w
      (by simp only [maxAttempts]; omega) (by decide)
      (by simpa [maxAttempts] using hfuel) hall
    have hr : r' = r := by
      rw [g1] at h1
      exact Option.some.inj h1
    subst hr
    have hlen := congrArg List.length (g2.symm.trans h3)
    simp only [List.length_append, List.length_map, List.length_range] at hlen
    omega

set_option maxRecDepth 100000 in
/-- C9 at a concrete input: the sequence `202, 202, 200` sleeps one second, then two. -/
theorem checkExportStatus_poll_delays_witness :
    ∃ r m, checkExportStatusWithContext 60 pollingEnv background 123456 sampleHandler
        startWorld = some r
      ∧ r.2.sleeps = [] ++ (List.range m).map (fun k => min (2 ^ k) 30 * Second)
      ∧ 2 ≤ m :=
  have h := (checkExportStatus_poll_delays 60 pollingEnv background 123456 sampleHandler
    startWorld (Nat.le_refl 60)).2.2.2
  h.elim fun r hr => hr.elim fun m hm =>
    ⟨r, m, hm.1, hm.2.1,
      hm.2.2 rfl (downloadURL pollingEnv 123456 sampleHandler) rfl rfl 2 (by decide)
        (by decide)⟩

/-! ## Claims about `SaveExportFile` -/

/-- C10: whenever `SaveExportFile` succeeds, the file at
`<output-dir>/export_<caid>_<handler>.zip` (with `.` for an empty output directory)
holds exactly the bytes the response body delivered up to its end of stream,
whatever the chunking of the reads, a last read that returns data together with the
end of the stream included. -/
theorem SaveExportFile_persists_body (env : Env) (caid : Int) (handler : String)
    (resp : Response) (w : World)
    (h : (SaveExportFile env caid handler resp w).1 = none) :
    (SaveExportFile env caid handler resp w).2.fs.files
        (filepathJoin (if env.outputDir = "" then "." else env.outputDir)
          ("export_" ++ toString caid ++ "_" ++ handler ++ ".zip"))
      = some (deliveredBytes resp.Body.chunks) :=
  SaveExportFile_saved env caid handler resp w h

set_option maxRecDepth 100000 in
/-- C10 at a concrete input: a body read in three chunks, the last one with data and
the end of the stream, saved with an empty output directory. -/
theorem SaveExportFile_persists_body_witness :
    (SaveExportFile acceptedForeverEnv 123456 sampleHandler chunkedResponse startWorld).1 = none
    ∧ (SaveExportFile acceptedForeverEnv 123456 sampleHandler chunkedResponse startWorld).2.fs.files
        "export_123456_28c5f5af-bd9e-423f-99a7-d2a8c440db7e.zip" = some [80, 75, 3, 4] :=
  ⟨by decide,
   (SaveExportFile_persists_body acceptedForeverEnv 123456 sampleHandler chunkedResponse
      startWorld (by decide)).trans (by decide)⟩

/-- C11: `SaveExportFile` never leaves a partially written file at the final path:
after every call the final path is either exactly as before, or the call succeeded,
the body was read to its end without error, and the final path holds all of it; on
every error the final path is as before; and when a body read or a temp-file write
fails, the call returns that wrapped error (`error reading response body: ...` or
`failed to write to temp file: ...`). -/
theorem SaveExportFile_final_path_atomic (env : Env) (caid : Int) (handler : String)
    (resp : Response) (w : World) :
    ((SaveExportFile env caid handler resp w).2.fs.files (finalPath env caid handler)
        = w.fs.files (finalPath env caid handler)
      ∨ ((SaveExportFile env caid handler resp w).1 = none
          ∧ readsCleanly resp.Body.chunks = true
          ∧ (SaveExportFile env caid handler resp w).2.fs.files (finalPath env caid handler)
              = some (deliveredBytes resp.Body.chunks)))
    ∧ (∀ e, (SaveExportFile env caid handler resp w).1 = some e →
        (SaveExportFile env caid handler resp w).2.fs.files (finalPath env caid handler)
          = w.fs.files (finalPath env caid handler))
    ∧ (ValidateOutputDir (effectiveOutputDir env) = none →
        ValidateFilePath env.tempDir (tempFilePath env caid handler) = none →
        env.faults.mkdirAll = none → env.faults.openFile = none →
        resp.Body.closed = false →
        ∀ e, (copyLoop env.faults resp.Body.chunks 0 []).1 = some e →
          (SaveExportFile env caid handler resp w).1 = some e
          ∧ (∃ msg, e = "error reading response body: " ++ msg
              ∨ e = "failed to write to temp file: " ++ msg)
          ∧ (SaveExportFile env caid handler resp w).2.fs.files (finalPath env caid handler)
              = w.fs.files (finalPath env caid handler)) := by
  obtain ⟨p1, -, p3⟩ := SaveExportFile_effects env caid handler resp w
  refine ⟨?_, p1, ?_⟩
  · cases h : (SaveExportFile env caid handler resp w).1 with
    | some e => exact Or.inl (p1 e h)
    | none => exact Or.inr ⟨rfl, (p3 h).2.2, SaveExportFile_saved env caid handler resp w h⟩
  · intro hdir hpath hmk hopen hlive e he
    have hs := (SaveExportFile_staging env caid handler resp w hdir hpath hmk hopen hlive).1 e he
    exact ⟨hs, copyLoop_error_shape _ _ _ _ _ he, p1 e hs⟩

set_option maxRecDepth 100000 in
/-- C11 at a concrete input: a body that fails after two bytes, over an earlier
artifact; the error is returned and the earlier artifact is untouched. -/
theorem SaveExportFile_final_path_atomic_witness :
    (SaveExportFile acceptedForeverEnv 123456 sampleHandler brokenResponse worldWithArtifact).1
        = some "error reading response body: unexpected EOF"
    ∧ (SaveExportFile acceptedForeverEnv 123456 sampleHandler brokenResponse
          worldWithArtifact).2.fs.files
        "export_123456_28c5f5af-bd9e-423f-99a7-d2a8c440db7e.zip" = some [1, 2, 3] :=
  (fun h => ⟨h.1, h.2.2.trans (by decide)⟩)
    ((SaveExportFile_final_path_atomic acceptedForeverEnv 123456 sampleHandler brokenResponse
      worldWithArtifact).2.2 (by decide) (by decide) rfl rfl rfl
      "error reading response body: unexpected EOF" (by decide))

set_option maxRecDepth 100000 in
/-- C12, the claim as stated fails: when the rename fails and the removal of the
deferred cleanup fails with it, `SaveExportFile` returns the rename error and the
completely written temp file is still at `<final-path>.tmp`. -/
theorem SaveExportFile_temp_left_behind :
    (SaveExportFile stuckEnv 123456 sampleHandler chunkedResponse startWorld).1
        = some "failed to rename temp file to final file: permission denied"
    ∧ tempFilePath stuckEnv 123456 sampleHandler
        = "export_123456_28c5f5af-bd9e-423f-99a7-d2a8c440db7e.zip.tmp"
    ∧ (SaveExportFile stuckEnv 123456 sampleHandler chunkedResponse startWorld).2.fs.files
        "export_123456_28c5f5af-bd9e-423f-99a7-d2a8c440db7e.zip.tmp" = some [80, 75, 3, 4] := by
  refine ⟨?_, ?_, ?_⟩ <;> decide

/-- C12, amended: after `SaveExportFile` returns from any exit path that follows the
opening of the temp file (success, read error, write error, rename error), no file
exists at `<final-path>.tmp`, provided the `os.Remove` of the deferred cleanup does
not fail; after a success there is none in any case. -/
theorem SaveExportFile_no_temp_file (env : Env) (caid : Int) (handler : String)
    (resp : Response) (w : World) :
    ((SaveExportFile env caid handler resp w).1 = none →
      (SaveExportFile env caid handler resp w).2.fs.files (tempFilePath env caid handler) = none)
    ∧ (ValidateOutputDir (effectiveOutputDir env) = none →
        ValidateFilePath env.tempDir (tempFilePath env caid handler) = none →
        env.faults.mkdirAll = none → env.faults.openFile = none →
        env.faults.remove = false →
        (SaveExportFile env caid handler resp w).2.fs.files (tempFilePath env caid handler)
          = none) :=
  ⟨fun h => ((SaveExportFile_effects env caid handler resp w).2.2 h).1,
   fun hdir hpath hmk hopen hrem =>
    SaveExportFile_temp_removed env caid handler resp w hdir hpath hmk hopen hrem⟩

set_option maxRecDepth 100000 in
/-- C12, amended, at a concrete input: a body that fails after two bytes; the
partially written temp file is removed. -/
theorem SaveExportFile_no_temp_file_witness :
    (SaveExportFile acceptedForeverEnv 123456 sampleHandler brokenResponse startWorld).1
        = some "error reading response body: unexpected EOF"
    ∧ (SaveExportFile acceptedForeverEnv 123456 sampleHandler brokenResponse
          startWorld).2.fs.files (tempFilePath acceptedForeverEnv 123456 sampleHandler) = none :=
  ⟨by decide,
   (SaveExportFile_no_temp_file acceptedForeverEnv 123456 sampleHandler brokenResponse
      startWorld).2 (by decide) (by decide) rfl rfl rfl⟩

set_option maxRecDepth 100000 in
/-- C13, the claim as stated fails: two `SaveExportFile` operations for the same
output directory, account id and handle stage their writes under the same temp
path. On an operating system that keeps the temp files, the first leaves its bytes
at `<final-path>.tmp` and the second replaces them at that very path. -/
theorem SaveExportFile_shares_temp_path :
    (SaveExportFile stuckEnv 123456 sampleHandler chunkedResponse startWorld).2.fs.files
        "export_123456_28c5f5af-bd9e-423f-99a7-d2a8c440db7e.zip.tmp" = some [80, 75, 3, 4]
    ∧ (SaveExportFile stuckEnv 123456 sampleHandler otherResponse
          (SaveExportFile stuckEnv 123456 sampleHandler chunkedResponse startWorld).2).2.fs.files
        "export_123456_28c5f5af-bd9e-423f-99a7-d2a8c440db7e.zip.tmp" = some [9, 9] := by
  refine ⟨?_, ?_⟩ <;> decide

/-- C13, amended: the temp path of `SaveExportFile` is the final path followed by
`.tmp`, fixed by output directory, account id and handle, and so the same for any
two operations on these; `SaveExportFile` touches no file but this temp path and
the final path, and where the temp file survives (rename and removal both fail) it
holds the bytes the operation copied. -/
theorem SaveExportFile_temp_path_fixed (env : Env) (caid : Int) (handler : String)
    (resp : Response) (w : World) :
    tempFilePath env caid handler = finalPath env caid handler ++ ".tmp"
    ∧ (∀ q, q ≠ finalPath env caid handler → q ≠ tempFilePath env caid handler →
        (SaveExportFile env caid handler resp w).2.fs.files q = w.fs.files q)
    ∧ (ValidateOutputDir (effectiveOutputDir env) = none →
        ValidateFilePath env.tempDir (tempFilePath env caid handler) = none →
        env.faults.mkdirAll = none → env.faults.openFile = none →
        resp.Body.closed = false →
        ∀ e, env.faults.rename = some e → env.faults.remove = true →
          (SaveExportFile env caid handler resp w).2.fs.files (tempFilePath env caid handler)
            = some (copyLoop env.faults resp.Body.chunks 0 []).2) :=
  ⟨rfl, (SaveExportFile_effects env caid handler resp w).2.1,
   fun hdir hpath hmk hopen hlive =>
    (SaveExportFile_staging env caid handler resp w hdir hpath hmk hopen hlive).2⟩

set_option maxRecDepth 100000 in
/-- C13, amended, at a concrete input: the bytes staged by an operation whose
rename and removal fail are at the final path followed by `.tmp`. -/
theorem SaveExportFile_temp_path_fixed_witness :
    (SaveExportFile stuckEnv 123456 sampleHandler otherResponse startWorld).2.fs.files
        (tempFilePath stuckEnv 123456 sampleHandler)
      = some (copyLoop stuckEnv.faults otherResponse.Body.chunks 0 []).2 :=
  (SaveExportFile_temp_path_fixed stuckEnv 123456 sampleHandler otherResponse startWorld).2.2
    (by decide) (by decide) rfl rfl rfl "permission denied" rfl rfl

/-- C15: when the output directory or the file path built from it and from the file
name `export_<caid>_<handler>.zip` contains a `..` segment, `SaveExportFile` returns
an error and leaves the whole state as it was: no directory is created and no file
is created, truncated, renamed or removed. -/
theorem SaveExportFile_rejects_traversal (env : Env) (caid : Int) (handler : String)
    (resp : Response) (w : World)
    (h : hasDotDotSegment (effectiveOutputDir env) = true
      ∨ hasDotDotSegment (finalPath env caid handler) = true) :
    ∃ e, SaveExportFile env caid handler resp w = (some e, w) :=
  SaveExportFile_rejects_dotdot env caid handler resp w
    (h.imp (stringsContains_of_segment _) (stringsContains_of_segment _))

set_option maxRecDepth 100000 in
/-- A `..` inside the handle that `filepath.Join` resolves away is not a `..` of the
resulting file path: with the output directory `/tmp/exports` and the handle
`a/../b`, the artifact is written to `/tmp/exports/b.zip`. -/
theorem SaveExportFile_joins_away_handle_dots :
    hasDotDotSegment (exportFileName 1 "a/../b") = true
    ∧ finalPath pollingEnv 1 "a/../b" = "/tmp/exports/b.zip"
    ∧ (SaveExportFile pollingEnv 1 "a/../b" chunkedResponse startWorld).1 = none
    ∧ (SaveExportFile pollingEnv 1 "a/../b" chunkedResponse startWorld).2.fs.files
        "/tmp/exports/b.zip" = some [80, 75, 3, 4] := by
  refine ⟨?_, ?_, ?_, ?_⟩ <;> decide

set_option maxRecDepth 100000 in
/-- C15 at a concrete input: the output directory `../invalid_dir` of the
repository tests. -/
theorem SaveExportFile_rejects_traversal_witness :
    hasDotDotSegment (effectiveOutputDir traversalEnv) = true
    ∧ ∃ e, SaveExportFile traversalEnv 123456 sampleHandler chunkedResponse startWorld
        = (some e, startWorld) :=
  ⟨by decide,
   SaveExportFile_rejects_traversal traversalEnv 123456 sampleHandler chunkedResponse
    startWorld (Or.inl (by decide))⟩

/-! ## Claims about the validators -/

set_option maxRecDepth 100000 in
/-- C16 (defect in the code): with `/tmp` as the system temp directory,
`ValidateFilePath` accepts the absolute path `/tmp-other/valid_file.zip`, which does
not lie under `/tmp`: the check is `strings.HasPrefix(path, tempDir)`, a test on
characters and not on directories, although the comment of the function says that
absolute paths are only allowed in the temp directory. A path that does lie under
`/tmp` is accepted and `/etc/passwd` is rejected, as in the repository tests. -/
theorem ValidateFilePath_accepts_sibling_of_temp :
    filepathIsAbs "/tmp-other/valid_file.zip" = true
    ∧ liesUnder "/tmp" "/tmp-other/valid_file.zip" = false
    ∧ ValidateFilePath "/tmp" "/tmp-other/valid_file.zip" = none
    ∧ liesUnder "/tmp" "/tmp/nested/valid_file.zip" = true
    ∧ ValidateFilePath "/tmp" "/tmp/nested/valid_file.zip" = none
    ∧ ValidateFilePath "/tmp" "/etc/passwd"
        = some "absolute paths are only allowed in the system temp directory: /etc/passwd" := by
  refine ⟨?_, ?_, ?_, ?_, ?_, ?_⟩ <;> decide

set_option maxRecDepth 100000 in
/-- C17, the claim as stated fails: `ValidateOutputDir` rejects `my..dir`, none of
whose components is `..`. -/
theorem ValidateOutputDir_rejects_inner_dots :
    hasDotDotSegment "my..dir" = false
    ∧ ValidateOutputDir "my..dir" = some "invalid output directory: my..dir" := by
  refine ⟨?_, ?_⟩ <;> decide

/-- C17, amended: `ValidateOutputDir` returns an error if and only if the directory
string contains `..` as a substring; so every string with a `..` path-traversal
segment is rejected, and every string without two consecutive dots, the empty
string included, is accepted. -/
theorem ValidateOutputDir_iff_substring (outputDir : String) :
    (ValidateOutputDir outputDir ≠ none ↔ ['.', '.'] <:+: outputDir.data)
    ∧ (['.', '.'] <:+: outputDir.data →
        ValidateOutputDir outputDir = some ("invalid output directory: " ++ outputDir))
    ∧ (hasDotDotSegment outputDir = true → ValidateOutputDir outputDir ≠ none)
    ∧ ValidateOutputDir "" = none := by
  have hsub : stringsContains outputDir ".." = true ↔ ['.', '.'] <:+: outputDir.data := by
    unfold stringsContains
    exact containsChars_iff _ _
  refine ⟨?_, ?_, ?_, by decide⟩
  · rw [← hsub]
    unfold ValidateOutputDir
    by_cases h : stringsContains outputDir ".." = true <;> simp [h]
  · intro h
    unfold ValidateOutputDir
    simp [hsub.2 h]
  · intro h
    unfold ValidateOutputDir
    simp [stringsContains_of_segment outputDir h]

set_option maxRecDepth 100000 in
/-- C17, amended, at a concrete input: a directory of the repository tests with a
`..` segment. -/
theorem ValidateOutputDir_iff_substring_witness :
    hasDotDotSegment "./another/../invalid" = true
    ∧ ValidateOutputDir "./another/../invalid" ≠ none :=
  ⟨by decide, (ValidateOutputDir_iff_substring "./another/../invalid").2.2.1 (by decide)⟩

/-- C19: `ValidateCAID` returns an error for every account id `<= 0` and no error
for every account id `> 0`. -/
theorem ValidateCAID_iff_positive (caid : Int) :
    (caid ≤ 0 → ValidateCAID caid = some ("invalid caid: " ++ toString caid))
    ∧ (0 < caid → ValidateCAID caid = none) := by
  unfold ValidateCAID
  constructor
  · intro h; simp [h]
  · intro h
    have : ¬ caid ≤ 0 := by omega
    simp [this]

set_option maxRecDepth 100000 in
/-- C19 at concrete inputs: the account ids of the repository tests. -/
theorem ValidateCAID_iff_positive_witness :
    ValidateCAID 0 = some "invalid caid: 0"
    ∧ ValidateCAID (-1) = some "invalid caid: -1"
    ∧ ValidateCAID 123456 = none :=
  ⟨((ValidateCAID_iff_positive 0).1 (by decide)).trans (by decide),
   ((ValidateCAID_iff_positive (-1)).1 (by decide)).trans (by decide),
   (ValidateCAID_iff_positive 123456).2 (by decide)⟩

/-- C18: `ValidateHandler` returns no error if and only if the handler, stripped of
its leading and trailing whitespace, consists of five groups of 8, 4, 4, 4 and 12
characters of `[0-9a-f]` joined by hyphens. -/
theorem ValidateHandler_iff_uuid_shape (handler : String) :
    ValidateHandler handler = none ↔ ∃ t, isTrimOf t handler.data ∧ isUUIDShape t := by
  have hval : ValidateHandler handler = none ↔
      uuidRegexMatch (trimSpaceChars handler.data) = true := by
    unfold ValidateHandler
    by_cases hnil : trimSpaceChars handler.data = []
    · simp only [hnil, if_true]
      constructor
      · intro h; simp at h
      · intro h; exact absurd h (by decide)
    · by_cases hm : uuidRegexMatch (trimSpaceChars handler.data) = true <;> simp [hnil, hm]
  rw [hval, uuidRegexMatch_iff]
  constructor
  · intro h
    exact ⟨_, trimSpaceChars_isTrimOf handler.data, h⟩
  · rintro ⟨t, ht, hshape⟩
    rw [trimSpaceChars_eq_of_isTrimOf t handler.data ht]
    exact hshape

set_option maxRecDepth 100000 in
/-- C18 at concrete inputs: a valid UUID surrounded by whitespace passes; the empty
string, uppercase hex and a first group of seven characters fail. -/
theorem ValidateHandler_iff_uuid_shape_witness :
    (∃ t, isTrimOf t " 28c5f5af-bd9e-423f-99a7-d2a8c440db7e ".data ∧ isUUIDShape t)
    ∧ ValidateHandler "" = some "handler is required"
    ∧ ValidateHandler "28C5F5AF-BD9E-423F-99A7-D2A8C440DB7E" = some "invalid handler format"
    ∧ ValidateHandler "1234567-1234-1234-1234-1234567890ab" = some "invalid handler format" :=
  ⟨(ValidateHandler_iff_uuid_shape " 28c5f5af-bd9e-423f-99a7-d2a8c440db7e ").1 (by decide),
   by decide, by decide, by decide⟩

/-! ## Claims about validation, submission and the commands -/

set_option maxRecDepth 100000 in
/-- C14, the claim as stated fails: with the invalid account id 0 and an invalid
handle, `checkExportStatusWithContext` polls the server three times and succeeds,
and `initiateExport` and `downloadExportFile` send their request with the account
id 0; with the output directory `../invalid_dir`, `checkExportStatusWithContext`
sends its request and fails only when it saves the answer. -/
theorem operations_reach_network_unvalidated :
    ValidateCAID 0 = some "invalid caid: 0"
    ∧ ValidateHandler "not-a-handler" = some "invalid handler format"
    ∧ (checkExportStatusWithContext 60 pollingEnv background 0 "not-a-handler" startWorld).map
        (fun r => (r.1, r.2.sent)) = some (none, 3)
    ∧ (initiateExport submitEnv background 0 startWorld).1 = ("job 42", none)
    ∧ (initiateExport submitEnv background 0 startWorld).2.sent = 1
    ∧ (downloadExportFile pollingEnv background 0 sampleHandler startWorld).2.sent = 1
    ∧ ValidateOutputDir "../invalid_dir" = some "invalid output directory: ../invalid_dir"
    ∧ (checkExportStatusWithContext 60 traversalEnv background 123456 sampleHandler
          startWorld).map (fun r => (r.1, r.2.sent))
        = some (some ("failed to save export file: invalid output dir: "
            ++ "invalid output directory: ../invalid_dir"), 1) := by
  refine ⟨?_, ?_, ?_, ?_, ?_, ?_, ?_, ?_⟩ <;> decide

/-- C14, amended: the validation that keeps a request from the network sits in
`downloadExportFile`, for the handle and the output directory, and in the commands,
for the account id and the handle: `downloadExportFile` returns the validation
error of an invalid handle or of an output directory containing `..` and leaves
the state untouched, and so do the `export`, `status`, `download` and `auto`
commands for an invalid account id (`<= 0`) or an invalid handle. -/
theorem validation_precedes_requests (fuel : Nat) (env : Env) (ctx : Context)
    (handler : String) (caid : Int) (w : World) :
    (∀ e, ValidateHandler handler = some e →
      downloadExportFile env ctx caid handler w = (some e, w))
    ∧ (ValidateHandler handler = none →
        ∀ e, ValidateOutputDir (effectiveOutputDir env) = some e →
          downloadExportFile env ctx caid handler w = (some e, w))
    ∧ (∀ e, ValidateCAID caid = some e →
        exportCmdRunE env caid w = (some e, w)
        ∧ autoCmdRunE fuel env caid w = some (some e, w))
    ∧ (ValidateHandler handler ≠ none ∨ ValidateCAID caid ≠ none →
        ∃ e, (ValidateHandler handler = some e ∨ ValidateCAID caid = some e)
          ∧ statusCmdRunE fuel env handler caid w = some (some e, w)
          ∧ downloadCmdRunE env handler caid w = (some e, w)) := by
  refine ⟨?_, ?_, ?_, ?_⟩
  · intro e h
    simp [downloadExportFile, h]
  · intro h e hd
    simp only [effectiveOutputDir] at hd
    simp [downloadExportFile, h, hd]
  · intro e h
    exact ⟨by simp [exportCmdRunE, h], by simp [autoCmdRunE, h]⟩
  · intro h
    cases hh : ValidateHandler handler with
    | some e =>
      exact ⟨e, Or.inl rfl, by simp [statusCmdRunE, hh], by simp [downloadCmdRunE, hh]⟩
    | none =>
      cases hc : ValidateCAID caid with
      | some e =>
        exact ⟨e, Or.inr rfl, by simp [statusCmdRunE, hh, hc], by simp [downloadCmdRunE, hh, hc]⟩
      | none =>
        rcases h with h | h
        · exact absurd hh h
        · exact absurd hc h

set_option maxRecDepth 100000 in
/-- C14, amended, at concrete inputs: the `status` command with the account id 0,
and `downloadExportFile` with an invalid handle, return at once. -/
theorem validation_precedes_requests_witness :
    (∃ e, (ValidateHandler sampleHandler = some e ∨ ValidateCAID 0 = some e)
      ∧ statusCmdRunE 60 pollingEnv sampleHandler 0 startWorld = some (some e, startWorld)
      ∧ downloadCmdRunE pollingEnv sampleHandler 0 startWorld = (some e, startWorld))
    ∧ downloadExportFile pollingEnv background 123456 "not-a-handler" startWorld
        = (some "invalid handler format", startWorld) :=
  ⟨(validation_precedes_requests 60 pollingEnv background sampleHandler 0 startWorld).2.2.2
      (Or.inr (by decide)),
   (validation_precedes_requests 60 pollingEnv background "not-a-handler" 123456
      startWorld).1 "invalid handler format" (by decide)⟩

/-- C20: when the submit request is answered with the status `202` and an envelope
that decodes to the handler `H` and the status text `S`, `initiateExport` returns
exactly `H` and no error if `H` is not empty, whatever its shape, and the empty
string with the error `received empty handler in response` if it is. -/
theorem initiateExport_returns_handler (env : Env) (ctx : Context) (caid : Int)
    (w w1 : World) (resp : Response) (H S : String)
    (hreq : makeAPIRequest env ctx "POST" (exportURL env caid) w = (.ok resp, w1))
    (hstatus : resp.StatusCode = 202)
    (hdec : env.jsonDecodeAsync resp.Body = .ok { Handler := H, Status := S }) :
    (H ≠ "" → initiateExport env ctx caid w = ((H, none), w1))
    ∧ (H = "" →
        initiateExport env ctx caid w = (("", some "received empty handler in response"), w1)) := by
  simp only [exportURL] at hreq
  have hh : HandleHTTPError env resp = none := by
    simp [HandleHTTPError, hstatus]
  constructor
  · intro hH
    simp [initiateExport, hreq, hh, hdec, hH]
  · intro hH
    simp [initiateExport, hreq, hh, hdec, hH]

set_option maxRecDepth 100000 in
/-- C20 at concrete inputs: an envelope whose handler is `job 42`, and one whose
handler is empty. -/
theorem initiateExport_returns_handler_witness :
    (initiateExport submitEnv background 123456 startWorld).1 = ("job 42", none)
    ∧ (initiateExport emptyHandlerEnv background 123456 startWorld).1
        = ("", some "received empty handler in response") :=
  ⟨congrArg Prod.fst
    ((initiateExport_returns_handler submitEnv background 123456 startWorld _
      { StatusCode := 202,
        Body := { chunks := [{ data := asciiBytes submitBody, err := some .eof }],
                  closed := false, closeErr := none } }
      "job 42" "Export is in progress"
      (makeAPIRequest_first_try submitEnv background "POST" _ _ startWorld _ rfl rfl
        (by decide) (by decide))
      rfl rfl).1 (by decide)),
   congrArg Prod.fst
    ((initiateExport_returns_handler emptyHandlerEnv background 123456 startWorld _
      { StatusCode := 202,
        Body := { chunks := [{ data := asciiBytes emptyHandlerBody, err := some .eof }],
                  closed := false, closeErr := none } }
      "" "Export is in progress"
      (makeAPIRequest_first_try emptyHandlerEnv background "POST" _ _ startWorld _ rfl rfl
        (by decide) (by decide))
      rfl rfl).2 rfl)⟩

/-! ## C22: the executor stops once the context is done -/

/-- C22. When an attempt of `RetryableRequest` other than the last fails retryably
(a transport error, a `401` or a `5xx`) and the context is already done at that
moment, or becomes done before the backoff wait is over, the loop returns
`request context canceled: ` followed by the context's error and sends no further
request, whatever number `n` of iterations is left. -/
theorem RetryableRequest_stops_when_context_done (env : Env) (ctx : Context)
    (maxRetries : Int) (n : Nat) (attempt : Int) (err : Option String) (w : World)
    (hfail : accepted (clientDo env ctx w).1 = none)
    (hnonfinal : attempt ≠ maxRetries)
    (hdone : ctx.done (clientDo env ctx w).2.now = true
      ∨ ctx.done ((clientDo env ctx w).2.now + (backoffFor attempt).toNat) = true) :
    (retryLoop env ctx maxRetries (n + 1) attempt err w).1
        = .error ("request context canceled: " ++ ctx.errMsg)
    ∧ (retryLoop env ctx maxRetries (n + 1) attempt err w).2.sent = w.sent + 1 := by
  rw [retryLoop]
  simp only [hfail, hnonfinal, if_false]
  by_cases h2 : ctx.done (clientDo env ctx w).2.now = true
  · simp only [h2, if_true]
    exact ⟨trivial, clientDo_sent env ctx w⟩
  · have h2f : ctx.done (clientDo env ctx w).2.now = false := by simpa using h2
    have h3 : ctx.done ((clientDo env ctx w).2.now + (backoffFor attempt).toNat) = true := by
      rcases hdone with h | h
      · exact absurd h h2
      · exact h
    simp only [h2f, h3, if_true, if_false, Bool.false_eq_true]
    exact ⟨trivial, clientDo_sent env ctx w⟩

set_option maxRecDepth 100000 in
/-- C22, witness: a server that answers `500` and a deadline half a second into the
run, which expires during the first backoff wait of one second; of the four
attempts of the budget one is made. -/
theorem RetryableRequest_stops_when_context_done_witness :
    (RetryableRequest failingEnv (withDeadline 500000000) 3 startWorld).1
        = .error "request context canceled: context deadline exceeded"
    ∧ (RetryableRequest failingEnv (withDeadline 500000000) 3 startWorld).2.sent = 1 :=
  RetryableRequest_stops_when_context_done failingEnv (withDeadline 500000000) 3 3 0 none
    startWorld (by decide) (by decide) (Or.inr (by decide))

/-! ## C23: `HandleHTTPError` and `ParseAPIError` -/

/-- C23. `HandleHTTPError` returns nil exactly when the status is below 400; from
400 on it returns the error of `ParseAPIError`, which for a body that can be read
is `failed to parse error response: ...` when the body is no JSON envelope,
`API error: unknown error, status code <S>, response body: <body>` when the list of
errors is empty, and `API errors: ...` when it has entries. -/
theorem HandleHTTPError_nil_iff_below_400 (env : Env) (resp : Response) :
    (HandleHTTPError env resp = none ↔ resp.StatusCode < 400)
    ∧ (HandleHTTPError env resp ≠ none →
        HandleHTTPError env resp = some (ParseAPIError env resp))
    ∧ (∀ body, (ioReadAll resp.Body).1 = .ok body →
        (∀ e, env.jsonUnmarshal body = .error e →
          ParseAPIError env resp = "failed to parse error response: " ++ e)
        ∧ (env.jsonUnmarshal body = .ok [] →
          ParseAPIError env resp
            = "API error: unknown error, status code " ++ toString resp.StatusCode
                ++ ", response body: " ++ bytesToString body
          ∧ stringsContains (ParseAPIError env resp)
              ("unknown error, status code " ++ toString resp.StatusCode
                ++ ", response body: " ++ bytesToString body) = true)
        ∧ (∀ errors, errors ≠ [] → env.jsonUnmarshal body = .ok errors →
          ParseAPIError env resp
            = "API errors: " ++ "; ".intercalate (errors.map APIError.Error))) := by
  refine ⟨?_, ?_, ?_⟩
  · unfold HandleHTTPError
    by_cases h : resp.StatusCode ≥ 400
    · simp only [h, if_true]
      constructor
      · intro h'
        cases h'
      · intro h'
        omega
    · simp only [h, if_false, true_iff]
      omega
  · unfold HandleHTTPError
    by_cases h : resp.StatusCode ≥ 400
    · simp only [h, if_true, implies_true]
    · simp only [h, if_false, ne_eq, not_true_eq_false, false_implies]
  · intro body hb
    refine ⟨?_, ?_, ?_⟩
    · intro e he
      simp only [ParseAPIError, hb, he]
    · intro he
      have hp : ParseAPIError env resp
          = "API error: " ++ ("unknown error, status code " ++ toString resp.StatusCode
              ++ ", response body: " ++ bytesToString body) ++ "" := by
        simp only [ParseAPIError, hb, he, List.length_nil, if_true, String.append_empty]
        rw [show "API error: unknown error, status code "
          = "API error: " ++ "unknown error, status code " by decide]
        simp only [String.append_assoc]
      refine ⟨?_, ?_⟩
      · simp only [ParseAPIError, hb, he, List.length_nil, if_true]
      rw [hp]
      exact stringsContains_middle _ _ _
    · intro errors hne he
      have hl : ¬ errors.length = 0 := by
        intro h0
        exact hne (List.length_eq_zero.mp h0)
      simp only [ParseAPIError, hb, he, hl, if_false]

set_option maxRecDepth 100000 in
/-- C23 at a concrete input: a `400` response whose body is an envelope without
errors. -/
theorem HandleHTTPError_nil_iff_below_400_witness :
    HandleHTTPError rejectedSubmitEnv rejectedSubmitResponse
        = some (ParseAPIError rejectedSubmitEnv rejectedSubmitResponse)
    ∧ ParseAPIError rejectedSubmitEnv rejectedSubmitResponse
        = "API error: unknown error, status code " ++ toString rejectedSubmitResponse.StatusCode
            ++ ", response body: " ++ bytesToString (asciiBytes submitBody)
    ∧ stringsContains (ParseAPIError rejectedSubmitEnv rejectedSubmitResponse)
        ("unknown error, status code " ++ toString rejectedSubmitResponse.StatusCode
          ++ ", response body: " ++ bytesToString (asciiBytes submitBody)) = true :=
  ⟨(HandleHTTPError_nil_iff_below_400 rejectedSubmitEnv rejectedSubmitResponse).2.1
      (by decide),
   ((HandleHTTPError_nil_iff_below_400 rejectedSubmitEnv rejectedSubmitResponse).2.2
      (asciiBytes submitBody) rfl).2.1 rfl⟩

/-! ## C24: no `401` or `5xx` response leaves the executor -/

/-- C24. A response that `RetryableRequest`, and so `makeAPIRequest`, returns
without error has a status below 500 and other than 401; and every error of
`RetryableRequest` is one of the executor's own: `request failed after <n>
retries...` or `request context canceled: ...`, whatever body a `401` or `5xx`
response carried. -/
theorem RetryableRequest_never_returns_retryable (env : Env) (ctx : Context)
    (maxRetries : Int) (method rawURL : String) (w : World) :
    (∀ resp, (RetryableRequest env ctx maxRetries w).1 = .ok resp →
      resp.StatusCode < 500 ∧ resp.StatusCode ≠ 401)
    ∧ (∀ resp, (makeAPIRequest env ctx method rawURL w).1 = .ok resp →
      resp.StatusCode < 500 ∧ resp.StatusCode ≠ 401)
    ∧ (∀ e, (RetryableRequest env ctx maxRetries w).1 = .error e →
      (∃ rest, e = "request failed after " ++ toString maxRetries ++ " retries" ++ rest)
      ∨ e = "request context canceled: " ++ ctx.errMsg) :=
  ⟨fun resp h => retryLoop_ok_status env ctx maxRetries _ _ _ _ resp h,
   fun resp h => makeAPIRequest_ok_status env ctx method rawURL w resp h,
   fun e h => retryLoop_error_shape env ctx maxRetries _ _ _ _ e h⟩

set_option maxRecDepth 100000 in
/-- C24 at concrete inputs: a server that answers `500` and then `200`, and one that
answers `500` to every request. -/
theorem RetryableRequest_never_returns_retryable_witness :
    ((RetryableRequest recoveringEnv background 3 startWorld).1 = .ok recoveredResponse
      ∧ recoveredResponse.StatusCode < 500 ∧ recoveredResponse.StatusCode ≠ 401)
    ∧ ((RetryableRequest failingEnv background 3 startWorld).1
        = .error "request failed after 3 retries with status code: 500"
      ∧ ((∃ rest, "request failed after 3 retries with status code: 500"
            = "request failed after " ++ toString (3 : Int) ++ " retries" ++ rest)
        ∨ "request failed after 3 retries with status code: 500"
            = "request context canceled: " ++ background.errMsg)) :=
  ⟨⟨rfl, (RetryableRequest_never_returns_retryable recoveringEnv background 3 "GET" "" startWorld).1
      recoveredResponse rfl⟩,
   ⟨rfl, (RetryableRequest_never_returns_retryable failingEnv background 3 "GET" ""
      startWorld).2.2 _ rfl⟩⟩

/-! ## C21: the submitter and the status of the answer -/

set_option maxRecDepth 100000 in
/-- C21, counterexample: the submit request is answered with `300 Multiple Choices`,
a status outside the 2xx range, and a well-formed envelope with the handler
`job 42`; `initiateExport` returns that handler and no error. -/
theorem initiateExport_accepts_status_300 :
    redirectedSubmitEnv.server 0 = answer 300 submitBody
    ∧ (initiateExport redirectedSubmitEnv background 123456 startWorld).1
        = ("job 42", none) :=
  ⟨rfl, rfl⟩

/-- C21, amended: for every submit response that reaches `initiateExport` with a
status of 400 or above, `initiateExport` returns the empty handler and the parsed
API error, whatever envelope the body holds; a response with a status below 400,
inside the 2xx range or not, is decoded and the handler of its envelope is
returned. -/
theorem initiateExport_rejects_status_from_400 (env : Env) (ctx : Context) (caid : Int)
    (w w1 : World) (resp : Response)
    (hreq : makeAPIRequest env ctx "POST" (exportURL env caid) w = (.ok resp, w1)) :
    (resp.StatusCode ≥ 400 →
      initiateExport env ctx caid w
        = (("", some ("error response from export initiation: " ++ ParseAPIError env resp)),
            w1))
    ∧ (resp.StatusCode < 400 → ∀ H S, H ≠ "" →
      env.jsonDecodeAsync resp.Body = .ok { Handler := H, Status := S } →
      initiateExport env ctx caid w = ((H, none), w1)) := by
  simp only [exportURL] at hreq
  constructor
  · intro hs
    have hh : HandleHTTPError env resp = some (ParseAPIError env resp) := by
      simp [HandleHTTPError, hs]
    simp [initiateExport, hreq, hh]
  · intro hs H S hH hdec
    have hh : HandleHTTPError env resp = none := by
      simp [HandleHTTPError, hs]
    simp [initiateExport, hreq, hh, hdec, hH]

set_option maxRecDepth 100000 in
/-- C21 at a concrete input: a `400` answer that carries a well-formed envelope with
the handler `job 42`. -/
theorem initiateExport_rejects_status_from_400_witness :
    (initiateExport rejectedSubmitEnv background 123456 startWorld).1
      = ("", some ("error response from export initiation: API error: unknown error, "
          ++ "status code 400, response body: " ++ submitBody)) :=
  congrArg Prod.fst
    ((initiateExport_rejects_status_from_400 rejectedSubmitEnv background 123456 startWorld _
      { StatusCode := 400,
        Body := { chunks := [{ data := asciiBytes submitBody, err := some .eof }],
                  closed := false, closeErr := none } }
      (makeAPIRequest_first_try rejectedSubmitEnv background "POST" _ _ startWorld _ rfl rfl
        (by decide) (by decide))).1 (by decide))

/-! ## C25: the deadline of ten minutes and the limit of sixty attempts -/

set_option maxRecDepth 100000 in
/-- C25, counterexample: a server that answers `202` to every request, twenty seconds
after it was sent. The deadline of the `status` command expires while the fifteenth
request is in flight, and the command ends in the executor's error, not in the
timed-out error of the poller. -/
theorem statusCmd_deadline_expires_in_flight :
    (∀ i, stillInProgress (slowAcceptedEnv.server i).reply = true)
    ∧ (statusCmdRunE 60 slowAcceptedEnv sampleHandler 123456 startWorld).map Prod.fst
        = some (some ("error checking export status: failed to send request: "
            ++ "request context canceled: context deadline exceeded"))
    ∧ (statusCmdRunE 60 slowAcceptedEnv sampleHandler 123456 startWorld).map
        (fun r => r.2.sent) = some 15 :=
  ⟨fun _ => rfl, by decide, by decide⟩

/-- C25, amended: under the deadline of ten minutes that the `status` and `auto`
commands pass to `checkExportStatusWithContext`, the max-attempts error is
unreachable: the sleeps of sixty attempts add up to 1681 seconds, more than 600. A
server that answers `202` forever ends in the timed-out error when the deadline
expires at a context check or during a sleep, and in the error of the executor,
`failed to send request: request context canceled: context deadline exceeded`, when
it expires while a request is in flight. -/
theorem max_attempts_unreachable_under_command_deadline (fuel : Nat) (env : Env)
    (handler : String) (caid : Int) (w : World) :
    cumulativeDelay 60 (1 * Second) = (1 + 2 + 4 + 8 + 16 + 55 * 30) * 1000000000
    ∧ (10 * 60 * Second).toNat < cumulativeDelay 60 (1 * Second)
    ∧ (∀ r, statusCmdRunE fuel env handler caid w = some r →
        r.1 ≠ some ("error checking export status: " ++ maxAttemptsMsg))
    ∧ (∀ r, initiateAuto fuel env caid w = some r → r.1.2 ≠ some maxAttemptsMsg)
    ∧ (∀ t, t ≤ w.now →
        ∀ r, checkExportStatusWithContext fuel env (withTimeout t (10 * 60 * Second)) caid
          handler w = some r → r.1 ≠ some maxAttemptsMsg)
    ∧ (∀ t u, t ≤ w.now → 60 ≤ fuel →
        env.urlParse (downloadURL env caid handler) = .ok u → env.newRequest "GET" u = none →
        (∀ i, stillInProgress (env.server i).reply = true) →
        ∃ r, checkExportStatusWithContext fuel env (withTimeout t (10 * 60 * Second)) caid
            handler w = some r
          ∧ (r.1 = some timedOutMsg
            ∨ r.1 = some ("failed to send request: request context canceled: "
                ++ "context deadline exceeded"))) := by
  refine ⟨cumulativeDelay_sixty, ?_, ?_, ?_, ?_, ?_⟩
  · rw [cumulativeDelay_sixty]
    decide
  · exact fun r h => statusCmdRunE_never_max fuel env handler caid w r h
  · exact fun r h => initiateAuto_never_max fuel env caid w r h
  · exact fun t ht r h => checkExportStatus_never_max fuel env caid handler w t ht r h
  · intro t u ht hfuel hu hn h202
    obtain ⟨r, hr, hcase⟩ := pollLoop_accepted_forever env (withTimeout t (10 * 60 * Second))
      caid handler (downloadURL env caid handler) u _ rfl hu hn h202 59 fuel (1 * Second) 0 w
      (by decide) (withTimeout_bound t w.now ht) hfuel
    refine ⟨r, hr, ?_⟩
    rcases hcase with h1 | h1
    · exact Or.inl h1
    · right
      rw [h1]
      rfl

set_option maxRecDepth 100000 in
/-- C25 at concrete inputs: a server that answers `202` at once to every request;
the `status` command ends in the timed-out error. -/
theorem max_attempts_unreachable_under_command_deadline_witness :
    (∃ r, checkExportStatusWithContext 60 acceptedForeverEnv
          (withTimeout 0 (10 * 60 * Second)) 123456 sampleHandler startWorld = some r
        ∧ (r.1 = some timedOutMsg
          ∨ r.1 = some ("failed to send request: request context canceled: "
              ++ "context deadline exceeded")))
    ∧ (statusCmdRunE 60 acceptedForeverEnv sampleHandler 123456 startWorld).map Prod.fst
        = some (some ("error checking export status: " ++ timedOutMsg)) :=
  ⟨(max_attempts_unreachable_under_command_deadline 60 acceptedForeverEnv sampleHandler
      123456 startWorld).2.2.2.2.2 0 _ (Nat.le_refl _) (Nat.le_refl _) rfl rfl (fun _ => rfl),
   by decide⟩

/-! ## C26: absolute output directories outside the temp directory -/

set_option maxRecDepth 100000 in
/-- C26, counterexample: the output directory `//tmp/exports` is absolute, does not
have the temp directory `/tmp` as a prefix of its characters and passes
`ValidateOutputDir`; `filepath.Join` cleans it, the temp path starts with `/tmp`,
and `SaveExportFile` creates the directory and writes the artifact. -/
theorem SaveExportFile_accepts_unclean_temp_dir :
    filepathIsAbs (effectiveOutputDir doubleSlashEnv) = true
    ∧ stringsHasPrefix (effectiveOutputDir doubleSlashEnv) doubleSlashEnv.tempDir = false
    ∧ ValidateOutputDir (effectiveOutputDir doubleSlashEnv) = none
    ∧ (SaveExportFile doubleSlashEnv 123456 sampleHandler otherResponse startWorld).1 = none
    ∧ (SaveExportFile doubleSlashEnv 123456 sampleHandler otherResponse startWorld).2.fs.dirs
        "//tmp/exports" = true
    ∧ (SaveExportFile doubleSlashEnv 123456 sampleHandler otherResponse startWorld).2.fs.files
        "/tmp/exports/export_123456_28c5f5af-bd9e-423f-99a7-d2a8c440db7e.zip"
        = some [9, 9] :=
  ⟨by decide, by decide, by decide, by decide, by decide, by decide⟩

/-- C26, amended: for every absolute output directory whose temp-file path, as
`filepath.Join` builds and cleans it, does not have the system temp directory as a
prefix of its characters, `SaveExportFile` returns a validation error and leaves
the state unchanged, creating no directory and no file: the temp path is absolute
and fails `ValidateFilePath`, also when `ValidateOutputDir` accepts the
directory. -/
theorem SaveExportFile_rejects_absolute_dir (env : Env) (caid : Int) (handler : String)
    (resp : Response) (w : World)
    (habs : filepathIsAbs (effectiveOutputDir env) = true)
    (hpre : stringsHasPrefix (tempFilePath env caid handler) env.tempDir = false) :
    filepathIsAbs (tempFilePath env caid handler) = true
    ∧ ValidateFilePath env.tempDir (tempFilePath env caid handler) ≠ none
    ∧ (∃ e, SaveExportFile env caid handler resp w = (some e, w))
    ∧ (ValidateOutputDir (effectiveOutputDir env) = none →
        ∃ e, ValidateFilePath env.tempDir (tempFilePath env caid handler) = some e
          ∧ SaveExportFile env caid handler resp w = (some ("invalid file path: " ++ e), w)) := by
  have habs2 : filepathIsAbs (tempFilePath env caid handler) = true :=
    filepathJoin_abs _ _ habs
  have hrej := ValidateFilePath_rejects_absolute env.tempDir _ habs2 hpre
  have hsome : ∃ e, ValidateFilePath env.tempDir (tempFilePath env caid handler) = some e := by
    rcases hrej with h | h
    · exact ⟨_, h⟩
    · exact ⟨_, h⟩
  obtain ⟨e, he⟩ := hsome
  have hfile : ValidateOutputDir (effectiveOutputDir env) = none →
      SaveExportFile env caid handler resp w = (some ("invalid file path: " ++ e), w) := by
    intro hdir
    simp only [effectiveOutputDir, tempFilePath] at hdir he
    simp only [SaveExportFile, hdir, he]
  refine ⟨habs2, by rw [he]; exact Option.some_ne_none _, ?_, fun hdir => ⟨e, he, hfile hdir⟩⟩
  cases hdir : ValidateOutputDir (effectiveOutputDir env) with
  | none => exact ⟨_, hfile hdir⟩
  | some e2 =>
    refine ⟨"invalid output dir: " ++ e2, ?_⟩
    simp only [effectiveOutputDir] at hdir
    simp only [SaveExportFile, hdir]

set_option maxRecDepth 100000 in
/-- C26 at a concrete input: the output directory `/home/user/exports`, which
`ValidateOutputDir` accepts. -/
theorem SaveExportFile_rejects_absolute_dir_witness :
    ValidateOutputDir (effectiveOutputDir homeDirEnv) = none
    ∧ (∃ e, SaveExportFile homeDirEnv 123456 sampleHandler otherResponse startWorld
        = (some e, startWorld))
    ∧ (SaveExportFile homeDirEnv 123456 sampleHandler otherResponse startWorld).1
        = some ("invalid file path: absolute paths are only allowed in the system temp "
            ++ "directory: /home/user/exports/"
            ++ "export_123456_28c5f5af-bd9e-423f-99a7-d2a8c440db7e.zip.tmp") :=
  ⟨by decide,
   (SaveExportFile_rejects_absolute_dir homeDirEnv 123456 sampleHandler otherResponse
      startWorld (by decide) (by decide)).2.2.1,
   by decide⟩

/-! ## C27: the parent-directory check of `ValidateFilePath` -/

/-- C27. For every path without a `..` substring the directory computed by
`filepath.Dir` has no `..` substring either, so `ValidateOutputDir` accepts it; and
every error of `ValidateFilePath` is one of its first two, never
`invalid directory in file path`. -/
theorem ValidateFilePath_parent_check_never_fails (tempDir path : String) :
    (stringsContains path ".." = false →
      stringsContains (filepathDir path) ".." = false
      ∧ ValidateOutputDir (filepathDir path) = none)
    ∧ (∀ e, ValidateFilePath tempDir path = some e →
        e = "invalid file path: " ++ path
        ∨ e = "absolute paths are only allowed in the system temp directory: " ++ path) := by
  have hdir : stringsContains path ".." = false →
      stringsContains (filepathDir path) ".." = false
      ∧ ValidateOutputDir (filepathDir path) = none := by
    intro h
    have h2 := filepathDir_no_dotdot path h
    exact ⟨h2, by simp [ValidateOutputDir, h2]⟩
  refine ⟨hdir, ?_⟩
  intro e he
  unfold ValidateFilePath at he
  by_cases hc : stringsContains path ".." = true
  · simp only [hc, if_true, Option.some.injEq] at he
    exact Or.inl he.symm
  · have hcf : stringsContains path ".." = false := by simpa using hc
    simp only [hcf, Bool.false_eq_true, if_false] at he
    by_cases ha : (filepathIsAbs path && !stringsHasPrefix path tempDir) = true
    · simp only [ha, if_true, Option.some.injEq] at he
      exact Or.inr he.symm
    · simp only [ha, if_false, (hdir hcf).2] at he
      cases he

set_option maxRecDepth 100000 in
/-- C27 at a concrete input: a path whose components begin and end with single
dots. -/
theorem ValidateFilePath_parent_check_never_fails_witness :
    (stringsContains (filepathDir "/tmp/exports/./a./.b/file.zip") ".." = false
      ∧ ValidateOutputDir (filepathDir "/tmp/exports/./a./.b/file.zip") = none)
    ∧ filepathDir "/tmp/exports/./a./.b/file.zip" = "/tmp/exports/a./.b" :=
  ⟨(ValidateFilePath_parent_check_never_fails "/tmp" "/tmp/exports/./a./.b/file.zip").1
      (by decide),
   by decide⟩

end ImpervaExport
